import Mathlib

/-!
# easyopts: the option registry, its teardown and its help renderers

A shallow embedding of `src/src/easyopts.c` (with the enumerations of
`src/include/easyopts.h`).

Memory model.  The C code keeps four kinds of heap blocks, reached through typed
pointers: option objects, option list items, section objects and section list items.
Each kind lives in a region of its own, a list of blocks indexed by address; a
released block is `none`.  A pointer is `none` (NULL) or `some a`.  `malloc` never
fails and always hands out a fresh address.  Dereferencing NULL, a released block or
an address outside the region is undefined behaviour, and every operation that can
meet it returns `Option`: `none` is undefined behaviour (or a loop that never ends).

`malloc` does not clear memory.  The only field the code reads without having
written it is the `next` link of the list item made by `easyopts_addOption`; its
content is whatever the allocator left there, and the embedding takes it as the
parameter `junk` (the content found in the block at a given address).

Strings (`const char *`) are modelled by their contents; enumerations are C
integers; function pointers are names.
-/

namespace Easyopts

/-- A pointer into a region: `none` is NULL. -/
abbrev Ptr := Option Nat

/-- A region of the heap: block `a` is `some v` while allocated, `none` once released. -/
abbrev Region (α : Type) := List (Option α)

/-- Names of the callbacks (function pointers); `NULL` is the null function pointer. -/
inductive FnPtr where
  | NULL
  | assignVersion
  | assignHelp
  | assignHelpJson
  | assignHelpHidden
  | assignHelpHiddenJson
  | user (id : Nat)
  deriving DecidableEq, Repr

/-! ## Enumerations of `easyopts.h` -/

abbrev DATATYPE_INVALID : Int := 0
abbrev DATATYPE_SIGNED_CHAR : Int := 1
abbrev DATATYPE_UNSIGNED_CHAR : Int := 2
abbrev DATATYPE_SIGNED_SHORT : Int := 3
abbrev DATATYPE_UNSIGNED_SHORT : Int := 4
abbrev DATATYPE_SIGNED_INT : Int := 5
abbrev DATATYPE_UNSIGNED_INT : Int := 6
abbrev DATATYPE_SIGNED_LONG : Int := 7
abbrev DATATYPE_UNSIGNED_LONG : Int := 8
abbrev DATATYPE_SIGNED_LONG_LONG : Int := 9
abbrev DATATYPE_UNSIGNED_LONG_LONG : Int := 10
abbrev DATATYPE_FLOAT : Int := 11
abbrev DATATYPE_DOUBLE : Int := 12
abbrev DATATYPE_STRING : Int := 13
abbrev DATATYPE_LIMIT : Int := DATATYPE_STRING + 1

abbrev TYPE_INVALID : Int := 0
abbrev TYPE_PUBLIC : Int := 1
abbrev TYPE_HIDDEN : Int := 2
abbrev TYPE_DEPRECATED : Int := 3
abbrev TYPE_LIMIT : Int := TYPE_DEPRECATED + 1

abbrev REQUIRED_INVALID : Int := 0
abbrev REQUIRED_NONE : Int := 1
abbrev REQUIRED_REQUIRED : Int := 2
abbrev REQUIRED_OPTIONAL : Int := 3
abbrev REQUIRED_LIMIT : Int := REQUIRED_OPTIONAL + 1

/-! ## The structures of `easyopts.c` -/

/-- The `struct easyopts_option`. -/
structure easyopts_option where
  shortOption : Nat
  longOption : String
  type : Int
  isRequired : Int
  validate : FnPtr
  assign : FnPtr
  description : String
  deriving DecidableEq, Repr

/-- The `struct easyopts_section`. -/
structure easyopts_section where
  name : String
  description : String
  type : Int
  firstOption : Ptr
  lastOption : Ptr
  deriving DecidableEq, Repr

/-- The `struct easyopts_sections_list`: an item of the linked list of sections. -/
structure easyopts_sections_list where
  object : Ptr
  next : Ptr
  deriving DecidableEq, Repr

/-- The `struct easyopts_options_list`: an item of the linked list of options. -/
structure easyopts_options_list where
  object : Ptr
  next : Ptr
  deriving DecidableEq, Repr

/-- The `easyopts_programOptions_t`. -/
structure easyopts_programOptions where
  argc : Int
  argv : List String
  description : String
  firstSection : Ptr
  lastSection : Ptr
  deriving DecidableEq, Repr

/-- The `easyopts_remainingArgs_t`, passed by value; the strings stand for the owned copies. -/
structure easyopts_remainingArgs where
  remainingArgsSize : Int
  remainingArgs : List String
  deriving DecidableEq, Repr

/-- A block handed to `free`, as recorded in the release log. -/
inductive Block where
  | optionObject (a : Nat)
  | optionListItem (a : Nat)
  | sectionObject (a : Nat)
  | sectionListItem (a : Nat)
  | argString (i : Nat)
  | argArray
  | argContainer
  deriving DecidableEq, Repr

/-- The whole program state the library touches: the static `s_commandLineOptions`,
the four heap regions, standard output, and the log of the blocks released so far. -/
structure World where
  s_commandLineOptions : easyopts_programOptions
  options : Region easyopts_option
  optionItems : Region easyopts_options_list
  sections : Region easyopts_section
  sectionItems : Region easyopts_sections_list
  stdout : String
  released : List Block
  deriving DecidableEq, Repr

/-! ## Heap primitives -/

/-- Read through a pointer: `none` for NULL, a released block or a wild address. -/
def Region.load {α : Type} (m : Region α) (p : Ptr) : Option α :=
  match p with
  | none => none
  | some a => (m[a]?).join

/-- Write through a pointer; the block must be allocated. -/
def Region.store {α : Type} (m : Region α) (p : Ptr) (v : α) : Option (Region α) :=
  match p with
  | none => none
  | some a =>
    match m.load (some a) with
    | some _ => some (m.set a (some v))
    | none => none

/-- The `malloc` of a block, filled with `v`: a fresh address at the end of the region. -/
def Region.malloc {α : Type} (m : Region α) (v : α) : Region α × Nat :=
  (m ++ [some v], m.length)

/-- The `free` of a block: `free(NULL)` does nothing, releasing anything but an allocated
block is undefined. -/
def Region.free {α : Type} (m : Region α) (p : Ptr) : Option (Region α) :=
  match p with
  | none => some m
  | some a =>
    match m.load (some a) with
    | some _ => some (m.set a none)
    | none => none

/-- The log entry of a `free(p)`: nothing for NULL. -/
def logFree (mk : Nat → Block) (p : Ptr) (log : List Block) : List Block :=
  match p with
  | none => log
  | some a => log ++ [mk a]

/-- The `printf` of an already formatted text. -/
def printf (text : String) (w : World) : World :=
  { w with stdout := w.stdout ++ text }

/-! ## Registration: `easyopts_addSection`, `easyopts_addOption`, `easyopts_initProgramOptions` -/

/-- The `easyopts_addSection`: returns the new state and the handle (the section object). -/
def easyopts_addSection (name description : String) (type : Int) (w : World) :
    Option (World × Ptr) :=
  let (secs, sa) := w.sections.malloc
    { name := name, description := description, type := type,
      firstOption := none, lastOption := none }
  let sect : Ptr := some sa
  -- Allocate a sections_list item to hold it.
  let (items, ia) := w.sectionItems.malloc { object := sect, next := none }
  let item : Ptr := some ia
  let w1 : World := { w with sections := secs, sectionItems := items }
  -- And link it in
  let w2 : World :=
    if w1.s_commandLineOptions.firstSection = none then
      { w1 with s_commandLineOptions := { w1.s_commandLineOptions with firstSection := item } }
    else w1
  let w3? : Option World :=
    if w2.s_commandLineOptions.lastSection ≠ none then
      (w2.sectionItems.load w2.s_commandLineOptions.lastSection).bind fun last =>
      (w2.sectionItems.store w2.s_commandLineOptions.lastSection { last with next := item }).map
        fun m => { w2 with sectionItems := m }
    else some w2
  w3?.map fun w3 =>
    ({ w3 with s_commandLineOptions := { w3.s_commandLineOptions with lastSection := item } }, sect)

/-- The `easyopts_addOption`.  `junk a` is the content the allocator left in the `next`
field of the list item it hands out at address `a`; the code never writes that field. -/
def easyopts_addOption (junk : Nat → Ptr) (gs : Ptr) (shortOption : Nat) (longOption : String)
    (type : Int) (isRequired : Int) (validate assign : FnPtr) (description : String)
    (w : World) : Option World :=
  let sect : Ptr := gs
  -- Create and fill in the option object
  let (opts, oa) := w.options.malloc
    { shortOption := shortOption, longOption := longOption, type := type,
      isRequired := isRequired, validate := validate, assign := assign,
      description := description }
  let option : Ptr := some oa
  -- Create a list node and bind the option data to it
  let (items, ia) := w.optionItems.malloc
    { object := option, next := junk w.optionItems.length }
  let pListItem : Ptr := some ia
  let w1 : World := { w with options := opts, optionItems := items }
  -- And connect the node to the end
  (w1.sections.load sect).bind fun s0 =>
  (if s0.firstOption = none then
      (w1.sections.store sect { s0 with firstOption := pListItem }).map
        fun m => { w1 with sections := m }
    else some w1).bind fun w2 =>
  (w2.sections.load sect).bind fun s1 =>
  (if s1.lastOption ≠ none then
      (w2.optionItems.load s1.lastOption).bind fun last =>
      (w2.optionItems.store s1.lastOption { last with next := pListItem }).map
        fun m => { w2 with optionItems := m }
    else some w2).bind fun w3 =>
  (w3.sections.load sect).bind fun s2 =>
  (w3.sections.store sect { s2 with lastOption := pListItem }).map
    fun m => { w3 with sections := m }

/-- The `easyopts_initProgramOptions`. -/
def easyopts_initProgramOptions (junk : Nat → Ptr) (argc : Int) (argv : List String)
    (description : String) (w : World) : Option World :=
  let w0 : World :=
    { w with s_commandLineOptions :=
        { argc := argc, argv := argv, description := description,
          firstSection := none, lastSection := none } }
  -- And now add the default groups with the help and version options
  (easyopts_addSection "Common" "Provide Common Arguments for help and versioning"
    TYPE_PUBLIC w0).bind fun (w1, sect) =>
  (easyopts_addOption junk sect 'v'.toNat "version" DATATYPE_STRING REQUIRED_NONE
    FnPtr.NULL FnPtr.assignVersion "Print the library's version information" w1).bind fun w2 =>
  (easyopts_addOption junk sect 'h'.toNat "help" DATATYPE_STRING REQUIRED_NONE
    FnPtr.NULL FnPtr.assignHelp "Print program usage and exit." w2).bind fun w3 =>
  (easyopts_addOption junk sect 0 "help-json" DATATYPE_STRING REQUIRED_NONE
    FnPtr.NULL FnPtr.assignHelpJson "Print program usage in Json format and exit." w3).bind
      fun w4 =>
  (easyopts_addSection "Common Hidden"
    "Provide Common Arguments for help and versioning (Hidden)" TYPE_HIDDEN w4).bind
      fun (w5, sect) =>
  (easyopts_addOption junk sect 0 "help-hidden" DATATYPE_STRING REQUIRED_NONE
    FnPtr.NULL FnPtr.assignHelpHidden
    "Print program usage (including hidden options) and exit." w5).bind fun w6 =>
  easyopts_addOption junk sect 0 "help-hidden-json" DATATYPE_STRING REQUIRED_NONE
    FnPtr.NULL FnPtr.assignHelpHiddenJson
    "Print program usage in Json format (including hidden options) and exit." w6

/-! ## Teardown: `freeOption`, `freeSection`, `easyopts_free` -/

/-- The `freeOption`: releases the option object of a list item, then the item. -/
def freeOption (option : Ptr) (w : World) : Option World :=
  (w.optionItems.load option).bind fun item =>
  -- free option object associated with list item
  (w.options.free item.object).bind fun opts =>
  let w1 : World :=
    { w with options := opts, released := logFree Block.optionObject item.object w.released }
  -- and free the list item
  (w1.optionItems.free option).map fun items =>
    { w1 with optionItems := items,
              released := logFree Block.optionListItem option w1.released }

/-- The `while` loop of `freeSection`; `fuel` bounds the number of iterations. -/
def freeSectionLoop : Nat → Ptr → World → Option World
  | 0, _, _ => none
  | fuel + 1, sect, w =>
    (w.sectionItems.load sect).bind fun item =>
    (w.sections.load item.object).bind fun s =>
    match s.firstOption with
    | none => some w
    | some c =>
      let cur : Ptr := some c
      (w.optionItems.load s.firstOption).bind fun first =>
      (w.sections.store item.object { s with firstOption := first.next }).bind fun secs =>
      (freeOption cur { w with sections := secs }).bind fun w1 =>
      freeSectionLoop fuel sect w1

/-- The `freeSection`.  Every iteration of its loop releases one allocated option list
item, so one more iteration than the region has blocks is never reached. -/
def freeSection (sect : Ptr) (w : World) : Option World :=
  (freeSectionLoop (w.optionItems.length + 1) sect w).bind fun w1 =>
  (w1.sectionItems.load sect).bind fun item =>
  -- delete the section object associated with the list item
  (w1.sections.free item.object).bind fun secs =>
  let w2 : World :=
    { w1 with sections := secs, released := logFree Block.sectionObject item.object w1.released }
  -- delete the list item for the section
  (w2.sectionItems.free sect).map fun items =>
    { w2 with sectionItems := items,
              released := logFree Block.sectionListItem sect w2.released }

/-- The first `while` loop of `easyopts_free`. -/
def freeProgramOptionsLoop : Nat → World → Option World
  | 0, _ => none
  | fuel + 1, w =>
    match w.s_commandLineOptions.firstSection with
    | none => some w
    | some c =>
      let cur : Ptr := some c
      (w.sectionItems.load w.s_commandLineOptions.firstSection).bind fun first =>
      let w1 : World :=
        { w with s_commandLineOptions :=
            { w.s_commandLineOptions with firstSection := first.next } }
      (freeSection cur w1).bind fun w2 =>
      freeProgramOptionsLoop fuel w2

/-- The `for` loop of `easyopts_free` over the remaining arguments, from index `i`. -/
def freeRemainingArgsLoop (gra : easyopts_remainingArgs) : Nat → Nat → World → Option World
  | 0, _, _ => none
  | fuel + 1, i, w =>
    if (i : Int) < gra.remainingArgsSize then
      (gra.remainingArgs[i]?).bind fun _ =>
      freeRemainingArgsLoop gra fuel (i + 1)
        { w with released := w.released ++ [Block.argString i] }
    else some w

/-- The `easyopts_free`; `gra = none` is the call `easyopts_free(NULL)`. -/
def easyopts_free (gra : Option easyopts_remainingArgs) (w : World) : Option World :=
  -- Free the program options
  (freeProgramOptionsLoop (w.sectionItems.length + 1) w).bind fun w1 =>
  -- And now free the remainingArgs
  match gra with
  | none => some w1
  | some g =>
    (freeRemainingArgsLoop g (g.remainingArgs.length + 1) 0 w1).map fun w2 =>
      { w2 with released := w2.released ++ [Block.argArray, Block.argContainer] }

/-! ## Help: `easyopts_print_type`, `easyopts_print_option_type`, `_easyopts_help` -/

/-- The `easyopts_print_type`. -/
def easyopts_print_type (t : Int) : String :=
  if t = TYPE_PUBLIC then "Options are public"
  else if t = TYPE_HIDDEN then "Options are hidden"
  else if t = TYPE_DEPRECATED then "Options are deprecated"
  else "Options are Unknown"

/-- The `easyopts_print_option_type`. -/
def easyopts_print_option_type (t : Int) : String :=
  if t = DATATYPE_INVALID then "Invalid"
  else if t = DATATYPE_SIGNED_CHAR then "Signed Char"
  else if t = DATATYPE_UNSIGNED_CHAR then "Unsigned Char"
  else if t = DATATYPE_SIGNED_SHORT then "Signed Short"
  else if t = DATATYPE_UNSIGNED_SHORT then "Unsigned Short"
  else if t = DATATYPE_SIGNED_INT then "Signed Integer"
  else if t = DATATYPE_UNSIGNED_INT then "Unsigned Integer"
  else if t = DATATYPE_SIGNED_LONG then "Signed Long"
  else if t = DATATYPE_UNSIGNED_LONG then "Unsigned Long"
  else if t = DATATYPE_SIGNED_LONG_LONG then "Signed Long Long"
  else if t = DATATYPE_UNSIGNED_LONG_LONG then "Unsigned Long Long"
  else if t = DATATYPE_FLOAT then "Float"
  else if t = DATATYPE_DOUBLE then "Double"
  else if t = DATATYPE_STRING then "String"
  else "Options are Unknown"

/-- The flag `printIt` that both section loops of `_easyopts_help` compute. -/
def printIt (showHidden : Int) (type : Int) : Bool :=
  if showHidden ≠ 0 then true
  else if type ≠ TYPE_HIDDEN then true
  else false

/-- The inner `for` loop of the usage line: one entry per option of a section. -/
def helpUsageOptions : Nat → Ptr → World → Option World
  | 0, _, _ => none
  | fuel + 1, option, w =>
    match option with
    | none => some w
    | some _ =>
      (w.optionItems.load option).bind fun item =>
      (w.options.load item.object).bind fun i =>
      let w1 : World :=
        if i.isRequired = REQUIRED_REQUIRED then
          printf (" --" ++ i.longOption ++ "=X") w
        else
          printf (" [--" ++ i.longOption ++ "=X]") w
      (w1.optionItems.load option).bind fun item1 =>
      helpUsageOptions fuel item1.next w1

/-- The first `for` loop over the sections: the command line, all on one line.  A chain
of list items that is longer than its region has blocks comes back to an item it has
left, so the C loop never ends on it: the loops get one step more than that. -/
def helpUsageSections (showHidden : Int) : Nat → Ptr → World → Option World
  | 0, _, _ => none
  | fuel + 1, sect, w =>
    match sect with
    | none => some w
    | some _ =>
      (w.sectionItems.load sect).bind fun item =>
      (w.sections.load item.object).bind fun s =>
      (if printIt showHidden s.type then
          helpUsageOptions (w.optionItems.length + 1) s.firstOption w
        else some w).bind fun w1 =>
      (w1.sectionItems.load sect).bind fun item1 =>
      helpUsageSections showHidden fuel item1.next w1

/-- The inner `for` loop of a section block: one line per option. -/
def helpBlockOptions : Nat → Ptr → World → Option World
  | 0, _, _ => none
  | fuel + 1, option, w =>
    match option with
    | none => some w
    | some _ =>
      (w.optionItems.load option).bind fun item =>
      (w.options.load item.object).bind fun i =>
      let w1 : World :=
        printf ("--" ++ i.longOption ++ "=[" ++ easyopts_print_option_type i.type ++ "] "
          ++ i.description ++ "\n") w
      (w1.optionItems.load option).bind fun item1 =>
      helpBlockOptions fuel item1.next w1

/-- The second `for` loop over the sections: each section with descriptive text. -/
def helpBlockSections (showHidden : Int) : Nat → Ptr → World → Option World
  | 0, _, _ => none
  | fuel + 1, sect, w =>
    match sect with
    | none => some w
    | some _ =>
      (w.sectionItems.load sect).bind fun item =>
      (w.sections.load item.object).bind fun s =>
      (if printIt showHidden s.type then
          let w1 : World :=
            printf ("[" ++ s.name ++ ": " ++ easyopts_print_type s.type ++ "]\n") w
          let w2 : World := printf (s.description ++ "\n") w1
          (helpBlockOptions (w2.optionItems.length + 1) s.firstOption w2).map fun w3 =>
            printf "\n" w3
        else some w).bind fun w1 =>
      (w1.sectionItems.load sect).bind fun item1 =>
      helpBlockSections showHidden fuel item1.next w1

/-- The `_easyopts_help`. -/
def _easyopts_help (showHidden : Int) (w : World) : Option World :=
  let sections : Ptr := w.s_commandLineOptions.firstSection
  let w1 : World := printf (w.s_commandLineOptions.description ++ "\n\n") w
  (w1.s_commandLineOptions.argv[0]?).bind fun argv0 =>
  let w2 : World := printf ("Usage: " ++ argv0) w1
  -- Do the command line, all on one line
  (helpUsageSections showHidden (w2.sectionItems.length + 1) sections w2).bind fun w3 =>
  let w4 : World := printf "\n" w3
  -- And now print each section options with descriptive text
  helpBlockSections showHidden (w4.sectionItems.length + 1) sections w4

/-- The `easyopts_help`. -/
def easyopts_help (w : World) : Option World :=
  _easyopts_help 0 w

/-- The `easyopts_help_hidden`. -/
def easyopts_help_hidden (w : World) : Option World :=
  _easyopts_help 1 w

/-! ## JSON help: `_easyopts_help_json`, `easyopts_help_json`, `easyopts_help_hidden_json` -/

/-- The `_easyopts_help_json` of the source.  Everything between the braces of its body
stands between `#if 0` and `#endif`, so the function as compiled has no statement: it
reads neither its argument nor the store, prints nothing, and returns. -/
def _easyopts_help_json (_showHidden : Int) (w : World) : Option World :=
  some w

/-- The `easyopts_help_json`. -/
def easyopts_help_json (w : World) : Option World :=
  _easyopts_help_json 0 w

/-- The `easyopts_help_hidden_json`. -/
def easyopts_help_hidden_json (w : World) : Option World :=
  _easyopts_help_json 1 w

/-! ## Version: `easyopts_getVersion` -/

/-- One registered option as it lies in memory: its list item, its object, its contents. -/
structure OptCell where
  item : Nat
  obj : Nat
  val : easyopts_option
  deriving DecidableEq, Repr

/-- One registered section as it lies in memory: its list item, its object, its fields,
its options from `firstOption` to `lastOption`, and `tail`, the content of the `next`
field of the last option list item (NULL when the section has no option). -/
structure SecCell where
  item : Nat
  obj : Nat
  name : String
  description : String
  type : Int
  opts : List OptCell
  tail : Ptr
  deriving DecidableEq, Repr

/-- The address pairs (list item, object) of the options of a section. -/
def optAddrs (cs : List OptCell) : List (Nat × Nat) :=
  cs.map fun c => (c.item, c.obj)

/-- The address pairs (list item, object) of the sections. -/
def secAddrs (L : List SecCell) : List (Nat × Nat) :=
  L.map fun s => (s.item, s.obj)

/-- All option cells of a layout, section after section. -/
def allOpts (L : List SecCell) : List OptCell :=
  L.flatMap fun s => s.opts

/-- The pointer to the first option list item. -/
def firstItem (cs : List OptCell) : Ptr :=
  cs.head?.map fun c => c.item

/-- The pointer to the last option list item. -/
def lastItem (cs : List OptCell) : Ptr :=
  cs.getLast?.map fun c => c.item

/-- What a section list item links: its object and its successor. -/
def sectionLink (m : Region easyopts_sections_list) (a : Nat) : Option (Ptr × Ptr) :=
  (m.load (some a)).map fun n => (n.object, n.next)

/-- What an option list item links: its object and its successor. -/
def optionLink (m : Region easyopts_options_list) (a : Nat) : Option (Ptr × Ptr) :=
  (m.load (some a)).map fun n => (n.object, n.next)

/-- The chain of list items that starts at pointer `p`, runs through the items `cs` (each
bound to its object) along their `next` fields, and whose last `next` field holds `t`. -/
def Links (f : Nat → Option (Ptr × Ptr)) : Ptr → List (Nat × Nat) → Ptr → Prop
  | p, [], t => p = t
  | p, c :: cs, t => p = some c.1 ∧ ∃ nx, f c.1 = some (some c.2, nx) ∧ Links f nx cs t

/-- The state `w` holds the registry laid out as `L`: the section list runs from
`firstSection` through the items of `L` to NULL and `lastSection` is its last item; every
section object holds the fields of its cell and the pointers to its first and last option
item; the option items of a section are chained in order, the last one carrying `tail`;
no block is used twice. -/
structure Lays (w : World) (L : List SecCell) : Prop where
  secLinks : Links (sectionLink w.sectionItems) w.s_commandLineOptions.firstSection
    (secAddrs L) none
  lastSec : w.s_commandLineOptions.lastSection = L.getLast?.map fun s => s.item
  secObj : ∀ s ∈ L, w.sections.load (some s.obj) =
    some { name := s.name, description := s.description, type := s.type,
           firstOption := firstItem s.opts, lastOption := lastItem s.opts }
  optLinks : ∀ s ∈ L, Links (optionLink w.optionItems) (firstItem s.opts) (optAddrs s.opts) s.tail
  optObj : ∀ c ∈ allOpts L, w.options.load (some c.obj) = some c.val
  nodupSecItems : (L.map fun s => s.item).Nodup
  nodupSecObjs : (L.map fun s => s.obj).Nodup
  nodupOptItems : ((allOpts L).map fun c => c.item).Nodup
  nodupOptObjs : ((allOpts L).map fun c => c.obj).Nodup

/-- Every option list of the layout ends with a NULL link. -/
abbrev NullTerminated (L : List SecCell) : Prop :=
  ∀ s ∈ L, s.tail = none

/-- What the registry holds for one section, addresses left out. -/
structure SectionView where
  name : String
  description : String
  type : Int
  options : List easyopts_option
  deriving DecidableEq, Repr

/-- The contents of a section cell. -/
def SecCell.view (s : SecCell) : SectionView :=
  { name := s.name, description := s.description, type := s.type,
    options := s.opts.map fun c => c.val }

/-- The registry held by a layout: its sections in list order, each with its options in
list order. -/
def registry (L : List SecCell) : List SectionView :=
  L.map SecCell.view

/-- The cell of the section that `easyopts_addSection` creates in state `w`. -/
def newSecCell (w : World) (name description : String) (type : Int) : SecCell :=
  { item := w.sectionItems.length, obj := w.sections.length, name := name,
    description := description, type := type, opts := [], tail := none }

/-- The cell of the option that `easyopts_addOption` creates in state `w`. -/
def newOptCell (w : World) (val : easyopts_option) : OptCell :=
  { item := w.optionItems.length, obj := w.options.length, val := val }

/-- The section cell `s` once `easyopts_addOption` has appended an option to it. -/
def SecCell.withOption (s : SecCell) (junk : Nat → Ptr) (w : World) (val : easyopts_option) :
    SecCell :=
  { s with opts := s.opts ++ [newOptCell w val], tail := junk w.optionItems.length }

/-! ## The help text, as the specification words it -/

/-- Concatenation of a list of texts. -/
def joinText : List String → String
  | [] => ""
  | t :: ts => t ++ joinText ts

/-- The entry of one option in the usage line, as the code prints it: without brackets
for `REQUIRED_REQUIRED`, in brackets otherwise. -/
def usageEntry (o : easyopts_option) : String :=
  if o.isRequired = REQUIRED_REQUIRED then " --" ++ o.longOption ++ "=X"
  else " [--" ++ o.longOption ++ "=X]"

/-- The line of one option inside a section block. -/
def optionLine (o : easyopts_option) : String :=
  "--" ++ o.longOption ++ "=[" ++ easyopts_print_option_type o.type ++ "] "
    ++ o.description ++ "\n"

/-- The block of one section: header, description, one line per option, an empty line. -/
def sectionBlock (s : SectionView) : String :=
  "[" ++ s.name ++ ": " ++ easyopts_print_type s.type ++ "]\n" ++ (s.description ++ "\n")
    ++ joinText (s.options.map optionLine) ++ "\n"

/-- The sections a help call shows: all of them with the hidden flag, the ones whose type
is not `TYPE_HIDDEN` without it. -/
def visibleSections (showHidden : Int) (S : List SectionView) : List SectionView :=
  S.filter fun s => printIt showHidden s.type

/-- The usage line: program name, one entry per option of the sections, a newline. -/
def usageLine (argv0 : String) (S : List SectionView) : String :=
  "Usage: " ++ argv0 ++ joinText (S.map fun s => joinText (s.options.map usageEntry)) ++ "\n"

/-- The whole help text for the sections `S` that are shown. -/
def helpText (description argv0 : String) (S : List SectionView) : String :=
  description ++ "\n\n" ++ usageLine argv0 S ++ joinText (S.map sectionBlock)

/-- What the help loops need of a section: its object is in place and, when the section
is shown, its option chain is NULL-terminated, bound to its option objects, and no longer
than the region. -/
structure SecReadable (showHidden : Int) (w : World) (s : SecCell) : Prop where
  obj : w.sections.load (some s.obj) =
    some { name := s.name, description := s.description, type := s.type,
           firstOption := firstItem s.opts, lastOption := lastItem s.opts }
  links : printIt showHidden s.type = true →
    Links (optionLink w.optionItems) (firstItem s.opts) (optAddrs s.opts) none
  vals : printIt showHidden s.type = true →
    ∀ c ∈ s.opts, w.options.load (some c.obj) = some c.val
  bound : printIt showHidden s.type = true → s.opts.length ≤ w.optionItems.length

/-! ## Sequences of registration calls -/

/-- One registration call of the host program.  `addOption k val` is the call
`easyopts_addOption` with the handle that the `k`-th `easyopts_addSection` call of the
sequence returned (counted from 0) and with the seven field values of `val`. -/
inductive Call where
  | addSection (name description : String) (type : Int)
  | addOption (k : Nat) (val : easyopts_option)
  deriving DecidableEq, Repr

/-- Every `addOption` call of the sequence uses a handle that an earlier `addSection` call
of the sequence has returned; `n` handles have been returned before the sequence starts. -/
def ValidCalls : Nat → List Call → Prop
  | _, [] => True
  | n, Call.addSection _ _ _ :: cs => ValidCalls (n + 1) cs
  | n, Call.addOption k _ :: cs => k < n ∧ ValidCalls n cs

/-- Runs a sequence of calls from a state and the handles received so far. -/
def runCalls (junk : Nat → Ptr) : List Call → World × List Ptr → Option (World × List Ptr)
  | [], st => some st
  | Call.addSection name description type :: cs, st =>
    (easyopts_addSection name description type st.1).bind fun r =>
      runCalls junk cs (r.1, st.2 ++ [r.2])
  | Call.addOption k val :: cs, st =>
    (st.2[k]?).bind fun gs =>
    (easyopts_addOption junk gs val.shortOption val.longOption val.type val.isRequired
      val.validate val.assign val.description st.1).bind fun w =>
      runCalls junk cs (w, st.2)

/-- A host program: `easyopts_initProgramOptions`, then a sequence of registration calls. -/
def runProgram (junk : Nat → Ptr) (argc : Int) (argv : List String) (description : String)
    (calls : List Call) (w : World) : Option World :=
  (easyopts_initProgramOptions junk argc argv description w).bind fun w1 =>
    (runCalls junk calls (w1, [])).map fun r => r.1

/-- Appends an option to the `i`-th section of a registry. -/
def appendOption (val : easyopts_option) : Nat → List SectionView → List SectionView
  | _, [] => []
  | 0, s :: S => { s with options := s.options ++ [val] } :: S
  | i + 1, s :: S => s :: appendOption val i S

/-- The registry that a sequence of calls registers, in registration order: a new section
goes after the sections registered so far, a new option after the options registered so
far in its section.  The handles of the sequence are those of the sections from index
`base` on. -/
def registerCalls (base : Nat) : List Call → List SectionView → List SectionView
  | [], S => S
  | Call.addSection name description type :: cs, S =>
    registerCalls base cs
      (S ++ [{ name := name, description := description, type := type, options := [] }])
  | Call.addOption k val :: cs, S => registerCalls base cs (appendOption val (base + k) S)

/-- The option `--version` (short form `v`) that `easyopts_initProgramOptions` registers. -/
def optVersion : easyopts_option :=
  { shortOption := 'v'.toNat, longOption := "version", type := DATATYPE_STRING,
    isRequired := REQUIRED_NONE, validate := FnPtr.NULL, assign := FnPtr.assignVersion,
    description := "Print the library's version information" }

/-- The option `--help` (short form `h`) that `easyopts_initProgramOptions` registers. -/
def optHelp : easyopts_option :=
  { shortOption := 'h'.toNat, longOption := "help", type := DATATYPE_STRING,
    isRequired := REQUIRED_NONE, validate := FnPtr.NULL, assign := FnPtr.assignHelp,
    description := "Print program usage and exit." }

/-- The option `--help-json` that `easyopts_initProgramOptions` registers. -/
def optHelpJson : easyopts_option :=
  { shortOption := 0, longOption := "help-json", type := DATATYPE_STRING,
    isRequired := REQUIRED_NONE, validate := FnPtr.NULL, assign := FnPtr.assignHelpJson,
    description := "Print program usage in Json format and exit." }

/-- The option `--help-hidden` that `easyopts_initProgramOptions` registers. -/
def optHelpHidden : easyopts_option :=
  { shortOption := 0, longOption := "help-hidden", type := DATATYPE_STRING,
    isRequired := REQUIRED_NONE, validate := FnPtr.NULL, assign := FnPtr.assignHelpHidden,
    description := "Print program usage (including hidden options) and exit." }

/-- The option `--help-hidden-json` that `easyopts_initProgramOptions` registers. -/
def optHelpHiddenJson : easyopts_option :=
  { shortOption := 0, longOption := "help-hidden-json", type := DATATYPE_STRING,
    isRequired := REQUIRED_NONE, validate := FnPtr.NULL, assign := FnPtr.assignHelpHiddenJson,
    description := "Print program usage in Json format (including hidden options) and exit." }

/-- The two sections that `easyopts_initProgramOptions` registers. -/
def builtinSections : List SectionView :=
  [ { name := "Common",
      description := "Provide Common Arguments for help and versioning",
      type := TYPE_PUBLIC,
      options := [optVersion, optHelp, optHelpJson] },
    { name := "Common Hidden",
      description := "Provide Common Arguments for help and versioning (Hidden)",
      type := TYPE_HIDDEN,
      options := [optHelpHidden, optHelpHiddenJson] } ]

/-- The registry of a host program: the built-in sections, then what its calls register. -/
def registered (calls : List Call) : List SectionView :=
  registerCalls 2 calls builtinSections

/-! ## Teardown of a registry -/

/-- Releases the blocks at the addresses `as` of a region. -/
def eraseAll {α : Type} (m : Region α) (as : List Nat) : Region α :=
  as.foldl (fun r a => r.set a none) m

/-- The blocks `freeSectionLoop` hands to `free` for the options `cs`, in order. -/
def optionsLog (cs : List OptCell) : List Block :=
  cs.flatMap fun c => [Block.optionObject c.obj, Block.optionListItem c.item]

/-- The blocks `freeSection` hands to `free` for the section `s`, in order. -/
def sectionLog (s : SecCell) : List Block :=
  optionsLog s.opts ++ [Block.sectionObject s.obj, Block.sectionListItem s.item]

/-- The blocks `easyopts_free` hands to `free` for the registry `L`, in order. -/
def releaseLog (L : List SecCell) : List Block :=
  L.flatMap sectionLog

/-- The state after `freeSectionLoop` on section `s` whose remaining options are `cs`. -/
def optionsReleased (w : World) (s : SecCell) (lastOption : Ptr) (cs : List OptCell) : World :=
  { w with
    sections := w.sections.set s.obj
      (some (easyopts_section.mk s.name s.description s.type none lastOption)),
    options := eraseAll w.options (cs.map fun c => c.obj),
    optionItems := eraseAll w.optionItems (cs.map fun c => c.item),
    released := w.released ++ optionsLog cs }

/-- The state after `freeSection` on section `s`. -/
def sectionReleased (w : World) (s : SecCell) : World :=
  { w with
    sections := w.sections.set s.obj none,
    sectionItems := w.sectionItems.set s.item none,
    options := eraseAll w.options (s.opts.map fun c => c.obj),
    optionItems := eraseAll w.optionItems (s.opts.map fun c => c.item),
    released := w.released ++ sectionLog s }

/-- The state after `easyopts_free(NULL)` on a state that holds the registry `L`: every
block of the registry is released, `firstSection` is NULL, nothing else has changed. -/
def registryReleased (w : World) (L : List SecCell) : World :=
  { w with
    s_commandLineOptions := { w.s_commandLineOptions with firstSection := none },
    sections := eraseAll w.sections (L.map fun s => s.obj),
    sectionItems := eraseAll w.sectionItems (L.map fun s => s.item),
    options := eraseAll w.options ((allOpts L).map fun c => c.obj),
    optionItems := eraseAll w.optionItems ((allOpts L).map fun c => c.item),
    released := w.released ++ releaseLog L }

/-- What `easyopts_free` needs of the section list that starts at pointer `p`: the chain
of section items ends with NULL, every section object points to its option chain, every
option chain ends with NULL and is bound to allocated option objects, and no block is
used twice. -/
structure Releasable (w : World) (p : Ptr) (L : List SecCell) : Prop where
  secLinks : Links (sectionLink w.sectionItems) p (secAddrs L) none
  secObj : ∀ s ∈ L, ∃ lp, w.sections.load (some s.obj) =
    some (easyopts_section.mk s.name s.description s.type (firstItem s.opts) lp)
  optLinks : ∀ s ∈ L, Links (optionLink w.optionItems) (firstItem s.opts) (optAddrs s.opts) none
  optObj : ∀ c ∈ allOpts L, ∃ v, w.options.load (some c.obj) = some v
  optBound : ∀ s ∈ L, s.opts.length ≤ w.optionItems.length
  nodupSecItems : (L.map fun s => s.item).Nodup
  nodupSecObjs : (L.map fun s => s.obj).Nodup
  nodupOptItems : ((allOpts L).map fun c => c.item).Nodup
  nodupOptObjs : ((allOpts L).map fun c => c.obj).Nodup

/-! ## A checker for layouts of concrete states -/

/-- Decides `Links` by following the chain. -/
def linksB (f : Nat → Option (Ptr × Ptr)) : Ptr → List (Nat × Nat) → Ptr → Bool
  | p, [], t => decide (p = t)
  | p, c :: cs, t =>
    decide (p = some c.1) &&
      (match f c.1 with
       | some (o, nx) => decide (o = some c.2) && linksB f nx cs t
       | none => false)

/-- Decides `Lays` by reading the state. -/
def laysB (w : World) (L : List SecCell) : Bool :=
  linksB (sectionLink w.sectionItems) w.s_commandLineOptions.firstSection (secAddrs L) none &&
  decide (w.s_commandLineOptions.lastSection = L.getLast?.map fun s => s.item) &&
  L.all (fun s => decide (w.sections.load (some s.obj) =
    some { name := s.name, description := s.description, type := s.type,
           firstOption := firstItem s.opts, lastOption := lastItem s.opts })) &&
  L.all (fun s => linksB (optionLink w.optionItems) (firstItem s.opts) (optAddrs s.opts) s.tail) &&
  (allOpts L).all (fun c => decide (w.options.load (some c.obj) = some c.val)) &&
  decide (L.map fun s => s.item).Nodup &&
  decide (L.map fun s => s.obj).Nodup &&
  decide ((allOpts L).map fun c => c.item).Nodup &&
  decide ((allOpts L).map fun c => c.obj).Nodup

/-- The state in which nothing has been allocated, printed or released. -/
def emptyWorld : World :=
  { s_commandLineOptions :=
      { argc := 0, argv := [], description := "", firstSection := none, lastSection := none },
    options := [], optionItems := [], sections := [], sectionItems := [],
    stdout := "", released := [] }

/-- An allocator whose blocks hold NULL where the code has not written. -/
def zeroJunk : Nat → Ptr :=
  fun _ => none

/-- The option `argA0` of `src/examples/testArgs.c`; the callbacks of the test program are
numbered in order of appearance. -/
def argA0 : easyopts_option :=
  { shortOption := 0, longOption := "argA0", type := DATATYPE_STRING, isRequired := REQUIRED_REQUIRED,
    validate := FnPtr.user 0, assign := FnPtr.user 1,
    description := "Section A, argument 0 description" }

/-- The option `argA1` of `src/examples/testArgs.c`; the callbacks of the test program are
numbered in order of appearance. -/
def argA1 : easyopts_option :=
  { shortOption := 0, longOption := "argA1", type := DATATYPE_STRING, isRequired := REQUIRED_OPTIONAL,
    validate := FnPtr.user 2, assign := FnPtr.user 3,
    description := "Section A, argument 1 description" }

/-- The option `iargA2` of `src/examples/testArgs.c`; the callbacks of the test program are
numbered in order of appearance. -/
def iargA2 : easyopts_option :=
  { shortOption := 0, longOption := "iargA2", type := DATATYPE_SIGNED_INT, isRequired := REQUIRED_OPTIONAL,
    validate := FnPtr.user 4, assign := FnPtr.user 5,
    description := "Section A, argument 2 description" }

/-- The option `argB0` of `src/examples/testArgs.c`; the callbacks of the test program are
numbered in order of appearance. -/
def argB0 : easyopts_option :=
  { shortOption := 0, longOption := "argB0", type := DATATYPE_STRING, isRequired := REQUIRED_REQUIRED,
    validate := FnPtr.user 6, assign := FnPtr.user 7,
    description := "Section B, argument 0 description" }

/-- The option `argB1` of `src/examples/testArgs.c`; the callbacks of the test program are
numbered in order of appearance. -/
def argB1 : easyopts_option :=
  { shortOption := 0, longOption := "argB1", type := DATATYPE_STRING, isRequired := REQUIRED_OPTIONAL,
    validate := FnPtr.user 8, assign := FnPtr.user 9,
    description := "Section B, argument 1 description" }

/-- The option `iargB2` of `src/examples/testArgs.c`; the callbacks of the test program are
numbered in order of appearance. -/
def iargB2 : easyopts_option :=
  { shortOption := 0, longOption := "iargB2", type := DATATYPE_FLOAT, isRequired := REQUIRED_OPTIONAL,
    validate := FnPtr.user 10, assign := FnPtr.user 11,
    description := "Section B, argument 2 description" }

/-- The option `argC0` of `src/examples/testArgs.c`; the callbacks of the test program are
numbered in order of appearance. -/
def argC0 : easyopts_option :=
  { shortOption := 0, longOption := "argC0", type := DATATYPE_DOUBLE, isRequired := REQUIRED_REQUIRED,
    validate := FnPtr.user 12, assign := FnPtr.user 13,
    description := "Section C, argument 0 description" }

/-- The option `argC1` of `src/examples/testArgs.c`; the callbacks of the test program are
numbered in order of appearance. -/
def argC1 : easyopts_option :=
  { shortOption := 0, longOption := "argC1", type := DATATYPE_DOUBLE, isRequired := REQUIRED_OPTIONAL,
    validate := FnPtr.user 14, assign := FnPtr.user 15,
    description := "Section C, argument 1 description" }

/-- The option `iargC2` of `src/examples/testArgs.c`; the callbacks of the test program are
numbered in order of appearance. -/
def iargC2 : easyopts_option :=
  { shortOption := 0, longOption := "iargC2", type := DATATYPE_SIGNED_INT, isRequired := REQUIRED_OPTIONAL,
    validate := FnPtr.user 16, assign := FnPtr.user 17,
    description := "Section C, argument 2 description" }

/-- The option `argD0` of `src/examples/testArgs.c`; the callbacks of the test program are
numbered in order of appearance. -/
def argD0 : easyopts_option :=
  { shortOption := 0, longOption := "argD0", type := DATATYPE_DOUBLE, isRequired := REQUIRED_REQUIRED,
    validate := FnPtr.user 18, assign := FnPtr.user 19,
    description := "Section D, argument 0 description" }

/-- The option `argD1` of `src/examples/testArgs.c`; the callbacks of the test program are
numbered in order of appearance. -/
def argD1 : easyopts_option :=
  { shortOption := 0, longOption := "argD1", type := DATATYPE_DOUBLE, isRequired := REQUIRED_OPTIONAL,
    validate := FnPtr.user 20, assign := FnPtr.user 21,
    description := "Section D, argument 1 description" }

/-- The option `iargD2` of `src/examples/testArgs.c`; the callbacks of the test program are
numbered in order of appearance. -/
def iargD2 : easyopts_option :=
  { shortOption := 0, longOption := "iargD2", type := DATATYPE_FLOAT, isRequired := REQUIRED_OPTIONAL,
    validate := FnPtr.user 22, assign := FnPtr.user 23,
    description := "Section D, argument 2 description" }

/-- The description of section A of `src/examples/testArgs.c`. -/
def descriptionA : String :=
  "This is the first test section, it should have 3 options: two strings and an integer"

/-- The description of section B of `src/examples/testArgs.c`. -/
def descriptionB : String :=
  "This is the second test section, it should have 2 options: two strings and a float"

/-- The description of section C of `src/examples/testArgs.c`. -/
def descriptionC : String :=
  "This is the third test section, it should have 2 options: two doubles and an integer"

/-- The description of section D of `src/examples/testArgs.c`. -/
def descriptionD : String :=
  "This is the fourth test section, it should have 2 options: two doubles and a float"

/-- The registration calls of `main` in `src/examples/testArgs.c`. -/
def testArgsCalls : List Call :=
  [ Call.addSection "Section A" descriptionA TYPE_PUBLIC,
    Call.addOption 0 argA0,
    Call.addOption 0 argA1,
    Call.addOption 0 iargA2,
    Call.addSection "Section B" descriptionB TYPE_DEPRECATED,
    Call.addOption 1 argB0,
    Call.addOption 1 argB1,
    Call.addOption 1 iargB2,
    Call.addSection "Section C" descriptionC TYPE_HIDDEN,
    Call.addOption 2 argC0,
    Call.addOption 2 argC1,
    Call.addOption 2 iargC2,
    Call.addSection "Section D" descriptionD TYPE_PUBLIC,
    Call.addOption 3 argD0,
    Call.addOption 3 argD1,
    Call.addOption 3 iargD2 ]

/-- The state of the test program `testArgs` after its registration calls, on an allocator
that hands out zeroed blocks. -/
def testArgsStore : World :=
  (runProgram zeroJunk 1 ["testArgs"] "This is the general description of this test program"
    testArgsCalls emptyWorld).getD emptyWorld

/-- The state right after `easyopts_initProgramOptions(1, ["prog"], "demo")`, on an
allocator that hands out zeroed blocks. -/
def initStore : World :=
  (easyopts_initProgramOptions zeroJunk 1 ["prog"] "demo" emptyWorld).getD emptyWorld

/-- The cell of section "Common" in `initStore` and `testArgsStore`. -/
def cellCommon : SecCell :=
  { item := 0, obj := 0, name := "Common",
    description := "Provide Common Arguments for help and versioning", type := TYPE_PUBLIC,
    opts := [⟨0, 0, optVersion⟩, ⟨1, 1, optHelp⟩, ⟨2, 2, optHelpJson⟩], tail := none }

/-- The cell of section "Common Hidden" in `initStore` and `testArgsStore`. -/
def cellCommonHidden : SecCell :=
  { item := 1, obj := 1, name := "Common Hidden",
    description := "Provide Common Arguments for help and versioning (Hidden)",
    type := TYPE_HIDDEN,
    opts := [⟨3, 3, optHelpHidden⟩, ⟨4, 4, optHelpHiddenJson⟩], tail := none }

/-- The layout of `initStore`. -/
def initLayout : List SecCell :=
  [cellCommon, cellCommonHidden]

/-- The cell of section A in `testArgsStore`. -/
def cellA : SecCell :=
  { item := 2, obj := 2, name := "Section A", description := descriptionA,
    type := TYPE_PUBLIC, opts := [⟨5, 5, argA0⟩, ⟨6, 6, argA1⟩, ⟨7, 7, iargA2⟩], tail := none }

/-- The cell of section B in `testArgsStore`. -/
def cellB : SecCell :=
  { item := 3, obj := 3, name := "Section B", description := descriptionB,
    type := TYPE_DEPRECATED, opts := [⟨8, 8, argB0⟩, ⟨9, 9, argB1⟩, ⟨10, 10, iargB2⟩],
    tail := none }

/-- The cell of section C in `testArgsStore`. -/
def cellC : SecCell :=
  { item := 4, obj := 4, name := "Section C", description := descriptionC,
    type := TYPE_HIDDEN, opts := [⟨11, 11, argC0⟩, ⟨12, 12, argC1⟩, ⟨13, 13, iargC2⟩],
    tail := none }

/-- The cell of section D in `testArgsStore`. -/
def cellD : SecCell :=
  { item := 5, obj := 5, name := "Section D", description := descriptionD,
    type := TYPE_PUBLIC, opts := [⟨14, 14, argD0⟩, ⟨15, 15, argD1⟩, ⟨16, 16, iargD2⟩],
    tail := none }

/-- The layout of `testArgsStore`: the two built-in sections, then sections A to D. -/
def testArgsLayout : List SecCell :=
  [cellCommon, cellCommonHidden, cellA, cellB, cellC, cellD]

/-! ## Names of the registered options -/

/-- All options of a registry, section after section. -/
def storedOptions (S : List SectionView) : List easyopts_option :=
  S.flatMap fun s => s.options

/-- The options passed to `easyopts_addOption` by a sequence of calls, in call order. -/
def callOptions : List Call → List easyopts_option
  | [] => []
  | Call.addSection _ _ _ :: cs => callOptions cs
  | Call.addOption _ val :: cs => val :: callOptions cs

/-- The naming invariant of the data model: every long-form name is non-empty, no two
options have the same long-form name, no two options have the same non-zero short-form
character. -/
abbrev NamesUnique (os : List easyopts_option) : Prop :=
  (∀ o ∈ os, o.longOption ≠ "") ∧ (os.map fun o => o.longOption).Nodup ∧
    ((os.map fun o => o.shortOption).filter fun c => decide (c ≠ 0)).Nodup

/-! ## Inputs at which the claims are evaluated -/

/-- An allocator that left, in the block it hands out for the fifth option list item, the
address of the first option list item; every other block is zeroed. -/
def staleJunk : Nat → Ptr :=
  fun a => if a = 4 then some 0 else none

/-- The section "Common Hidden" followed by the options of section "Common": what the
help loops read when the last item of "Common Hidden" links to the first item of "Common". -/
def hiddenThenCommon : SectionView :=
  { name := "Common Hidden",
    description := "Provide Common Arguments for help and versioning (Hidden)",
    type := TYPE_HIDDEN,
    options := [optHelpHidden, optHelpHiddenJson, optVersion, optHelp, optHelpJson] }


/-- A state before any registration, with the description and `argv` of the test program. -/
def testArgsBase : World :=
  { emptyWorld with s_commandLineOptions :=
      { argc := 1, argv := ["testArgs"],
        description := "This is the general description of this test program",
        firstSection := none, lastSection := none } }

/-- The registration calls that build the registry of `testArgsStore` without its hidden
sections: "Common" and the sections A, B and D. -/
def testArgsShownCalls : List Call :=
  [ Call.addSection "Common" "Provide Common Arguments for help and versioning" TYPE_PUBLIC,
    Call.addOption 0 optVersion, Call.addOption 0 optHelp, Call.addOption 0 optHelpJson,
    Call.addSection "Section A" descriptionA TYPE_PUBLIC,
    Call.addOption 1 argA0, Call.addOption 1 argA1, Call.addOption 1 iargA2,
    Call.addSection "Section B" descriptionB TYPE_DEPRECATED,
    Call.addOption 2 argB0, Call.addOption 2 argB1, Call.addOption 2 iargB2,
    Call.addSection "Section D" descriptionD TYPE_PUBLIC,
    Call.addOption 3 argD0, Call.addOption 3 argD1, Call.addOption 3 iargD2 ]

/-- The state that holds the registry of `testArgsStore` without its hidden sections. -/
def testArgsShownStore : World :=
  ((runCalls zeroJunk testArgsShownCalls (testArgsBase, [])).map fun r => r.1).getD emptyWorld

/-- The layout of `testArgsShownStore`. -/
def testArgsShownLayout : List SecCell :=
  [ { item := 0, obj := 0, name := "Common",
      description := "Provide Common Arguments for help and versioning", type := TYPE_PUBLIC,
      opts := [⟨0, 0, optVersion⟩, ⟨1, 1, optHelp⟩, ⟨2, 2, optHelpJson⟩], tail := none },
    { item := 1, obj := 1, name := "Section A", description := descriptionA,
      type := TYPE_PUBLIC, opts := [⟨3, 3, argA0⟩, ⟨4, 4, argA1⟩, ⟨5, 5, iargA2⟩], tail := none },
    { item := 2, obj := 2, name := "Section B", description := descriptionB,
      type := TYPE_DEPRECATED, opts := [⟨6, 6, argB0⟩, ⟨7, 7, argB1⟩, ⟨8, 8, iargB2⟩],
      tail := none },
    { item := 3, obj := 3, name := "Section D", description := descriptionD,
      type := TYPE_PUBLIC, opts := [⟨9, 9, argD0⟩, ⟨10, 10, argD1⟩, ⟨11, 11, iargD2⟩],
      tail := none } ]

/-- The usage entry of one option as claim C6 words it: the plain form for a required
option, the bracketed form for an optional one, and no text for any other requiredness. -/
def claimedUsageEntry (o : easyopts_option) : String :=
  if o.isRequired = REQUIRED_REQUIRED then " --" ++ o.longOption ++ "=X"
  else if o.isRequired = REQUIRED_OPTIONAL then " [--" ++ o.longOption ++ "=X]"
  else ""

/-- The usage line as claim C6 words it. -/
def claimedUsageLine (argv0 : String) (S : List SectionView) : String :=
  "Usage: " ++ argv0 ++ joinText (S.map fun s => joinText (s.options.map claimedUsageEntry))
    ++ "\n"

/-- Calls that register a second option named `help` with short form `h`, and an option
with an empty long-form name. -/
def clashingCalls : List Call :=
  [ Call.addSection "Extra" "Options of the host program" TYPE_PUBLIC,
    Call.addOption 0 ⟨'h'.toNat, "help", DATATYPE_STRING, REQUIRED_NONE, FnPtr.NULL,
      FnPtr.user 0, "Help of the host program"⟩,
    Call.addOption 0 ⟨0, "", DATATYPE_SIGNED_INT, REQUIRED_OPTIONAL, FnPtr.NULL,
      FnPtr.user 1, "An option without a name"⟩ ]

/-- The state after `easyopts_initProgramOptions(1, ["prog"], "demo")` and `clashingCalls`. -/
def clashingStore : World :=
  (runProgram zeroJunk 1 ["prog"] "demo" clashingCalls emptyWorld).getD emptyWorld

/-- The layout of `clashingStore`. -/
def clashingLayout : List SecCell :=
  [ cellCommon, cellCommonHidden,
    { item := 2, obj := 2, name := "Extra", description := "Options of the host program",
      type := TYPE_PUBLIC,
      opts :=
        [ ⟨5, 5, ⟨'h'.toNat, "help", DATATYPE_STRING, REQUIRED_NONE, FnPtr.NULL, FnPtr.user 0,
            "Help of the host program"⟩⟩,
          ⟨6, 6, ⟨0, "", DATATYPE_SIGNED_INT, REQUIRED_OPTIONAL, FnPtr.NULL, FnPtr.user 1,
            "An option without a name"⟩⟩ ],
      tail := none } ]

/-- The state `w` with `out` on standard output. -/
def withStdout (w : World) (out : String) : World :=
  { w with stdout := out }

/-- An option with its short form and its callbacks blanked: what the help text can see. -/
def blindOption (o : easyopts_option) : easyopts_option :=
  { o with shortOption := 0, validate := FnPtr.NULL, assign := FnPtr.NULL }

/-- A section with the short forms and the callbacks of its options blanked. -/
def blindSection (s : SectionView) : SectionView :=
  { s with options := s.options.map blindOption }

/-- An option with another short form and other callbacks, the fields the help text does
not print. -/
def recastOption (o : easyopts_option) : easyopts_option :=
  { o with shortOption := 'z'.toNat, validate := FnPtr.user 1000, assign := FnPtr.user 1001 }

/-- A registration call with the option recast. -/
def recastCall : Call → Call
  | Call.addSection name description type => Call.addSection name description type
  | Call.addOption k val => Call.addOption k (recastOption val)

/-- The state built like `testArgsShownStore`, every option recast: the two states are
equal except for the `shortOption`, `validate` and `assign` fields of their options. -/
def testArgsRecastStore : World :=
  ((runCalls zeroJunk (testArgsShownCalls.map recastCall) (testArgsBase, [])).map
    fun r => r.1).getD emptyWorld

/-- The layout of `testArgsRecastStore`. -/
def testArgsRecastLayout : List SecCell :=
  testArgsShownLayout.map fun s =>
    { s with opts := s.opts.map fun c => { c with val := recastOption c.val } }

/-- The enumerators of `easyopts_dataTypeEnum_t` below the sentinel `DATATYPE_LIMIT`, in
the order of the header. -/
def declaredKinds : List Int :=
  [DATATYPE_INVALID, DATATYPE_SIGNED_CHAR, DATATYPE_UNSIGNED_CHAR, DATATYPE_SIGNED_SHORT,
   DATATYPE_UNSIGNED_SHORT, DATATYPE_SIGNED_INT, DATATYPE_UNSIGNED_INT, DATATYPE_SIGNED_LONG,
   DATATYPE_UNSIGNED_LONG, DATATYPE_SIGNED_LONG_LONG, DATATYPE_UNSIGNED_LONG_LONG,
   DATATYPE_FLOAT, DATATYPE_DOUBLE, DATATYPE_STRING]

/-- The integer kinds among the declared kinds: signed and unsigned at the five ranks
`char`, `short`, `int`, `long` and `long long`. -/
def integerKinds : List Int :=
  [DATATYPE_SIGNED_CHAR, DATATYPE_UNSIGNED_CHAR, DATATYPE_SIGNED_SHORT,
   DATATYPE_UNSIGNED_SHORT, DATATYPE_SIGNED_INT, DATATYPE_UNSIGNED_INT, DATATYPE_SIGNED_LONG,
   DATATYPE_UNSIGNED_LONG, DATATYPE_SIGNED_LONG_LONG, DATATYPE_UNSIGNED_LONG_LONG]

/-- The blocks `easyopts_free` hands to `free` for the remaining arguments, in order:
nothing for NULL, else each string, then the array, then the container. -/
def remainingArgsLog : Option easyopts_remainingArgs → List Block
  | none => []
  | some g =>
    (List.range g.remainingArgs.length).map Block.argString ++
      [Block.argArray, Block.argContainer]

/-- The order of release as claim C14 words it: every option of every section first, then
every section. -/
def claimedReleaseLog (L : List SecCell) : List Block :=
  optionsLog (allOpts L) ++
    L.flatMap fun s => [Block.sectionObject s.obj, Block.sectionListItem s.item]

/-- The calls of the test program between registration and teardown, with the banners it
prints around them: `easyopts_help`, `easyopts_help_hidden`, `easyopts_help_json`,
`easyopts_help_hidden_json`. -/
def testArgsHelpCalls (w : World) : Option World :=
  (easyopts_help (printf "HELP\n" (printf "========================================\n" w))).bind
    fun w1 =>
  (easyopts_help_hidden (printf "HELP + HIDDEN\n"
    (printf "========================================\n" w1))).bind fun w2 =>
  (easyopts_help_json (printf "JSON HELP\n"
    (printf "========================================\n" w2))).bind fun w3 =>
  (easyopts_help_hidden_json (printf "JSON HELP + JSON\n"
    (printf "========================================\n" w3))).map fun w4 =>
  printf "========================================\n" w4

/-- An allocator that left, in the block it hands out for the third option list item, the
address of the block it hands out for the fourth one; every other block is zeroed. -/
def forwardJunk : Nat → Ptr :=
  fun a => if a = 2 then some 3 else none

/-- The section "Common" followed by the options of section "Common Hidden": what the help
loops read when the last item of "Common" links to the first item of "Common Hidden". -/
def commonThenHidden : SectionView :=
  { name := "Common",
    description := "Provide Common Arguments for help and versioning",
    type := TYPE_PUBLIC,
    options := [optVersion, optHelp, optHelpJson, optHelpHidden, optHelpHiddenJson] }

/-- The list that starts at the option list item `p`: the addresses met by following the
`next` fields until NULL (`none` when a block is not allocated or the fuel runs out). -/
def chainFrom (m : Region easyopts_options_list) : Nat → Ptr → Option (List Nat)
  | 0, _ => none
  | _ + 1, none => some []
  | fuel + 1, some a =>
    (m.load (some a)).bind fun item => (chainFrom m fuel item.next).map fun as => a :: as

/-- The state with everything blanked that no built function reads: `argc`, the tokens of
`argv` after `argv[0]`, and the short form and the two callbacks of every option object. -/
def forget (w : World) : World :=
  { w with
    s_commandLineOptions :=
      { w.s_commandLineOptions with argc := 0, argv := w.s_commandLineOptions.argv.take 1 },
    options := w.options.map (Option.map blindOption) }

theorem Region.load_some_lt {α : Type} {m : Region α} {a : Nat} {v : α}
    (h : m.load (some a) = some v) : a < m.length := by
  by_contra hlt
  simp [Region.load, List.getElem?_eq_none (Nat.le_of_not_lt hlt)] at h

theorem Region.load_append_old {α : Type} (m : Region α) (x : Option α) {a : Nat}
    (h : a < m.length) : Region.load (m ++ [x]) (some a) = m.load (some a) := by
  simp [Region.load, List.getElem?_append_left h]

theorem Region.load_append_new {α : Type} (m : Region α) (v : α) :
    Region.load (m ++ [some v]) (some m.length) = some v := by
  simp [Region.load]

theorem Region.load_set_same {α : Type} (m : Region α) (x : Option α) {a : Nat}
    (h : a < m.length) : Region.load (m.set a x) (some a) = x := by
  simp [Region.load, List.getElem?_set, h]

theorem Region.load_set_ne {α : Type} (m : Region α) (x : Option α) {a b : Nat}
    (h : a ≠ b) : Region.load (m.set a x) (some b) = m.load (some b) := by
  simp [Region.load, List.getElem?_set, h]

theorem Region.store_of_load {α : Type} {m : Region α} {a : Nat} {u : α} (v : α)
    (h : m.load (some a) = some u) : m.store (some a) v = some (m.set a (some v)) := by
  simp [Region.store, h]

theorem Region.free_of_load {α : Type} {m : Region α} {a : Nat} {u : α}
    (h : m.load (some a) = some u) : m.free (some a) = some (m.set a none) := by
  simp [Region.free, h]

/-! ## Lemmas on chains -/

theorem Links.congr {f g : Nat → Option (Ptr × Ptr)} {cs : List (Nat × Nat)}
    (hfg : ∀ c ∈ cs, g c.1 = f c.1) {p t : Ptr} (h : Links f p cs t) : Links g p cs t := by
  induction cs generalizing p with
  | nil => exact h
  | cons c cs ih =>
    obtain ⟨hp, nx, hc, hrest⟩ := h
    refine ⟨hp, nx, ?_, ih (fun d hd => hfg d (List.mem_cons_of_mem _ hd)) hrest⟩
    rw [hfg c (List.mem_cons_self _ _)]
    exact hc

theorem Links.append_iff {f : Nat → Option (Ptr × Ptr)} {xs ys : List (Nat × Nat)}
    {p t : Ptr} : Links f p (xs ++ ys) t ↔ ∃ q, Links f p xs q ∧ Links f q ys t := by
  induction xs generalizing p with
  | nil =>
    constructor
    · intro h
      exact ⟨p, rfl, h⟩
    · rintro ⟨q, hq, h⟩
      have hpq : p = q := hq
      rw [hpq]
      exact h
  | cons c cs ih =>
    constructor
    · rintro ⟨hp, nx, hc, hrest⟩
      obtain ⟨q, h1, h2⟩ := ih.mp hrest
      exact ⟨q, ⟨hp, nx, hc, h1⟩, h2⟩
    · rintro ⟨q, ⟨hp, nx, hc, h1⟩, h2⟩
      exact ⟨hp, nx, hc, ih.mpr ⟨q, h1, h2⟩⟩

/-- Appending one item to a chain whose last link points to it. -/
theorem Links.snoc {f : Nat → Option (Ptr × Ptr)} {cs : List (Nat × Nat)} {p t : Ptr}
    {a o : Nat} (h : Links f p cs (some a)) (ha : f a = some (some o, t)) :
    Links f p (cs ++ [(a, o)]) t :=
  Links.append_iff.mpr ⟨some a, h, rfl, t, ha, rfl⟩

/-- The first pointer of a chain is its first item, or its end when it is empty. -/
theorem Links.first {f : Nat → Option (Ptr × Ptr)} {cs : List (Nat × Nat)} {p t : Ptr}
    (h : Links f p cs t) : p = (cs.head?.map fun c => c.1).or t := by
  cases cs with
  | nil => exact h
  | cons c cs => exact h.1

/-- The last item of a chain holds its object and the end of the chain. -/
theorem Links.last {f : Nat → Option (Ptr × Ptr)} {xs : List (Nat × Nat)} {c : Nat × Nat}
    {p t : Ptr} (h : Links f p (xs ++ [c]) t) : f c.1 = some (some c.2, t) := by
  obtain ⟨q, _, _, nx, hc, hnx⟩ := Links.append_iff.mp h
  have : nx = t := hnx
  rw [← this]
  exact hc

/-- Every item of a chain is bound to its object. -/
theorem Links.mem {f : Nat → Option (Ptr × Ptr)} {cs : List (Nat × Nat)} {p t : Ptr}
    (h : Links f p cs t) {c : Nat × Nat} (hc : c ∈ cs) : ∃ nx, f c.1 = some (some c.2, nx) := by
  induction cs generalizing p with
  | nil => cases hc
  | cons d ds ih =>
    obtain ⟨_, nx, hd, hrest⟩ := h
    rcases List.mem_cons.mp hc with rfl | hmem
    · exact ⟨nx, hd⟩
    · exact ih hrest hmem

/-- Rewriting the last link of a chain. -/
theorem Links.retarget {f g : Nat → Option (Ptr × Ptr)} {xs : List (Nat × Nat)}
    {c : Nat × Nat} {p t u : Ptr} (h : Links f p (xs ++ [c]) t)
    (hfg : ∀ x ∈ xs, g x.1 = f x.1) (hc : g c.1 = some (some c.2, u)) :
    Links g p (xs ++ [c]) u := by
  obtain ⟨q, h1, hq, _⟩ := Links.append_iff.mp h
  exact Links.append_iff.mpr ⟨q, Links.congr hfg h1, hq, u, hc, rfl⟩

/-- Distinct addresses below `n` are at most `n`. -/
theorem length_le_of_nodup_lt {l : List Nat} {n : Nat} (hn : l.Nodup)
    (hlt : ∀ a ∈ l, a < n) : l.length ≤ n := by
  have hsub : l ⊆ List.range n := fun a ha => List.mem_range.mpr (hlt a ha)
  simpa using (List.subperm_of_subset hn hsub).length_le

/-! ## Lemmas on layouts and registration -/

theorem sectionLink_eq_some {m : Region easyopts_sections_list} {a : Nat} {o nx : Ptr} :
    sectionLink m a = some (o, nx) ↔ m.load (some a) = some { object := o, next := nx } := by
  unfold sectionLink
  cases h : m.load (some a) with
  | none => simp
  | some n =>
    cases n
    simp

theorem optionLink_eq_some {m : Region easyopts_options_list} {a : Nat} {o nx : Ptr} :
    optionLink m a = some (o, nx) ↔ m.load (some a) = some { object := o, next := nx } := by
  unfold optionLink
  cases h : m.load (some a) with
  | none => simp
  | some n =>
    cases n
    simp

theorem mem_allOpts {L : List SecCell} {c : OptCell} :
    c ∈ allOpts L ↔ ∃ s ∈ L, c ∈ s.opts := by
  simp [allOpts, List.mem_flatMap]

theorem mem_secAddrs {L : List SecCell} {s : SecCell} (hs : s ∈ L) :
    (s.item, s.obj) ∈ secAddrs L :=
  List.mem_map.mpr ⟨s, hs, rfl⟩

theorem mem_optAddrs {cs : List OptCell} {c : OptCell} (hc : c ∈ cs) :
    (c.item, c.obj) ∈ optAddrs cs :=
  List.mem_map.mpr ⟨c, hc, rfl⟩

theorem Lays.secItem_load {w : World} {L : List SecCell} (h : Lays w L) {s : SecCell} (hs : s ∈ L) :
    ∃ nx, w.sectionItems.load (some s.item) = some { object := some s.obj, next := nx } := by
  obtain ⟨nx, hnx⟩ := h.secLinks.mem (mem_secAddrs hs)
  exact ⟨nx, sectionLink_eq_some.mp hnx⟩

theorem Lays.secItem_lt {w : World} {L : List SecCell} (h : Lays w L) {s : SecCell} (hs : s ∈ L) :
    s.item < w.sectionItems.length := by
  obtain ⟨nx, hnx⟩ := h.secItem_load hs
  exact Region.load_some_lt hnx

theorem Lays.secObj_lt {w : World} {L : List SecCell} (h : Lays w L) {s : SecCell} (hs : s ∈ L) :
    s.obj < w.sections.length :=
  Region.load_some_lt (h.secObj s hs)

theorem Lays.optItem_load {w : World} {L : List SecCell} (h : Lays w L) {s : SecCell} (hs : s ∈ L) {c : OptCell}
    (hc : c ∈ s.opts) :
    ∃ nx, w.optionItems.load (some c.item) = some { object := some c.obj, next := nx } := by
  obtain ⟨nx, hnx⟩ := (h.optLinks s hs).mem (mem_optAddrs hc)
  exact ⟨nx, optionLink_eq_some.mp hnx⟩

theorem Lays.optItem_lt {w : World} {L : List SecCell} (h : Lays w L) {s : SecCell} (hs : s ∈ L) {c : OptCell}
    (hc : c ∈ s.opts) : c.item < w.optionItems.length := by
  obtain ⟨nx, hnx⟩ := h.optItem_load hs hc
  exact Region.load_some_lt hnx

theorem Lays.optObj_lt {w : World} {L : List SecCell} (h : Lays w L) {s : SecCell} (hs : s ∈ L) {c : OptCell}
    (hc : c ∈ s.opts) : c.obj < w.options.length :=
  Region.load_some_lt (h.optObj c (mem_allOpts.mpr ⟨s, hs, hc⟩))

/-- The state after `easyopts_addSection` on a state that holds a registry. -/
theorem addSection_lays {w : World} {L : List SecCell} (h : Lays w L)
    (name description : String) (type : Int) :
    ∃ w', easyopts_addSection name description type w = some (w', some w.sections.length) ∧
      Lays w' (L ++ [newSecCell w name description type]) ∧
      w'.s_commandLineOptions.argc = w.s_commandLineOptions.argc ∧
      w'.s_commandLineOptions.argv = w.s_commandLineOptions.argv ∧
      w'.s_commandLineOptions.description = w.s_commandLineOptions.description ∧
      w'.options = w.options ∧ w'.optionItems = w.optionItems ∧
      w'.stdout = w.stdout ∧ w'.released = w.released := by
  rcases List.eq_nil_or_concat L with rfl | ⟨xs, c, hL⟩
  · have hfirst : w.s_commandLineOptions.firstSection = none := h.secLinks
    have hlast : w.s_commandLineOptions.lastSection = none := h.lastSec
    refine ⟨{ w with
        sections := w.sections ++ [some (easyopts_section.mk name description type none none)],
        sectionItems := w.sectionItems ++
          [some (easyopts_sections_list.mk (some w.sections.length) none)],
        s_commandLineOptions := { w.s_commandLineOptions with
          firstSection := some w.sectionItems.length,
          lastSection := some w.sectionItems.length } }, ?_, ?_, rfl, rfl, rfl, rfl, rfl, rfl, rfl⟩
    · simp [easyopts_addSection, Region.malloc, hfirst, hlast]
    · constructor
      · refine ⟨rfl, none, ?_, rfl⟩
        simp [newSecCell, sectionLink_eq_some, Region.load]
      · simp [newSecCell]
      · intro s hs
        simp at hs
        subst hs
        simp [newSecCell, Region.load, firstItem, lastItem]
      · intro s hs
        simp at hs
        subst hs
        simp [newSecCell, firstItem, optAddrs, Links]
      · intro c hc
        simp [allOpts, newSecCell] at hc
      · simp
      · simp
      · simp [allOpts, newSecCell]
      · simp [allOpts, newSecCell]
  · rw [List.concat_eq_append] at hL
    subst hL
    have hcmem : c ∈ xs ++ [c] := by simp
    have hlast : w.s_commandLineOptions.lastSection = some c.item := by
      simpa using h.lastSec
    obtain ⟨a0, hfirst⟩ : ∃ a0, w.s_commandLineOptions.firstSection = some a0 := by
      have := h.secLinks.first
      cases xs <;> simp [secAddrs] at this <;> exact ⟨_, this⟩
    have hlinks : Links (sectionLink w.sectionItems) w.s_commandLineOptions.firstSection
        (secAddrs xs ++ [(c.item, c.obj)]) none := by
      simpa [secAddrs] using h.secLinks
    have hcload : w.sectionItems.load (some c.item) = some ⟨some c.obj, none⟩ :=
      sectionLink_eq_some.mp hlinks.last
    have hclt : c.item < w.sectionItems.length := Region.load_some_lt hcload
    have hnd : ∀ s ∈ xs, s.item ≠ c.item := by
      have := h.nodupSecItems
      simp [List.nodup_append] at this
      intro s hs heq
      exact this.2 s hs heq
    refine ⟨{ w with
        sections := w.sections ++ [some (easyopts_section.mk name description type none none)],
        sectionItems := (w.sectionItems ++ [some (easyopts_sections_list.mk (some w.sections.length) none)]).set c.item
          (some (easyopts_sections_list.mk (some c.obj) (some w.sectionItems.length))),
        s_commandLineOptions := { w.s_commandLineOptions with
          lastSection := some w.sectionItems.length } }, ?_, ?_, rfl, rfl, rfl, rfl, rfl, rfl, rfl⟩
    · have hl2 : Region.load (w.sectionItems ++ [some (easyopts_sections_list.mk (some w.sections.length) none)])
          (some c.item) = some ⟨some c.obj, none⟩ := by
        rw [Region.load_append_old _ _ hclt]
        exact hcload
      simp [easyopts_addSection, Region.malloc, hfirst, hlast, hl2, Region.store_of_load]
    · have hold : ∀ s ∈ xs ++ [c], ∀ b, b ≠ c.item → b = s.item →
          sectionLink ((w.sectionItems ++ [some (easyopts_sections_list.mk (some w.sections.length) none)]).set c.item
            (some (easyopts_sections_list.mk (some c.obj) (some w.sectionItems.length)))) b = sectionLink w.sectionItems b := by
        intro s hs b hb hbs
        have hlt : b < w.sectionItems.length := hbs ▸ h.secItem_lt hs
        unfold sectionLink
        rw [Region.load_set_ne _ _ (Ne.symm hb), Region.load_append_old _ _ hlt]
      constructor
      · show Links _ w.s_commandLineOptions.firstSection _ none
        have : secAddrs (xs ++ [c] ++ [newSecCell w name description type]) =
            (secAddrs xs ++ [(c.item, c.obj)]) ++ [(w.sectionItems.length, w.sections.length)] := by
          simp [secAddrs, newSecCell]
        rw [this]
        refine Links.snoc (Links.retarget hlinks ?_ ?_) ?_
        · intro x hx
          obtain ⟨s, hs, rfl⟩ := List.mem_map.mp hx
          exact hold s (List.mem_append_left _ hs) s.item (hnd s hs) rfl
        · rw [sectionLink_eq_some]
          show Region.load (List.set _ _ _) _ = _
          rw [Region.load_set_same]
          simpa using Nat.lt_succ_of_lt hclt
        · rw [sectionLink_eq_some]
          show Region.load (List.set _ _ _) _ = _
          rw [Region.load_set_ne _ _ (Nat.ne_of_lt hclt), Region.load_append_new]
      · simp [newSecCell]
      · intro s hs
        show Region.load (w.sections ++ _) _ = _
        rcases List.mem_append.mp hs with hs | hs
        · rw [Region.load_append_old _ _ (h.secObj_lt hs)]
          exact h.secObj s hs
        · simp at hs
          subst hs
          simp [newSecCell, Region.load, firstItem, lastItem]
      · intro s hs
        show Links (optionLink w.optionItems) _ _ _
        rcases List.mem_append.mp hs with hs | hs
        · exact h.optLinks s hs
        · simp at hs
          subst hs
          simp [newSecCell, firstItem, optAddrs, Links]
      · intro d hd
        show Region.load w.options _ = _
        apply h.optObj
        simpa [allOpts, newSecCell] using hd
      · have h1 := h.nodupSecItems
        have hnew : ∀ s ∈ xs ++ [c], s.item ≠ w.sectionItems.length :=
          fun s hs => Nat.ne_of_lt (h.secItem_lt hs)
        rw [List.map_append, List.nodup_append]
        refine ⟨h1, by simp, ?_⟩
        intro a ha hb
        simp [newSecCell] at hb
        obtain ⟨s, hs, rfl⟩ := List.mem_map.mp ha
        exact hnew s hs hb
      · have h1 := h.nodupSecObjs
        have hnew : ∀ s ∈ xs ++ [c], s.obj ≠ w.sections.length :=
          fun s hs => Nat.ne_of_lt (h.secObj_lt hs)
        rw [List.map_append, List.nodup_append]
        refine ⟨h1, by simp, ?_⟩
        intro a ha hb
        simp [newSecCell] at hb
        obtain ⟨s, hs, rfl⟩ := List.mem_map.mp ha
        exact hnew s hs hb
      · have h1 := h.nodupOptItems
        simpa [allOpts, newSecCell] using h1
      · have h1 := h.nodupOptObjs
        simpa [allOpts, newSecCell] using h1

theorem nodup_map_middle {α β : Type} {f : α → β} {pre post : List α} {s : α}
    (h : ((pre ++ s :: post).map f).Nodup) : ∀ x ∈ pre ++ post, f x ≠ f s := by
  simp only [List.map_append, List.map_cons, List.nodup_append, List.nodup_cons,
    List.mem_map, not_exists, not_and] at h
  obtain ⟨_, ⟨hpost, _⟩, hdis⟩ := h
  intro x hx heq
  rcases List.mem_append.mp hx with hx | hx
  · exact hdis (List.mem_map.mpr ⟨x, hx, heq⟩) (List.mem_cons_self _ _)
  · exact hpost x hx heq

theorem allOpts_middle (pre post : List SecCell) (s : SecCell) :
    allOpts (pre ++ s :: post) = allOpts pre ++ s.opts ++ allOpts post := by
  simp [allOpts]

theorem nodup_allOpts_middle {β : Type} {f : OptCell → β} {pre post : List SecCell}
    {s : SecCell} (h : ((allOpts (pre ++ s :: post)).map f).Nodup) :
    ∀ x ∈ pre ++ post, ∀ d ∈ x.opts, ∀ e ∈ s.opts, f d ≠ f e := by
  rw [allOpts_middle] at h
  simp only [List.map_append, List.nodup_append] at h
  obtain ⟨⟨_, _, h1⟩, _, h2⟩ := h
  intro x hx d hd e he heq
  rcases List.mem_append.mp hx with hx | hx
  · exact h1 (List.mem_map.mpr ⟨d, mem_allOpts.mpr ⟨x, hx, hd⟩, heq⟩)
      (List.mem_map.mpr ⟨e, he, rfl⟩)
  · exact h2 (List.mem_append_right _ (List.mem_map.mpr ⟨e, he, rfl⟩))
      (List.mem_map.mpr ⟨d, mem_allOpts.mpr ⟨x, hx, hd⟩, heq.symm ▸ rfl⟩)

theorem nodup_allOpts_insert {β : Type} {f : OptCell → β} {pre post : List SecCell}
    {s s' : SecCell} {c : OptCell} (hs' : s'.opts = s.opts ++ [c])
    (h : ((allOpts (pre ++ s :: post)).map f).Nodup)
    (hc : ∀ d ∈ allOpts (pre ++ s :: post), f d ≠ f c) :
    ((allOpts (pre ++ s' :: post)).map f).Nodup := by
  have hperm : List.Perm ((allOpts (pre ++ s' :: post)).map f)
      (f c :: (allOpts (pre ++ s :: post)).map f) := by
    rw [allOpts_middle, allOpts_middle, hs']
    simp only [List.map_append, List.map_cons, List.map_nil, List.append_assoc,
      List.singleton_append]
    rw [← List.append_assoc, ← List.append_assoc]
    exact List.perm_middle
  rw [hperm.nodup_iff, List.nodup_cons]
  refine ⟨?_, h⟩
  intro hmem
  obtain ⟨d, hd, heq⟩ := List.mem_map.mp hmem
  exact hc d hd heq

theorem firstItem_snoc (ys : List OptCell) (l c : OptCell) :
    firstItem (ys ++ [l] ++ [c]) = firstItem (ys ++ [l]) := by
  cases ys <;> simp [firstItem]

theorem lastItem_snoc (cs : List OptCell) (c : OptCell) :
    lastItem (cs ++ [c]) = some c.item := by
  simp [lastItem]

theorem getLast?_map_middle {β : Type} (f : SecCell → β) (pre post : List SecCell)
    (s s' : SecCell) (hf : f s' = f s) :
    (pre ++ s' :: post).getLast?.map f = (pre ++ s :: post).getLast?.map f := by
  rw [← List.getLast?_map, ← List.getLast?_map]
  simp [hf]

/-- The layout after an option has been appended to section `s`, from what the new state
holds. -/
theorem lays_withOption {w w' : World} {pre post : List SecCell} {s : SecCell}
    (h : Lays w (pre ++ s :: post)) (junk : Nat → Ptr) (val : easyopts_option)
    (hcmd : w'.s_commandLineOptions = w.s_commandLineOptions)
    (hsi : w'.sectionItems = w.sectionItems)
    (hopts : w'.options = w.options ++ [some val])
    (hsecs : w'.sections = w.sections.set s.obj
      (some { name := s.name, description := s.description, type := s.type,
              firstOption := firstItem (s.opts ++ [newOptCell w val]),
              lastOption := some w.optionItems.length }))
    (hframe : ∀ x ∈ pre ++ post, ∀ d ∈ x.opts,
      optionLink w'.optionItems d.item = optionLink w.optionItems d.item)
    (hlinks : Links (optionLink w'.optionItems) (firstItem (s.opts ++ [newOptCell w val]))
      (optAddrs (s.opts ++ [newOptCell w val])) (junk w.optionItems.length)) :
    Lays w' (pre ++ s.withOption junk w val :: post) := by
  have hsmem : s ∈ pre ++ s :: post := by simp
  have hsub : ∀ x ∈ pre ++ post, x ∈ pre ++ s :: post := by
    intro x hx
    rcases List.mem_append.mp hx with hx | hx
    · exact List.mem_append_left _ hx
    · exact List.mem_append_right _ (List.mem_cons_of_mem _ hx)
  have hcases : ∀ x ∈ pre ++ s.withOption junk w val :: post,
      x = s.withOption junk w val ∨ x ∈ pre ++ post := by
    intro x hx
    rcases List.mem_append.mp hx with hx | hx
    · exact Or.inr (List.mem_append_left _ hx)
    · rcases List.mem_cons.mp hx with hx | hx
      · exact Or.inl hx
      · exact Or.inr (List.mem_append_right _ hx)
  constructor
  · rw [hcmd, hsi]
    have : secAddrs (pre ++ s.withOption junk w val :: post) = secAddrs (pre ++ s :: post) := by
      simp [secAddrs, SecCell.withOption]
    rw [this]
    exact h.secLinks
  · rw [hcmd, h.lastSec]
    exact (getLast?_map_middle (fun s => s.item) pre post s (s.withOption junk w val) rfl).symm
  · intro x hx
    rw [hsecs]
    rcases hcases x hx with rfl | hx
    · show Region.load _ (some s.obj) = _
      rw [Region.load_set_same _ _ (h.secObj_lt hsmem)]
      simp [SecCell.withOption, lastItem_snoc, newOptCell]
    · rw [Region.load_set_ne _ _ (Ne.symm (nodup_map_middle h.nodupSecObjs x hx))]
      exact h.secObj x (hsub x hx)
  · intro x hx
    rcases hcases x hx with rfl | hx
    · exact hlinks
    · exact Links.congr (fun d hd => by
        obtain ⟨e, he, rfl⟩ := List.mem_map.mp hd
        exact hframe x hx e he) (h.optLinks x (hsub x hx))
  · intro c hc
    rw [hopts]
    obtain ⟨x, hx, hcx⟩ := mem_allOpts.mp hc
    rcases hcases x hx with rfl | hx
    · rcases List.mem_append.mp hcx with hcx | hcx
      · rw [Region.load_append_old _ _ (h.optObj_lt hsmem hcx)]
        exact h.optObj c (mem_allOpts.mpr ⟨s, hsmem, hcx⟩)
      · simp at hcx
        subst hcx
        exact Region.load_append_new _ _
    · rw [Region.load_append_old _ _ (h.optObj_lt (hsub x hx) hcx)]
      exact h.optObj c (mem_allOpts.mpr ⟨x, hsub x hx, hcx⟩)
  · have : (pre ++ s.withOption junk w val :: post).map (fun s => s.item) =
        (pre ++ s :: post).map (fun s => s.item) := by
      simp [SecCell.withOption]
    rw [this]
    exact h.nodupSecItems
  · have : (pre ++ s.withOption junk w val :: post).map (fun s => s.obj) =
        (pre ++ s :: post).map (fun s => s.obj) := by
      simp [SecCell.withOption]
    rw [this]
    exact h.nodupSecObjs
  · refine nodup_allOpts_insert (c := newOptCell w val) rfl h.nodupOptItems ?_
    intro d hd
    obtain ⟨x, hx, hdx⟩ := mem_allOpts.mp hd
    exact Nat.ne_of_lt (h.optItem_lt hx hdx)
  · refine nodup_allOpts_insert (c := newOptCell w val) rfl h.nodupOptObjs ?_
    intro d hd
    obtain ⟨x, hx, hdx⟩ := mem_allOpts.mp hd
    exact Nat.ne_of_lt (h.optObj_lt hx hdx)

/-- The state after `easyopts_addOption` on a section of a state that holds a registry:
the option is appended to that section, whatever `junk` the allocator left. -/
theorem addOption_lays {w : World} {pre post : List SecCell} {s : SecCell}
    (h : Lays w (pre ++ s :: post)) (junk : Nat → Ptr) (val : easyopts_option) :
    ∃ w', easyopts_addOption junk (some s.obj) val.shortOption val.longOption val.type
        val.isRequired val.validate val.assign val.description w = some w' ∧
      Lays w' (pre ++ s.withOption junk w val :: post) ∧
      w'.s_commandLineOptions = w.s_commandLineOptions ∧
      w'.sectionItems = w.sectionItems ∧ w'.stdout = w.stdout ∧ w'.released = w.released := by
  have hsmem : s ∈ pre ++ s :: post := by simp
  have hsobj := h.secObj s hsmem
  have hslt : s.obj < w.sections.length := h.secObj_lt hsmem
  have hval : easyopts_option.mk val.shortOption val.longOption val.type val.isRequired
      val.validate val.assign val.description = val := rfl
  rcases List.eq_nil_or_concat s.opts with hnil | ⟨ys, l, hys⟩
  · refine ⟨{ w with
        options := w.options ++ [some val],
        optionItems := w.optionItems ++
          [some (easyopts_options_list.mk (some w.options.length) (junk w.optionItems.length))],
        sections := w.sections.set s.obj
          (some (easyopts_section.mk s.name s.description s.type (some w.optionItems.length)
            (some w.optionItems.length))) }, ?_, ?_, rfl, rfl, rfl, rfl⟩
    · simp [easyopts_addOption, Region.malloc, hsobj, hnil, firstItem, lastItem,
        Region.load_set_same, hslt, Region.store, hval]
    · refine lays_withOption h junk val rfl rfl rfl ?_ ?_ ?_
      · simp [hnil, firstItem, newOptCell]
      · intro x hx d hd
        show optionLink (w.optionItems ++ _) _ = _
        unfold optionLink
        rw [Region.load_append_old _ _ (h.optItem_lt (by
          rcases List.mem_append.mp hx with hx | hx
          · exact List.mem_append_left _ hx
          · exact List.mem_append_right _ (List.mem_cons_of_mem _ hx)) hd)]
      · rw [hnil]
        refine ⟨rfl, junk w.optionItems.length, ?_, rfl⟩
        rw [optionLink_eq_some]
        exact Region.load_append_new _ _
  · rw [List.concat_eq_append] at hys
    have hlmem : l ∈ s.opts := by simp [hys]
    have hfirst : ∃ a, firstItem s.opts = some a := by
      rw [hys]
      cases ys <;> simp [firstItem]
    obtain ⟨a0, ha0⟩ := hfirst
    have hlast : lastItem s.opts = some l.item := by
      rw [hys]
      exact lastItem_snoc ys l
    have hlinks0 : Links (optionLink w.optionItems) (firstItem s.opts)
        (optAddrs ys ++ [(l.item, l.obj)]) s.tail := by
      have := h.optLinks s hsmem
      rw [hys] at this
      simpa [optAddrs, hys] using this
    have hlload : w.optionItems.load (some l.item) = some ⟨some l.obj, s.tail⟩ :=
      optionLink_eq_some.mp hlinks0.last
    have hllt : l.item < w.optionItems.length := Region.load_some_lt hlload
    have hl2 : Region.load (w.optionItems ++
        [some (easyopts_options_list.mk (some w.options.length) (junk w.optionItems.length))])
        (some l.item) = some ⟨some l.obj, s.tail⟩ := by
      rw [Region.load_append_old _ _ hllt]
      exact hlload
    have hndl : ∀ d ∈ ys, d.item ≠ l.item := by
      have h1 := h.nodupOptItems
      rw [allOpts_middle, hys] at h1
      simp only [List.map_append, List.nodup_append] at h1
      obtain ⟨⟨_, ⟨_, _, h2⟩, _⟩, _⟩ := h1
      intro d hd heq
      exact h2 (List.mem_map.mpr ⟨d, hd, rfl⟩) (by simp [heq])
    have hother : ∀ d : OptCell, d.item ≠ l.item → d.item < w.optionItems.length →
        optionLink ((w.optionItems ++
          [some (easyopts_options_list.mk (some w.options.length) (junk w.optionItems.length))]).set
            l.item (some (easyopts_options_list.mk (some l.obj) (some w.optionItems.length))))
          d.item = optionLink w.optionItems d.item := by
      intro d hne hlt
      unfold optionLink
      rw [Region.load_set_ne _ _ (Ne.symm hne), Region.load_append_old _ _ hlt]
    refine ⟨{ w with
        options := w.options ++ [some val],
        optionItems := (w.optionItems ++
          [some (easyopts_options_list.mk (some w.options.length)
            (junk w.optionItems.length))]).set l.item
          (some (easyopts_options_list.mk (some l.obj) (some w.optionItems.length))),
        sections := w.sections.set s.obj
          (some (easyopts_section.mk s.name s.description s.type (firstItem s.opts)
            (some w.optionItems.length))) }, ?_, ?_, rfl, rfl, rfl, rfl⟩
    · simp [easyopts_addOption, Region.malloc, hsobj, ha0, hlast, hl2,
        Region.load_set_same, hslt, Region.store, hval]
    · refine lays_withOption h junk val rfl rfl rfl ?_ ?_ ?_
      · rw [hys, firstItem_snoc]
      · intro x hx d hd
        refine hother d ?_ (h.optItem_lt (by
          rcases List.mem_append.mp hx with hx | hx
          · exact List.mem_append_left _ hx
          · exact List.mem_append_right _ (List.mem_cons_of_mem _ hx)) hd)
        exact nodup_allOpts_middle h.nodupOptItems x hx d hd l hlmem
      · have haddr : optAddrs (s.opts ++ [newOptCell w val]) =
            (optAddrs ys ++ [(l.item, l.obj)]) ++ [(w.optionItems.length, w.options.length)] := by
          simp [optAddrs, hys, newOptCell]
        have hf : firstItem (s.opts ++ [newOptCell w val]) = firstItem s.opts := by
          rw [hys, firstItem_snoc]
        rw [haddr, hf]
        refine Links.snoc (Links.retarget hlinks0 ?_ ?_) ?_
        · intro x hx
          obtain ⟨d, hd, rfl⟩ := List.mem_map.mp hx
          exact hother d (hndl d hd) (h.optItem_lt hsmem (by simp [hys, hd]))
        · rw [optionLink_eq_some]
          show Region.load (List.set _ _ _) _ = _
          rw [Region.load_set_same]
          simpa using Nat.lt_succ_of_lt hllt
        · rw [optionLink_eq_some]
          show Region.load (List.set _ _ _) _ = _
          rw [Region.load_set_ne _ _ (Nat.ne_of_lt hllt), Region.load_append_new]

/-! ## Lemmas on the help loops -/

theorem printf_empty (w : World) : printf "" w = w := by
  simp [printf]

theorem printf_printf (a b : String) (w : World) :
    printf b (printf a w) = printf (a ++ b) w := by
  simp [printf, String.append_assoc]

theorem usagePrint_eq (i : easyopts_option) (w : World) :
    (if i.isRequired = REQUIRED_REQUIRED then printf (" --" ++ i.longOption ++ "=X") w
      else printf (" [--" ++ i.longOption ++ "=X]") w) = printf (usageEntry i) w := by
  unfold usageEntry
  split <;> rfl

/-- The usage loop over a NULL-terminated option chain prints the entries in chain order. -/
theorem helpUsageOptions_eq (cs : List OptCell) :
    ∀ (fuel : Nat) (p : Ptr) (w : World),
      Links (optionLink w.optionItems) p (optAddrs cs) none →
      (∀ c ∈ cs, w.options.load (some c.obj) = some c.val) →
      cs.length < fuel →
      helpUsageOptions fuel p w =
        some (printf (joinText (cs.map fun c => usageEntry c.val)) w) := by
  induction cs with
  | nil =>
    intro fuel p w hl _ hf
    have hp : p = none := hl
    subst hp
    obtain ⟨k, rfl⟩ : ∃ k, fuel = k + 1 := ⟨fuel - 1, by omega⟩
    simp [helpUsageOptions, joinText, printf_empty]
  | cons c cs ih =>
    intro fuel p w hl hv hf
    obtain ⟨hp, nx, hc, hrest⟩ := hl
    subst hp
    obtain ⟨k, rfl⟩ : ∃ k, fuel = k + 1 := ⟨fuel - 1, by omega⟩
    have hload : w.optionItems.load (some c.item) =
        some { object := some c.obj, next := nx } := optionLink_eq_some.mp hc
    have hobj := hv c (List.mem_cons_self _ _)
    have hload' : ∀ t, (printf t w).optionItems.load (some c.item) =
        some { object := some c.obj, next := nx } := fun _ => hload
    have hrec := ih k nx (printf (usageEntry c.val) w) hrest
      (fun d hd => hv d (List.mem_cons_of_mem _ hd)) (by simpa using hf)
    simp [helpUsageOptions, hload, hobj, usagePrint_eq, hload', hrec, printf_printf, joinText]

/-- The block loop over a NULL-terminated option chain prints one line per option, in
chain order. -/
theorem helpBlockOptions_eq (cs : List OptCell) :
    ∀ (fuel : Nat) (p : Ptr) (w : World),
      Links (optionLink w.optionItems) p (optAddrs cs) none →
      (∀ c ∈ cs, w.options.load (some c.obj) = some c.val) →
      cs.length < fuel →
      helpBlockOptions fuel p w =
        some (printf (joinText (cs.map fun c => optionLine c.val)) w) := by
  induction cs with
  | nil =>
    intro fuel p w hl _ hf
    have hp : p = none := hl
    subst hp
    obtain ⟨k, rfl⟩ : ∃ k, fuel = k + 1 := ⟨fuel - 1, by omega⟩
    simp [helpBlockOptions, joinText, printf_empty]
  | cons c cs ih =>
    intro fuel p w hl hv hf
    obtain ⟨hp, nx, hc, hrest⟩ := hl
    subst hp
    obtain ⟨k, rfl⟩ : ∃ k, fuel = k + 1 := ⟨fuel - 1, by omega⟩
    have hload : w.optionItems.load (some c.item) =
        some { object := some c.obj, next := nx } := optionLink_eq_some.mp hc
    have hobj := hv c (List.mem_cons_self _ _)
    have hload' : ∀ t, (printf t w).optionItems.load (some c.item) =
        some { object := some c.obj, next := nx } := fun _ => hload
    have hrec := ih k nx (printf (optionLine c.val) w) hrest
      (fun d hd => hv d (List.mem_cons_of_mem _ hd)) (by simpa using hf)
    have hline : ("--" ++ c.val.longOption ++ "=[" ++ easyopts_print_option_type c.val.type
        ++ "] " ++ c.val.description ++ "\n") = optionLine c.val := rfl
    simp [helpBlockOptions, hload, hobj, hline, hload', hrec, printf_printf, joinText]

/-- The first section loop prints the usage entries of the shown sections, in list order. -/
theorem helpUsageSections_eq (showHidden : Int) (L : List SecCell) :
    ∀ (fuel : Nat) (p : Ptr) (w : World),
      Links (sectionLink w.sectionItems) p (secAddrs L) none →
      (∀ s ∈ L, SecReadable showHidden w s) →
      L.length < fuel →
      helpUsageSections showHidden fuel p w =
        some (printf (joinText ((visibleSections showHidden (registry L)).map
          fun s => joinText (s.options.map usageEntry))) w) := by
  induction L with
  | nil =>
    intro fuel p w hl _ hf
    have hp : p = none := hl
    subst hp
    obtain ⟨k, rfl⟩ : ∃ k, fuel = k + 1 := ⟨fuel - 1, by omega⟩
    simp [helpUsageSections, joinText, printf_empty, visibleSections, registry]
  | cons s L ih =>
    intro fuel p w hl hr hf
    obtain ⟨hp, nx, hc, hrest⟩ := hl
    subst hp
    obtain ⟨k, rfl⟩ : ∃ k, fuel = k + 1 := ⟨fuel - 1, by omega⟩
    have hload : w.sectionItems.load (some s.item) =
        some { object := some s.obj, next := nx } := sectionLink_eq_some.mp hc
    have hs := hr s (List.mem_cons_self _ _)
    have hload' : ∀ t, (printf t w).sectionItems.load (some s.item) =
        some { object := some s.obj, next := nx } := fun _ => hload
    by_cases hvis : printIt showHidden s.type = true
    · have hopt := helpUsageOptions_eq s.opts (w.optionItems.length + 1) (firstItem s.opts) w
        (hs.links hvis) (hs.vals hvis) (Nat.lt_succ_of_le (hs.bound hvis))
      have hrec := ih k nx (printf (joinText (s.opts.map fun c => usageEntry c.val)) w) hrest
        (fun d hd => ⟨(hr d (List.mem_cons_of_mem _ hd)).obj,
          (hr d (List.mem_cons_of_mem _ hd)).links, (hr d (List.mem_cons_of_mem _ hd)).vals,
          (hr d (List.mem_cons_of_mem _ hd)).bound⟩) (by simpa using hf)
      simp [helpUsageSections, hload, hs.obj, hvis, hopt, hload', hrec, printf_printf,
        visibleSections, registry, SecCell.view, joinText, List.filter_cons, Function.comp_def]
    · have hrec := ih k nx w hrest (fun d hd => hr d (List.mem_cons_of_mem _ hd))
        (by simpa using hf)
      simp [helpUsageSections, hload, hs.obj, hvis, hrec, visibleSections, registry,
        SecCell.view, List.filter_cons]

/-- The second section loop prints the blocks of the shown sections, in list order. -/
theorem helpBlockSections_eq (showHidden : Int) (L : List SecCell) :
    ∀ (fuel : Nat) (p : Ptr) (w : World),
      Links (sectionLink w.sectionItems) p (secAddrs L) none →
      (∀ s ∈ L, SecReadable showHidden w s) →
      L.length < fuel →
      helpBlockSections showHidden fuel p w =
        some (printf (joinText ((visibleSections showHidden (registry L)).map sectionBlock)) w) := by
  induction L with
  | nil =>
    intro fuel p w hl _ hf
    have hp : p = none := hl
    subst hp
    obtain ⟨k, rfl⟩ : ∃ k, fuel = k + 1 := ⟨fuel - 1, by omega⟩
    simp [helpBlockSections, joinText, printf_empty, visibleSections, registry]
  | cons s L ih =>
    intro fuel p w hl hr hf
    obtain ⟨hp, nx, hc, hrest⟩ := hl
    subst hp
    obtain ⟨k, rfl⟩ : ∃ k, fuel = k + 1 := ⟨fuel - 1, by omega⟩
    have hload : w.sectionItems.load (some s.item) =
        some { object := some s.obj, next := nx } := sectionLink_eq_some.mp hc
    have hs := hr s (List.mem_cons_self _ _)
    have hload' : ∀ t, (printf t w).sectionItems.load (some s.item) =
        some { object := some s.obj, next := nx } := fun _ => hload
    by_cases hvis : printIt showHidden s.type = true
    · have hopt := helpBlockOptions_eq s.opts (w.optionItems.length + 1) (firstItem s.opts)
        (printf ("[" ++ s.name ++ ": " ++ easyopts_print_type s.type ++ "]\n"
          ++ (s.description ++ "\n")) w)
        (hs.links hvis) (hs.vals hvis) (Nat.lt_succ_of_le (hs.bound hvis))
      have hlen : ∀ t, (printf t w).optionItems.length = w.optionItems.length := fun _ => rfl
      have hobj := hs.obj
      have hvis' : printIt showHidden s.view.type = true := hvis
      have hrec := ih k nx (printf (sectionBlock s.view) w) hrest
        (fun d hd => ⟨(hr d (List.mem_cons_of_mem _ hd)).obj,
          (hr d (List.mem_cons_of_mem _ hd)).links, (hr d (List.mem_cons_of_mem _ hd)).vals,
          (hr d (List.mem_cons_of_mem _ hd)).bound⟩) (by simpa using hf)
      have hblock : "[" ++ s.name ++ ": " ++ easyopts_print_type s.type ++ "]\n"
          ++ (s.description ++ "\n") ++ joinText (s.opts.map fun c => optionLine c.val) ++ "\n"
          = sectionBlock s.view := by
        simp [sectionBlock, SecCell.view, Function.comp_def]
      simp [helpBlockSections, hload, hobj, hvis, hlen, hopt, hload', printf_printf, hblock,
        hrec, visibleSections, registry, joinText, List.filter_cons, hvis']
    · have hrec := ih k nx w hrest (fun d hd => hr d (List.mem_cons_of_mem _ hd))
        (by simpa using hf)
      simp [helpBlockSections, hload, hs.obj, hvis, hrec, visibleSections, registry,
        SecCell.view, List.filter_cons]

/-- The option chain of a section of a layout is no longer than the region of option
list items. -/
theorem Lays.opts_length_le {w : World} {L : List SecCell} (h : Lays w L) {s : SecCell}
    (hs : s ∈ L) : s.opts.length ≤ w.optionItems.length := by
  have hnd : (s.opts.map fun c => c.item).Nodup := by
    have h1 := h.nodupOptItems
    obtain ⟨pre, post, rfl⟩ := List.append_of_mem hs
    rw [allOpts_middle] at h1
    simp only [List.map_append, List.nodup_append] at h1
    exact h1.1.2.1
  have := length_le_of_nodup_lt hnd (n := w.optionItems.length) (by
    intro a ha
    obtain ⟨c, hc, rfl⟩ := List.mem_map.mp ha
    exact h.optItem_lt hs hc)
  simpa using this

/-- The section list of a layout is no longer than the region of section list items. -/
theorem Lays.length_le {w : World} {L : List SecCell} (h : Lays w L) :
    L.length ≤ w.sectionItems.length := by
  have := length_le_of_nodup_lt h.nodupSecItems (n := w.sectionItems.length) (by
    intro a ha
    obtain ⟨s, hs, rfl⟩ := List.mem_map.mp ha
    exact h.secItem_lt hs)
  simpa using this

/-- The sections of a layout whose shown option lists are NULL-terminated can be read by
the help loops. -/
theorem Lays.readable {w : World} {L : List SecCell} (h : Lays w L) (showHidden : Int)
    (hnull : ∀ s ∈ L, printIt showHidden s.type = true → s.tail = none) :
    ∀ s ∈ L, SecReadable showHidden w s := by
  intro s hs
  refine ⟨h.secObj s hs, ?_, ?_, fun _ => h.opts_length_le hs⟩
  · intro hvis
    have := h.optLinks s hs
    rw [hnull s hs hvis] at this
    exact this
  · intro _ c hc
    exact h.optObj c (mem_allOpts.mpr ⟨s, hs, hc⟩)

/-- The text `_easyopts_help` prints on a state that holds a registry whose shown option
lists are NULL-terminated. -/
theorem help_eq {w : World} {L : List SecCell} (h : Lays w L) (showHidden : Int)
    (hnull : ∀ s ∈ L, printIt showHidden s.type = true → s.tail = none)
    {argv0 : String} (hargv : w.s_commandLineOptions.argv[0]? = some argv0) :
    _easyopts_help showHidden w = some (printf (helpText w.s_commandLineOptions.description
      argv0 (visibleSections showHidden (registry L))) w) := by
  have hr := h.readable showHidden hnull
  have hlen := h.length_le
  have h1 := helpUsageSections_eq showHidden L (w.sectionItems.length + 1)
    w.s_commandLineOptions.firstSection
    (printf ("Usage: " ++ argv0) (printf (w.s_commandLineOptions.description ++ "\n\n") w))
    h.secLinks (fun s hs => ⟨(hr s hs).obj, (hr s hs).links, (hr s hs).vals, (hr s hs).bound⟩)
    (Nat.lt_succ_of_le hlen)
  have h2 := fun t => helpBlockSections_eq showHidden L (w.sectionItems.length + 1)
    w.s_commandLineOptions.firstSection (printf t w)
    h.secLinks (fun s hs => ⟨(hr s hs).obj, (hr s hs).links, (hr s hs).vals, (hr s hs).bound⟩)
    (Nat.lt_succ_of_le hlen)
  have ha : (printf (w.s_commandLineOptions.description ++ "\n\n") w).s_commandLineOptions.argv[0]?
      = some argv0 := hargv
  have hl : ∀ t (v : World), (printf t v).sectionItems = v.sectionItems := fun _ _ => rfl
  unfold _easyopts_help
  simp only [ha, Option.some_bind, hl, h1]
  simp only [printf_printf, h2]
  simp [helpText, usageLine, String.append_assoc]

/-! ## Lemmas on sequences of calls -/

theorem registry_append (L M : List SecCell) : registry (L ++ M) = registry L ++ registry M := by
  simp [registry]

theorem appendOption_middle (val : easyopts_option) (pre post : List SectionView)
    (s : SectionView) :
    appendOption val pre.length (pre ++ s :: post) =
      pre ++ { s with options := s.options ++ [val] } :: post := by
  induction pre with
  | nil => rfl
  | cons p pre ih => simp [appendOption, ih]

theorem split_at_index {α : Type} (L : List α) (i : Nat) (hi : i < L.length) :
    ∃ pre post, L = pre ++ L[i] :: post ∧ pre.length = i := by
  refine ⟨L.take i, L.drop (i + 1), ?_, ?_⟩
  · rw [← List.drop_eq_getElem_cons hi, List.take_append_drop]
  · simp [Nat.le_of_lt hi]

/-- Running a valid sequence of calls from a state that holds a registry gives a state
that holds the registry the calls register, whatever `junk` the allocator left. -/
theorem runCalls_lays (junk : Nat → Ptr) (base : Nat) (calls : List Call) :
    ∀ (w : World) (L : List SecCell) (hs : List Ptr),
      Lays w L → hs = (L.drop base).map (fun s => some s.obj) → base ≤ L.length →
      ValidCalls hs.length calls →
      ∃ w' L' hs', runCalls junk calls (w, hs) = some (w', hs') ∧ Lays w' L' ∧
        registry L' = registerCalls base calls (registry L) ∧
        w'.s_commandLineOptions.argc = w.s_commandLineOptions.argc ∧
        w'.s_commandLineOptions.argv = w.s_commandLineOptions.argv ∧
        w'.s_commandLineOptions.description = w.s_commandLineOptions.description ∧
        w'.stdout = w.stdout ∧ w'.released = w.released ∧
        ((∀ a, junk a = none) → NullTerminated L → NullTerminated L') := by
  induction calls with
  | nil =>
    intro w L hs h _ _ _
    exact ⟨w, L, hs, rfl, h, rfl, rfl, rfl, rfl, rfl, rfl, fun _ hn => hn⟩
  | cons c cs ih =>
    intro w L hs h hhs hbase hvalid
    cases c with
    | addSection name description type =>
      obtain ⟨w1, hrun, hlays, hargc, hargv, hdesc, _, _, hout, hrel⟩ :=
        addSection_lays h name description type
      have hhs1 : hs ++ [some w.sections.length] =
          ((L ++ [newSecCell w name description type]).drop base).map (fun s => some s.obj) := by
        rw [List.drop_append_of_le_length hbase, List.map_append, hhs]
        rfl
      have hvalid1 : ValidCalls (hs ++ [some w.sections.length]).length cs := by
        simpa [ValidCalls] using hvalid
      obtain ⟨w', L', hs', hrun', hlays', hreg, h1, h2, h3, h4, h5, h6⟩ :=
        ih w1 _ _ hlays hhs1 (by simp; omega) hvalid1
      refine ⟨w', L', hs', ?_, hlays', ?_, h1.trans hargc, h2.trans hargv, h3.trans hdesc,
        h4.trans hout, h5.trans hrel, ?_⟩
      · simp [runCalls, hrun, hrun']
      · rw [hreg, registry_append]
        rfl
      · intro hj hn
        refine h6 hj ?_
        intro s hs
        rcases List.mem_append.mp hs with hs | hs
        · exact hn s hs
        · simp at hs
          subst hs
          rfl
    | addOption k val =>
      obtain ⟨hk, hvalid1⟩ : k < hs.length ∧ ValidCalls hs.length cs := hvalid
      have hlen : hs.length = L.length - base := by simp [hhs]
      have hi : base + k < L.length := by omega
      obtain ⟨pre, post, hL, hpre⟩ := split_at_index L (base + k) hi
      have hgs : hs[k]? = some (some (L[base + k]).obj) := by
        subst hhs
        simp [List.getElem?_map, List.getElem?_drop, List.getElem?_eq_getElem hi]
      generalize L[base + k] = s at hL hgs
      subst hL
      obtain ⟨w1, hrun, hlays, hcmd, _, hout, hrel⟩ := addOption_lays h junk val
      have hhs1 : hs = ((pre ++ s.withOption junk w val :: post).drop base).map
          (fun s => some s.obj) := by
        rw [hhs]
        have hb : base ≤ pre.length := by omega
        rw [List.drop_append_of_le_length hb, List.drop_append_of_le_length hb]
        simp [SecCell.withOption]
      obtain ⟨w', L', hs', hrun', hlays', hreg, h1, h2, h3, h4, h5, h6⟩ :=
        ih w1 _ hs hlays hhs1 (by simp at hbase ⊢; omega) hvalid1
      refine ⟨w', L', hs', ?_, hlays', ?_, ?_, ?_, ?_, h4.trans hout, h5.trans hrel, ?_⟩
      · simp [runCalls, hgs, hrun, hrun']
      · rw [hreg]
        have : registry (pre ++ s.withOption junk w val :: post) =
            appendOption val (base + k) (registry (pre ++ s :: post)) := by
          rw [← hpre]
          simp only [registry, List.map_append, List.map_cons]
          rw [← List.length_map pre SecCell.view, appendOption_middle]
          simp [SecCell.view, SecCell.withOption, newOptCell]
        rw [this]
        rfl
      · rw [h1, hcmd]
      · rw [h2, hcmd]
      · rw [h3, hcmd]
      · intro hj hn
        refine h6 hj ?_
        intro x hx
        rcases List.mem_append.mp hx with hx | hx
        · exact hn x (List.mem_append_left _ hx)
        · rcases List.mem_cons.mp hx with hx | hx
          · subst hx
            exact hj _
          · exact hn x (List.mem_append_right _ (List.mem_cons_of_mem _ hx))

/-- A state whose section list pointers are both NULL holds the empty registry. -/
theorem lays_nil {w : World} (hfirst : w.s_commandLineOptions.firstSection = none)
    (hlast : w.s_commandLineOptions.lastSection = none) : Lays w [] := by
  constructor
  · exact hfirst
  · exact hlast
  · intro s hs
    cases hs
  · intro s hs
    cases hs
  · intro c hc
    simp [allOpts] at hc
  · simp
  · simp
  · simp [allOpts]
  · simp [allOpts]

/-- The state after `easyopts_initProgramOptions`, from any prior state: it holds exactly
the two built-in sections, whatever `junk` the allocator left. -/
theorem init_lays (junk : Nat → Ptr) (argc : Int) (argv : List String) (description : String)
    (w : World) :
    ∃ w' L, easyopts_initProgramOptions junk argc argv description w = some w' ∧ Lays w' L ∧
      registry L = builtinSections ∧
      w'.s_commandLineOptions.argc = argc ∧ w'.s_commandLineOptions.argv = argv ∧
      w'.s_commandLineOptions.description = description ∧
      w'.stdout = w.stdout ∧ w'.released = w.released ∧
      ((∀ a, junk a = none) → NullTerminated L) := by
  have h0 : Lays { w with s_commandLineOptions :=
      { argc := argc, argv := argv, description := description,
        firstSection := none, lastSection := none } } [] := lays_nil rfl rfl
  obtain ⟨w1, hr1, hl1, a1, b1, c1, _, _, o1, r1⟩ := addSection_lays h0 "Common"
    "Provide Common Arguments for help and versioning" TYPE_PUBLIC
  rw [List.nil_append] at hl1
  obtain ⟨w2, hr2, hl2, e2, _, o2, r2⟩ := @addOption_lays _ [] [] _ hl1 junk optVersion
  obtain ⟨w3, hr3, hl3, e3, _, o3, r3⟩ := @addOption_lays _ [] [] _ hl2 junk optHelp
  obtain ⟨w4, hr4, hl4, e4, _, o4, r4⟩ :=
    @addOption_lays _ [] [] _ hl3 junk optHelpJson
  obtain ⟨w5, hr5, hl5, a5, b5, c5, _, _, o5, r5⟩ := addSection_lays hl4 "Common Hidden"
    "Provide Common Arguments for help and versioning (Hidden)" TYPE_HIDDEN
  obtain ⟨w6, hr6, hl6, e6, _, o6, r6⟩ := @addOption_lays _ _ [] _ hl5 junk optHelpHidden
  obtain ⟨w7, hr7, hl7, e7, _, o7, r7⟩ := @addOption_lays _ _ [] _ hl6 junk optHelpHiddenJson
  refine ⟨w7, _, ?_, hl7, rfl, ?_, ?_, ?_, ?_, ?_, ?_⟩
  · unfold easyopts_initProgramOptions
    simp only [hr1, Option.some_bind]
    have hr2' : easyopts_addOption junk (some w.sections.length) 'v'.toNat "version"
        DATATYPE_STRING REQUIRED_NONE FnPtr.NULL FnPtr.assignVersion
        "Print the library's version information" w1 = some w2 := hr2
    have hr3' : easyopts_addOption junk (some w.sections.length) 'h'.toNat "help"
        DATATYPE_STRING REQUIRED_NONE FnPtr.NULL FnPtr.assignHelp
        "Print program usage and exit." w2 = some w3 := hr3
    have hr4' : easyopts_addOption junk (some w.sections.length) 0 "help-json"
        DATATYPE_STRING REQUIRED_NONE FnPtr.NULL FnPtr.assignHelpJson
        "Print program usage in Json format and exit." w3 = some w4 := hr4
    have hr6' : easyopts_addOption junk (some w4.sections.length) 0 "help-hidden"
        DATATYPE_STRING REQUIRED_NONE FnPtr.NULL FnPtr.assignHelpHidden
        "Print program usage (including hidden options) and exit." w5 = some w6 := hr6
    have hr7' : easyopts_addOption junk (some w4.sections.length) 0 "help-hidden-json"
        DATATYPE_STRING REQUIRED_NONE FnPtr.NULL FnPtr.assignHelpHiddenJson
        "Print program usage in Json format (including hidden options) and exit." w6
        = some w7 := hr7
    simp only [hr2', hr3', hr4', hr5, hr6', hr7', Option.some_bind]
  · rw [e7, e6, a5, e4, e3, e2, a1]
  · rw [e7, e6, b5, e4, e3, e2, b1]
  · rw [e7, e6, c5, e4, e3, e2, c1]
  · rw [o7, o6, o5, o4, o3, o2, o1]
  · rw [r7, r6, r5, r4, r3, r2, r1]
  · intro hj s hs
    simp at hs
    rcases hs with rfl | rfl
    · exact hj _
    · exact hj _

/-! ## Lemmas on teardown -/

theorem eraseAll_cons {α : Type} (m : Region α) (a : Nat) (as : List Nat) :
    eraseAll m (a :: as) = eraseAll (m.set a none) as := rfl

theorem eraseAll_append {α : Type} (m : Region α) (xs ys : List Nat) :
    eraseAll m (xs ++ ys) = eraseAll (eraseAll m xs) ys := by
  simp [eraseAll, List.foldl_append]

theorem eraseAll_length {α : Type} (as : List Nat) :
    ∀ m : Region α, (eraseAll m as).length = m.length := by
  induction as with
  | nil => intro m; rfl
  | cons a as ih =>
    intro m
    rw [eraseAll_cons, ih, List.length_set]

theorem eraseAll_load_of_not_mem {α : Type} (as : List Nat) {b : Nat} (hb : b ∉ as) :
    ∀ m : Region α, (eraseAll m as).load (some b) = m.load (some b) := by
  induction as with
  | nil => intro m; rfl
  | cons a as ih =>
    intro m
    rw [eraseAll_cons, ih (fun h => hb (List.mem_cons_of_mem _ h)),
      Region.load_set_ne _ _ (fun h => hb (by rw [← h]; exact List.mem_cons_self _ _))]

theorem Region.set_of_load {α : Type} {m : Region α} {a : Nat} {v : α}
    (h : m.load (some a) = some v) : m.set a (some v) = m := by
  have h1 : m[a]? = some (some v) := Option.join_eq_some.mp h
  have hlt : a < m.length := (List.getElem?_eq_some.mp h1).1
  apply List.ext_getElem?
  intro n
  rw [List.getElem?_set]
  by_cases hn : a = n
  · subst hn
    simp [hlt, h1]
  · simp [hn]

theorem Links.first_opt {f : Nat → Option (Ptr × Ptr)} {cs : List OptCell} {p : Ptr}
    (h : Links f p (optAddrs cs) none) : p = firstItem cs := by
  have := h.first
  cases cs <;> simpa [optAddrs, firstItem] using this

theorem Links.first_sec {f : Nat → Option (Ptr × Ptr)} {L : List SecCell} {p : Ptr}
    (h : Links f p (secAddrs L) none) : p = L.head?.map fun s => s.item := by
  have := h.first
  cases L <;> simpa [secAddrs] using this

/-- The loop of `freeSection` releases the options of the section one after the other and
leaves its `firstOption` NULL. -/
theorem freeSectionLoop_eq (s : SecCell) (lp nx : Ptr) (cs : List OptCell) :
    ∀ (fuel : Nat) (w : World),
      w.sectionItems.load (some s.item) = some { object := some s.obj, next := nx } →
      w.sections.load (some s.obj) =
        some (easyopts_section.mk s.name s.description s.type (firstItem cs) lp) →
      Links (optionLink w.optionItems) (firstItem cs) (optAddrs cs) none →
      (∀ c ∈ cs, ∃ v, w.options.load (some c.obj) = some v) →
      (cs.map fun c => c.item).Nodup → (cs.map fun c => c.obj).Nodup → cs.length < fuel →
      freeSectionLoop fuel (some s.item) w = some (optionsReleased w s lp cs) := by
  induction cs with
  | nil =>
    intro fuel w hsi hso _ _ _ _ hf
    obtain ⟨k, rfl⟩ : ∃ k, fuel = k + 1 := ⟨fuel - 1, by omega⟩
    have hset := Region.set_of_load hso
    simp only [firstItem, List.head?_nil, Option.map_none'] at hset hso
    simp [freeSectionLoop, hsi, hso, optionsReleased, eraseAll, optionsLog, hset]
  | cons c rest ih =>
    intro fuel w hsi hso hl hv hni hno hf
    obtain ⟨k, rfl⟩ : ∃ k, fuel = k + 1 := ⟨fuel - 1, by omega⟩
    obtain ⟨_, nx', hc, hrest⟩ := hl
    have hnx : nx' = firstItem rest := hrest.first_opt
    subst hnx
    have hload : w.optionItems.load (some c.item) =
        some { object := some c.obj, next := firstItem rest } := optionLink_eq_some.mp hc
    obtain ⟨v, hobj⟩ := hv c (List.mem_cons_self _ _)
    have hclt : c.item < w.optionItems.length := Region.load_some_lt hload
    have hslt : s.obj < w.sections.length := Region.load_some_lt hso
    rw [List.map_cons, List.nodup_cons] at hni hno
    have hrec := ih k
      { w with
        sections := w.sections.set s.obj (some (easyopts_section.mk s.name s.description
          s.type (firstItem rest) lp)),
        options := w.options.set c.obj none,
        optionItems := w.optionItems.set c.item none,
        released := w.released ++ [Block.optionObject c.obj] ++ [Block.optionListItem c.item] }
      hsi (Region.load_set_same _ _ hslt)
      (Links.congr (fun x hx => by
        obtain ⟨d, hd, rfl⟩ := List.mem_map.mp hx
        have hne : c.item ≠ d.item := fun h => hni.1 (List.mem_map.mpr ⟨d, hd, h.symm⟩)
        show optionLink (List.set _ _ _) _ = _
        unfold optionLink
        rw [Region.load_set_ne _ _ hne]) hrest)
      (fun d hd => by
        obtain ⟨u, hu⟩ := hv d (List.mem_cons_of_mem _ hd)
        have hne : c.obj ≠ d.obj := fun h => hno.1 (List.mem_map.mpr ⟨d, hd, h.symm⟩)
        exact ⟨u, by
          show Region.load (List.set _ _ _) _ = _
          rw [Region.load_set_ne _ _ hne]
          exact hu⟩)
      hni.2 hno.2 (by simpa using hf)
    have hfirst : firstItem (c :: rest) = some c.item := rfl
    rw [hfirst] at hso
    simp only [freeSectionLoop, hsi, hso, Option.some_bind, hload, Region.store, freeOption,
      Region.free, hobj, logFree, Option.map_some', hrec]
    simp [optionsReleased, List.set_set, eraseAll_cons, optionsLog]

/-- The `freeSection` of a section releases its options, its object and its list item. -/
theorem freeSection_eq (s : SecCell) (lp nx : Ptr) (w : World)
    (hsi : w.sectionItems.load (some s.item) = some { object := some s.obj, next := nx })
    (hso : w.sections.load (some s.obj) =
      some (easyopts_section.mk s.name s.description s.type (firstItem s.opts) lp))
    (hl : Links (optionLink w.optionItems) (firstItem s.opts) (optAddrs s.opts) none)
    (hv : ∀ c ∈ s.opts, ∃ v, w.options.load (some c.obj) = some v)
    (hni : (s.opts.map fun c => c.item).Nodup) (hno : (s.opts.map fun c => c.obj).Nodup)
    (hlen : s.opts.length ≤ w.optionItems.length) :
    freeSection (some s.item) w = some (sectionReleased w s) := by
  have hloop := freeSectionLoop_eq s lp nx s.opts (w.optionItems.length + 1) w hsi hso hl hv
    hni hno (Nat.lt_succ_of_le hlen)
  have hslt : s.obj < w.sections.length := Region.load_some_lt hso
  have hsi' : (optionsReleased w s lp s.opts).sectionItems.load (some s.item) =
      some { object := some s.obj, next := nx } := hsi
  have hso' : (optionsReleased w s lp s.opts).sections.load (some s.obj) =
      some (easyopts_section.mk s.name s.description s.type none lp) :=
    Region.load_set_same _ _ hslt
  simp only [freeSection, hloop, Option.some_bind, hsi', Region.free, hso', hsi, logFree,
    Option.map_some']
  simp [optionsReleased, sectionReleased, sectionLog, List.set_set]

theorem allOpts_cons (s : SecCell) (L : List SecCell) : allOpts (s :: L) = s.opts ++ allOpts L := by
  simp [allOpts]

theorem releaseLog_cons (s : SecCell) (L : List SecCell) :
    releaseLog (s :: L) = sectionLog s ++ releaseLog L := by
  simp [releaseLog]

/-- The first loop of `easyopts_free` releases the whole registry. -/
theorem freeProgramOptionsLoop_eq (L : List SecCell) :
    ∀ (fuel : Nat) (w : World),
      Releasable w w.s_commandLineOptions.firstSection L → L.length < fuel →
      freeProgramOptionsLoop fuel w = some (registryReleased w L) := by
  induction L with
  | nil =>
    intro fuel w h hf
    obtain ⟨k, rfl⟩ : ∃ k, fuel = k + 1 := ⟨fuel - 1, by omega⟩
    have hfirst : w.s_commandLineOptions.firstSection = none := h.secLinks
    have hcmd : { w.s_commandLineOptions with firstSection := none } = w.s_commandLineOptions := by
      rw [← hfirst]
    simp [freeProgramOptionsLoop, hfirst, registryReleased, eraseAll, allOpts, releaseLog, hcmd]
  | cons s rest ih =>
    intro fuel w h hf
    obtain ⟨k, rfl⟩ : ∃ k, fuel = k + 1 := ⟨fuel - 1, by omega⟩
    obtain ⟨hfirst, nx, hc, hrest⟩ := h.secLinks
    have hfirst' : w.s_commandLineOptions.firstSection = some s.item := hfirst
    have hsi : w.sectionItems.load (some s.item) = some { object := some s.obj, next := nx } :=
      sectionLink_eq_some.mp hc
    have hsmem : s ∈ s :: rest := List.mem_cons_self _ _
    obtain ⟨lp, hso⟩ := h.secObj s hsmem
    have hni := h.nodupSecItems
    have hno := h.nodupSecObjs
    have hoi := h.nodupOptItems
    have hoo := h.nodupOptObjs
    rw [List.map_cons, List.nodup_cons] at hni hno
    rw [allOpts_cons, List.map_append, List.nodup_append] at hoi hoo
    have hfs := freeSection_eq s lp nx
      { w with s_commandLineOptions := { w.s_commandLineOptions with firstSection := nx } }
      hsi hso (h.optLinks s hsmem)
      (fun c hc => h.optObj c (mem_allOpts.mpr ⟨s, hsmem, hc⟩)) hoi.1 hoo.1 (h.optBound s hsmem)
    have hrel : Releasable
        (sectionReleased
          { w with s_commandLineOptions := { w.s_commandLineOptions with firstSection := nx } } s)
        nx rest := by
      constructor
      · refine Links.congr (fun x hx => ?_) hrest
        obtain ⟨d, hd, rfl⟩ := List.mem_map.mp hx
        have hne : s.item ≠ d.item := fun e => hni.1 (List.mem_map.mpr ⟨d, hd, e.symm⟩)
        show sectionLink (List.set _ _ _) _ = _
        unfold sectionLink
        rw [Region.load_set_ne _ _ hne]
      · intro d hd
        obtain ⟨lq, hq⟩ := h.secObj d (List.mem_cons_of_mem _ hd)
        have hne : s.obj ≠ d.obj := fun e => hno.1 (List.mem_map.mpr ⟨d, hd, e.symm⟩)
        refine ⟨lq, ?_⟩
        show Region.load (List.set _ _ _) _ = _
        rw [Region.load_set_ne _ _ hne]
        exact hq
      · intro d hd
        refine Links.congr (fun x hx => ?_) (h.optLinks d (List.mem_cons_of_mem _ hd))
        obtain ⟨c, hc, rfl⟩ := List.mem_map.mp hx
        have hnm : c.item ∉ s.opts.map fun c => c.item := fun hm =>
          hoi.2.2 hm (List.mem_map.mpr ⟨c, mem_allOpts.mpr ⟨d, hd, hc⟩, rfl⟩)
        show optionLink (eraseAll _ _) _ = _
        unfold optionLink
        rw [eraseAll_load_of_not_mem _ hnm]
      · intro c hc
        obtain ⟨v, hv⟩ := h.optObj c (by rw [allOpts_cons]; exact List.mem_append_right _ hc)
        have hnm : c.obj ∉ s.opts.map fun c => c.obj := fun hm =>
          hoo.2.2 hm (List.mem_map.mpr ⟨c, hc, rfl⟩)
        refine ⟨v, ?_⟩
        show Region.load (eraseAll _ _) _ = _
        rw [eraseAll_load_of_not_mem _ hnm]
        exact hv
      · intro d hd
        show _ ≤ (eraseAll _ _).length
        rw [eraseAll_length]
        exact h.optBound d (List.mem_cons_of_mem _ hd)
      · exact hni.2
      · exact hno.2
      · exact hoi.2.1
      · exact hoo.2.1
    have hrec := ih k _ hrel (by simpa using hf)
    simp only [freeProgramOptionsLoop, hfirst', hsi, Option.some_bind, hfs, hrec]
    simp [registryReleased, sectionReleased, eraseAll_cons, eraseAll_append, allOpts_cons,
      releaseLog_cons]

/-- A state that holds a registry whose option lists are NULL-terminated can be torn down. -/
theorem Lays.releasable {w : World} {L : List SecCell} (h : Lays w L) (hn : NullTerminated L) :
    Releasable w w.s_commandLineOptions.firstSection L := by
  constructor
  · exact h.secLinks
  · intro s hs
    exact ⟨_, h.secObj s hs⟩
  · intro s hs
    have := h.optLinks s hs
    rw [hn s hs] at this
    exact this
  · intro c hc
    exact ⟨_, h.optObj c hc⟩
  · intro s hs
    exact h.opts_length_le hs
  · exact h.nodupSecItems
  · exact h.nodupSecObjs
  · exact h.nodupOptItems
  · exact h.nodupOptObjs

/-- The call `easyopts_free(NULL)` on a state that holds a registry whose option lists are
NULL-terminated. -/
theorem free_eq {w : World} {L : List SecCell} (h : Lays w L) (hn : NullTerminated L) :
    easyopts_free none w = some (registryReleased w L) := by
  have := freeProgramOptionsLoop_eq L (w.sectionItems.length + 1) w (h.releasable hn)
    (Nat.lt_succ_of_le h.length_le)
  simp [easyopts_free, this]

/-- The call `easyopts_free(NULL)` on a state whose `firstSection` is NULL changes nothing. -/
theorem free_of_first_null {w : World} (h : w.s_commandLineOptions.firstSection = none) :
    easyopts_free none w = some w := by
  simp [easyopts_free, freeProgramOptionsLoop, h]

/-! ## Soundness of the layout checker -/

theorem links_of_linksB {f : Nat → Option (Ptr × Ptr)} {cs : List (Nat × Nat)} :
    ∀ {p t : Ptr}, linksB f p cs t = true → Links f p cs t := by
  induction cs with
  | nil =>
    intro p t h
    simpa [linksB] using h
  | cons c cs ih =>
    intro p t h
    simp only [linksB, Bool.and_eq_true, decide_eq_true_eq] at h
    obtain ⟨hp, hrest⟩ := h
    cases hf : f c.1 with
    | none => simp [hf] at hrest
    | some v =>
      obtain ⟨o, nx⟩ := v
      simp only [hf, Bool.and_eq_true, decide_eq_true_eq] at hrest
      obtain ⟨ho, hl⟩ := hrest
      subst ho
      exact ⟨hp, nx, hf, ih hl⟩

/-- A state that passes the check holds the layout. -/
theorem lays_of_laysB {w : World} {L : List SecCell} (h : laysB w L = true) : Lays w L := by
  simp only [laysB, Bool.and_eq_true, decide_eq_true_eq, List.all_eq_true] at h
  obtain ⟨⟨⟨⟨⟨⟨⟨⟨h1, h2⟩, h3⟩, h4⟩, h5⟩, h6⟩, h7⟩, h8⟩, h9⟩ := h
  exact ⟨links_of_linksB h1, h2, h3, fun s hs => links_of_linksB (h4 s hs), h5, h6, h7, h8, h9⟩

set_option maxRecDepth 100000 in
theorem initStore_lays : Lays initStore initLayout :=
  lays_of_laysB (by decide)

set_option maxRecDepth 100000 in
theorem testArgsStore_lays : Lays testArgsStore testArgsLayout :=
  lays_of_laysB (by decide)

/-! ## Lemmas on names -/

theorem appendOption_length (val : easyopts_option) :
    ∀ (i : Nat) (S : List SectionView), (appendOption val i S).length = S.length := by
  intro i S
  induction S generalizing i with
  | nil => cases i <;> rfl
  | cons s S ih =>
    cases i with
    | zero => rfl
    | succ i => simp [appendOption, ih]

theorem storedOptions_cons (s : SectionView) (S : List SectionView) :
    storedOptions (s :: S) = s.options ++ storedOptions S := by
  simp [storedOptions]

theorem storedOptions_appendOption (val : easyopts_option) :
    ∀ (i : Nat) (S : List SectionView), i < S.length →
      List.Perm (storedOptions (appendOption val i S)) (val :: storedOptions S) := by
  intro i S
  induction S generalizing i with
  | nil =>
    intro h
    simp at h
  | cons s S ih =>
    intro h
    cases i with
    | zero =>
      simp only [appendOption, storedOptions_cons, List.append_assoc, List.singleton_append]
      exact List.perm_middle
    | succ i =>
      simp only [appendOption, storedOptions_cons]
      have h1 := ih i (by simpa using h)
      exact (List.Perm.append_left s.options h1).trans List.perm_middle

/-- The options of the registry that a valid sequence of calls registers are the options
held before and the options passed by the calls. -/
theorem storedOptions_registerCalls (base : Nat) (calls : List Call) :
    ∀ S : List SectionView, base ≤ S.length → ValidCalls (S.length - base) calls →
      List.Perm (storedOptions (registerCalls base calls S)) (storedOptions S ++ callOptions calls) := by
  induction calls with
  | nil =>
    intro S _ _
    simp [registerCalls, callOptions]
  | cons c cs ih =>
    intro S hb hv
    cases c with
    | addSection name description type =>
      have hv1 : ValidCalls ((S ++ [SectionView.mk name description type []]).length - base) cs := by
        have : (S ++ [SectionView.mk name description type []]).length - base =
            S.length - base + 1 := by
          simp
          omega
        rw [this]
        exact hv
      have h1 := ih (S ++ [SectionView.mk name description type []]) (by simp; omega) hv1
      simpa [registerCalls, callOptions, storedOptions] using h1
    | addOption k val =>
      obtain ⟨hk, hv1⟩ : k < S.length - base ∧ ValidCalls (S.length - base) cs := hv
      have hi : base + k < S.length := by omega
      have h1 := ih (appendOption val (base + k) S)
        (by rw [appendOption_length]; exact hb) (by rw [appendOption_length]; exact hv1)
      have h2 := storedOptions_appendOption val (base + k) S hi
      simp only [registerCalls, callOptions]
      refine h1.trans ?_
      refine (List.Perm.append_right _ h2).trans ?_
      simp only [List.cons_append]
      exact List.perm_middle.symm

theorem NamesUnique.perm {a b : List easyopts_option} (hp : List.Perm a b)
    (h : NamesUnique a) : NamesUnique b := by
  obtain ⟨h1, h2, h3⟩ := h
  refine ⟨fun o ho => h1 o (hp.mem_iff.mpr ho), ?_, ?_⟩
  · exact ((hp.map _).nodup_iff).mp h2
  · exact ((((hp.map _).filter _)).nodup_iff).mp h3

/-- A host program with valid handles runs to a state that holds the registry of its
calls, whatever `junk` the allocator left. -/
theorem runProgram_lays (junk : Nat → Ptr) (argc : Int) (argv : List String)
    (description : String) (calls : List Call) (w0 : World) (hv : ValidCalls 0 calls) :
    ∃ w L, runProgram junk argc argv description calls w0 = some w ∧ Lays w L ∧
      registry L = registered calls ∧
      w.s_commandLineOptions.argc = argc ∧ w.s_commandLineOptions.argv = argv ∧
      w.s_commandLineOptions.description = description ∧
      w.stdout = w0.stdout ∧ w.released = w0.released ∧
      ((∀ a, junk a = none) → NullTerminated L) := by
  obtain ⟨w1, L1, hinit, hl1, hreg1, a1, b1, c1, o1, r1, n1⟩ :=
    init_lays junk argc argv description w0
  have hlen : L1.length = 2 := by
    have := congrArg List.length hreg1
    simpa [registry, builtinSections] using this
  have hdrop : ([] : List Ptr) = (L1.drop 2).map (fun s => some s.obj) := by
    rw [List.drop_of_length_le (by omega)]
    rfl
  obtain ⟨w, L, hs, hrun, hl, hreg, a2, b2, c2, o2, r2, n2⟩ :=
    runCalls_lays junk 2 calls w1 L1 [] hl1 hdrop (by omega) hv
  refine ⟨w, L, ?_, hl, ?_, a2.trans a1, b2.trans b1, c2.trans c1, o2.trans o1, r2.trans r1,
    fun hj => n2 hj (n1 hj)⟩
  · simp [runProgram, hinit, hrun]
  · rw [hreg, hreg1]
    rfl

theorem visibleSections_hidden_flag (S : List SectionView) : visibleSections 1 S = S := by
  simp [visibleSections, printIt]

theorem visibleSections_no_flag (S : List SectionView) :
    visibleSections 0 S = S.filter fun s => decide (s.type ≠ TYPE_HIDDEN) := by
  simp [visibleSections, printIt]

/-- The sections the loops show: all of them when the hidden flag is set, else those whose
type is not `TYPE_HIDDEN`. -/
theorem visibleSections_eq_filter (showHidden : Int) (S : List SectionView) :
    visibleSections showHidden S =
      S.filter fun s => decide (showHidden ≠ 0 ∨ s.type ≠ TYPE_HIDDEN) := by
  unfold visibleSections
  congr 1
  funext s
  by_cases h1 : showHidden = 0 <;> by_cases h2 : s.type = TYPE_HIDDEN <;> simp [printIt, h1, h2]

theorem printIt_iff (showHidden type : Int) :
    printIt showHidden type = true ↔ (showHidden ≠ 0 ∨ type ≠ TYPE_HIDDEN) := by
  by_cases h1 : showHidden = 0 <;> by_cases h2 : type = TYPE_HIDDEN <;> simp [printIt, h1, h2]

/-- Printing does not touch the registry. -/
theorem Lays.printf {w : World} {L : List SecCell} (h : Lays w L) (text : String) :
    Lays (printf text w) L :=
  ⟨h.secLinks, h.lastSec, h.secObj, h.optLinks, h.optObj, h.nodupSecItems, h.nodupSecObjs,
    h.nodupOptItems, h.nodupOptObjs⟩

/-- The help text after a host program, on an allocator that hands out zeroed blocks: the
registry of the calls, in registration order. -/
theorem help_after_program (argc : Int) (argv0 : String) (rest : List String)
    (description : String) (calls : List Call) (w0 : World) (hv : ValidCalls 0 calls)
    (showHidden : Int) :
    ∃ w, runProgram zeroJunk argc (argv0 :: rest) description calls w0 = some w ∧
      _easyopts_help showHidden w = some (printf (helpText description argv0
        (visibleSections showHidden (registered calls))) w) := by
  obtain ⟨w, L, hrun, hl, hreg, _, hargv, hdesc, _, _, hn⟩ :=
    runProgram_lays zeroJunk argc (argv0 :: rest) description calls w0 hv
  refine ⟨w, hrun, ?_⟩
  have ha : w.s_commandLineOptions.argv[0]? = some argv0 := by
    rw [hargv]
    simp
  have := help_eq hl showHidden (fun s hs _ => hn (fun _ => rfl) s hs) ha
  rw [this, hreg, hdesc]

/-! ## The claims -/

set_option maxRecDepth 100000 in
/-- C1 (code defect, evaluated at the failing input).  After
`easyopts_initProgramOptions(1, ["prog"], "demo")` on an allocator that left a stale
address in the `next` field of the list item of `help-hidden-json` (the code never writes
that field), `easyopts_help_hidden` lists `version`, `help` and `help-json` once more inside
the block of section "Common Hidden", where they were never registered: the text is not
the help text of the registry in registration order. -/
theorem help_hidden_follows_stale_link :
    ((easyopts_initProgramOptions staleJunk 1 ["prog"] "demo" emptyWorld).bind
        easyopts_help_hidden).map (fun w => w.stdout) =
      some (helpText "demo" "prog"
        [{ name := "Common", description := "Provide Common Arguments for help and versioning",
           type := TYPE_PUBLIC, options := [optVersion, optHelp, optHelpJson] },
         hiddenThenCommon]) ∧
    helpText "demo" "prog"
        [{ name := "Common", description := "Provide Common Arguments for help and versioning",
           type := TYPE_PUBLIC, options := [optVersion, optHelp, optHelpJson] },
         hiddenThenCommon] ≠
      helpText "demo" "prog" (registered []) := by
  decide

set_option maxRecDepth 100000 in
theorem testArgsShownStore_lays : Lays testArgsShownStore testArgsShownLayout :=
  lays_of_laysB (by decide)

/-- Hidden sections where the option lists end with NULL.  On a state that holds a registry
with NULL-terminated option lists and a
non-empty `argv`, `easyopts_help` prints exactly the text that `easyopts_help_hidden`
prints on a state that holds the same registry with every section of type `TYPE_HIDDEN`
removed (same description, same `argv`): the help text of the sections that are not
hidden.  With the hidden flag, `easyopts_help_hidden` on the state itself prints the help
text of all its sections. -/
theorem help_is_help_hidden_without_hidden_sections {w w' : World} {L L' : List SecCell}
    (h : Lays w L) (hn : NullTerminated L) (h' : Lays w' L') (hn' : NullTerminated L')
    (hreg : registry L' = (registry L).filter fun s => decide (s.type ≠ TYPE_HIDDEN))
    (hdesc : w'.s_commandLineOptions.description = w.s_commandLineOptions.description)
    (hargv : w'.s_commandLineOptions.argv = w.s_commandLineOptions.argv)
    {argv0 : String} (ha : w.s_commandLineOptions.argv[0]? = some argv0) :
    ∃ text, easyopts_help w = some (printf text w) ∧
      easyopts_help_hidden w' = some (printf text w') ∧
      text = helpText w.s_commandLineOptions.description argv0
        ((registry L).filter fun s => decide (s.type ≠ TYPE_HIDDEN)) ∧
      easyopts_help_hidden w =
        some (printf (helpText w.s_commandLineOptions.description argv0 (registry L)) w) := by
  have h1 := help_eq h 0 (fun s hs _ => hn s hs) ha
  have h2 := help_eq h 1 (fun s hs _ => hn s hs) ha
  have ha' : w'.s_commandLineOptions.argv[0]? = some argv0 := by
    rw [hargv]
    exact ha
  have h3 := help_eq h' 1 (fun s hs _ => hn' s hs) ha'
  rw [visibleSections_no_flag] at h1
  rw [visibleSections_hidden_flag] at h2 h3
  rw [hreg, hdesc] at h3
  exact ⟨_, h1, h3, rfl, h2⟩

set_option maxRecDepth 100000 in
/-- The theorem before at the state of the test program `testArgs` (sections Common, Common Hidden, A, B,
C, D, of which Common Hidden and C are hidden) and the state that holds Common, A, B, D. -/
theorem help_is_help_hidden_without_hidden_sections_witness :
    ∃ text, easyopts_help testArgsStore = some (printf text testArgsStore) ∧
      easyopts_help_hidden testArgsShownStore = some (printf text testArgsShownStore) ∧
      text = helpText testArgsStore.s_commandLineOptions.description "testArgs"
        ((registry testArgsLayout).filter fun s => decide (s.type ≠ TYPE_HIDDEN)) ∧
      easyopts_help_hidden testArgsStore =
        some (printf (helpText testArgsStore.s_commandLineOptions.description "testArgs"
          (registry testArgsLayout)) testArgsStore) :=
  help_is_help_hidden_without_hidden_sections testArgsStore_lays (by decide)
    testArgsShownStore_lays (by decide) (by decide) (by decide) (by decide) (by decide)

/-- C4.  On a state that holds a registry, `easyopts_addSection` returns a state that
holds the same registry followed by exactly one new section with that name, description
and type and with no option; the returned handle is the pointer to the object of the new
section; the cells of the sections registered before are the same, in the same order, and
argc, argv and description are unchanged. -/
theorem addSection_appends_a_section {w : World} {L : List SecCell} (h : Lays w L)
    (name description : String) (type : Int) :
    ∃ w' gs, easyopts_addSection name description type w = some (w', gs) ∧
      Lays w' (L ++ [newSecCell w name description type]) ∧
      gs = some (newSecCell w name description type).obj ∧
      registry (L ++ [newSecCell w name description type]) = registry L ++
        [{ name := name, description := description, type := type, options := [] }] ∧
      w'.s_commandLineOptions.argc = w.s_commandLineOptions.argc ∧
      w'.s_commandLineOptions.argv = w.s_commandLineOptions.argv ∧
      w'.s_commandLineOptions.description = w.s_commandLineOptions.description := by
  obtain ⟨w', hrun, hl, ha, hb, hc, _⟩ := addSection_lays h name description type
  refine ⟨w', _, hrun, hl, rfl, ?_, ha, hb, hc⟩
  simp [registry, SecCell.view, newSecCell]

/-- C4 at the state of the test program. -/
theorem addSection_appends_a_section_witness :
    ∃ w' gs, easyopts_addSection "Section E" "One more section" TYPE_DEPRECATED testArgsStore
        = some (w', gs) ∧
      Lays w' (testArgsLayout ++
        [newSecCell testArgsStore "Section E" "One more section" TYPE_DEPRECATED]) ∧
      gs = some (newSecCell testArgsStore "Section E" "One more section" TYPE_DEPRECATED).obj ∧
      registry (testArgsLayout ++
        [newSecCell testArgsStore "Section E" "One more section" TYPE_DEPRECATED]) =
        registry testArgsLayout ++ [{ name := "Section E", description := "One more section",
                                      type := TYPE_DEPRECATED, options := [] }] ∧
      w'.s_commandLineOptions.argc = testArgsStore.s_commandLineOptions.argc ∧
      w'.s_commandLineOptions.argv = testArgsStore.s_commandLineOptions.argv ∧
      w'.s_commandLineOptions.description = testArgsStore.s_commandLineOptions.description :=
  addSection_appends_a_section testArgsStore_lays "Section E" "One more section" TYPE_DEPRECATED

set_option maxRecDepth 100000 in
/-- C6 as stated fails.  Right after `easyopts_initProgramOptions(1, ["prog"], "demo")`
the three options of section "Common" have requiredness `REQUIRED_NONE`, neither required
nor optional; `easyopts_help` prints them in the usage line all the same, in brackets, so
its text does not start with the description, an empty line and the usage line the claim
describes. -/
theorem usage_line_lists_switches :
    easyopts_help initStore = some (printf (helpText "demo" "prog"
      (visibleSections 0 (registry initLayout))) initStore) ∧
    usageLine "prog" (visibleSections 0 (registry initLayout)) =
      "Usage: prog [--version=X] [--help=X] [--help-json=X]\n" ∧
    claimedUsageLine "prog" (visibleSections 0 (registry initLayout)) = "Usage: prog\n" ∧
    ("demo" ++ "\n\n" ++ claimedUsageLine "prog"
      (visibleSections 0 (registry initLayout))).data.isPrefixOf
        (printf (helpText "demo" "prog" (visibleSections 0 (registry initLayout)))
          initStore).stdout.data = false :=
  ⟨help_eq initStore_lays 0 (fun s hs _ => (by decide : NullTerminated initLayout) s hs)
      (by decide), by decide,
    by decide, by decide⟩

/-- C6, amended.  On a state that holds a registry, when the option lists of the sections
that are shown are NULL-terminated and `argv` is non-empty, the help text starts with the
description and an empty line, followed by the single line `Usage: <argv[0]>` with, for
every option of every shown section in section-then-registration order, ` --<long>=X` when
its requiredness is `REQUIRED_REQUIRED` and ` [--<long>=X]` for every other requiredness,
ended by one newline.  A section is shown when the hidden flag is set or its type is not
`TYPE_HIDDEN`. -/
theorem help_starts_with_usage_line {w : World} {L : List SecCell} (h : Lays w L)
    (showHidden : Int)
    (hnull : ∀ s ∈ L, (showHidden ≠ 0 ∨ s.type ≠ TYPE_HIDDEN) → s.tail = none)
    {argv0 : String} (ha : w.s_commandLineOptions.argv[0]? = some argv0) :
    ∃ rest, _easyopts_help showHidden w = some (printf
      (w.s_commandLineOptions.description ++ "\n\n" ++
        ("Usage: " ++ argv0 ++
          joinText (((registry L).filter fun s =>
              decide (showHidden ≠ 0 ∨ s.type ≠ TYPE_HIDDEN)).map fun s =>
            joinText (s.options.map fun o =>
              if o.isRequired = REQUIRED_REQUIRED then " --" ++ o.longOption ++ "=X"
              else " [--" ++ o.longOption ++ "=X]")) ++ "\n") ++ rest) w) := by
  have h1 := help_eq h showHidden
    (fun s hs hp => hnull s hs ((printIt_iff showHidden s.type).mp hp)) ha
  rw [visibleSections_eq_filter] at h1
  exact ⟨_, h1⟩

set_option maxRecDepth 100000 in
/-- C6, amended, at the state of the test program, without the hidden flag: the usage line
lists the options of the sections "Common", A, B and D, those of the hidden sections
"Common Hidden" and C are left out. -/
theorem help_starts_with_usage_line_witness :
    ∃ rest, _easyopts_help 0 testArgsStore = some (printf
      ("This is the general description of this test program" ++ "\n\n" ++
        ("Usage: " ++ "testArgs" ++
          " [--version=X] [--help=X] [--help-json=X] --argA0=X [--argA1=X] [--iargA2=X] --argB0=X [--argB1=X] [--iargB2=X] --argD0=X [--argD1=X] [--iargD2=X]"
          ++ "\n") ++ rest) testArgsStore) := by
  have h := help_starts_with_usage_line testArgsStore_lays 0
    (fun s hs _ => (by decide : NullTerminated testArgsLayout) s hs)
    (by decide : testArgsStore.s_commandLineOptions.argv[0]? = some "testArgs")
  have e : joinText (((registry testArgsLayout).filter fun s =>
      decide ((0 : Int) ≠ 0 ∨ s.type ≠ TYPE_HIDDEN)).map fun s =>
        joinText (s.options.map fun o =>
          if o.isRequired = REQUIRED_REQUIRED then " --" ++ o.longOption ++ "=X"
          else " [--" ++ o.longOption ++ "=X]")) =
      " [--version=X] [--help=X] [--help-json=X] --argA0=X [--argA1=X] [--iargA2=X] --argB0=X [--argB1=X] [--iargB2=X] --argD0=X [--argD1=X] [--iargD2=X]" := by
    decide
  have d : testArgsStore.s_commandLineOptions.description =
      "This is the general description of this test program" := by decide
  rw [e, d] at h
  exact h

/-- Section blocks where the option lists end with NULL.  On a state that holds a registry
whose shown option lists are NULL-terminated and
whose `argv` is non-empty, the help text is the description, an empty line, the usage line
and then, for the shown sections in registration order, one block per section: the header
`[<name>: <visibility label>]`, the section description on a line of its own, one line
`--<long>=[<kind label>] <description>` per option in registration order, and an empty
line.  A section without options yields header, description and the empty line only. -/
theorem help_prints_one_block_per_section {w : World} {L : List SecCell} (h : Lays w L)
    (showHidden : Int)
    (hnull : ∀ s ∈ L, printIt showHidden s.type = true → s.tail = none)
    {argv0 : String} (ha : w.s_commandLineOptions.argv[0]? = some argv0) :
    _easyopts_help showHidden w = some (printf
      (w.s_commandLineOptions.description ++ "\n\n" ++
        usageLine argv0 (visibleSections showHidden (registry L)) ++
        joinText ((visibleSections showHidden (registry L)).map fun s =>
          "[" ++ s.name ++ ": " ++ easyopts_print_type s.type ++ "]\n" ++
          (s.description ++ "\n") ++
          joinText (s.options.map fun o =>
            "--" ++ o.longOption ++ "=[" ++ easyopts_print_option_type o.type ++ "] " ++
              o.description ++ "\n") ++
          "\n")) w) ∧
    ∀ name description type,
      sectionBlock { name := name, description := description, type := type, options := [] } =
        "[" ++ name ++ ": " ++ easyopts_print_type type ++ "]\n" ++ (description ++ "\n") ++ "\n" := by
  refine ⟨help_eq h showHidden hnull ha, ?_⟩
  intro name description type
  simp [sectionBlock, joinText]

set_option maxRecDepth 100000 in
/-- The theorem before at the state of the test program, with the hidden flag. -/
theorem help_prints_one_block_per_section_witness :
    _easyopts_help 1 testArgsStore = some (printf
      (testArgsStore.s_commandLineOptions.description ++ "\n\n" ++
        usageLine "testArgs" (visibleSections 1 (registry testArgsLayout)) ++
        joinText ((visibleSections 1 (registry testArgsLayout)).map fun s =>
          "[" ++ s.name ++ ": " ++ easyopts_print_type s.type ++ "]\n" ++
          (s.description ++ "\n") ++
          joinText (s.options.map fun o =>
            "--" ++ o.longOption ++ "=[" ++ easyopts_print_option_type o.type ++ "] " ++
              o.description ++ "\n") ++
          "\n")) testArgsStore) ∧
    ∀ name description type,
      sectionBlock { name := name, description := description, type := type, options := [] } =
        "[" ++ name ++ ": " ++ easyopts_print_type type ++ "]\n" ++ (description ++ "\n") ++ "\n" :=
  help_prints_one_block_per_section testArgsStore_lays 1 (fun s hs _ => (by decide : NullTerminated testArgsLayout) s hs)
    (by decide)

set_option maxRecDepth 100000 in
/-- C8 as stated fails.  A host program that registers, after
`easyopts_initProgramOptions`, an option named `help` with short form `h` and an option
with an empty long-form name is accepted: the state it reaches holds a registry with two
options named `help`, two options with short form `h` and an option without a name. -/
theorem registry_accepts_clashing_names :
    runProgram zeroJunk 1 ["prog"] "demo" clashingCalls emptyWorld = some clashingStore ∧
    Lays clashingStore clashingLayout ∧
    (storedOptions (registry clashingLayout)).map (fun o => o.longOption) =
      ["version", "help", "help-json", "help-hidden", "help-hidden-json", "help", ""] ∧
    ¬ NamesUnique (storedOptions (registry clashingLayout)) :=
  ⟨by decide, lays_of_laysB (by decide), by decide, by decide⟩

/-- C8, amended.  The registry stores the names it is given and checks nothing.  When the
handles of the calls are valid and the long-form names passed to `easyopts_addOption` are
non-empty, differ from one another and from the five built-in names, and the non-zero
short-form characters passed differ from one another and from `v` and `h`, the program
reaches a state whose registry satisfies the naming invariant: every long-form name is
non-empty, no two options have the same long-form name, no two options have the same
non-zero short-form character. -/
theorem names_unique_when_callers_pass_fresh_names (junk : Nat → Ptr) (argc : Int)
    (argv : List String) (description : String) (calls : List Call) (w0 : World)
    (hv : ValidCalls 0 calls)
    (hfresh : NamesUnique (storedOptions builtinSections ++ callOptions calls)) :
    ∃ w L, runProgram junk argc argv description calls w0 = some w ∧ Lays w L ∧
      NamesUnique (storedOptions (registry L)) := by
  obtain ⟨w, L, hrun, hl, hreg, _⟩ := runProgram_lays junk argc argv description calls w0 hv
  refine ⟨w, L, hrun, hl, ?_⟩
  rw [hreg]
  have hp := storedOptions_registerCalls 2 calls builtinSections (by decide) hv
  exact NamesUnique.perm hp.symm hfresh

set_option maxRecDepth 100000 in
/-- C8, amended, at the registration calls of the test program. -/
theorem names_unique_when_callers_pass_fresh_names_witness :
    ∃ w L, runProgram zeroJunk 1 ["testArgs"]
        "This is the general description of this test program" testArgsCalls emptyWorld
        = some w ∧ Lays w L ∧ NamesUnique (storedOptions (registry L)) :=
  names_unique_when_callers_pass_fresh_names zeroJunk 1 ["testArgs"]
    "This is the general description of this test program" testArgsCalls emptyWorld
    (by simp [ValidCalls, testArgsCalls]) (by decide)

theorem printf_withStdout (text out : String) (w : World) :
    printf text (withStdout w out) = withStdout w (out ++ text) := rfl

/-- The usage loop over options reads the heap only: what it prints does not depend on
what standard output holds, and it returns the state with that text appended. -/
theorem helpUsageOptions_stdout (fuel : Nat) :
    ∀ (p : Ptr) (w : World), ∃ r : Option String, ∀ out,
      helpUsageOptions fuel p (withStdout w out) = r.map fun t => withStdout w (out ++ t) := by
  induction fuel with
  | zero =>
    intro p w
    exact ⟨none, fun _ => rfl⟩
  | succ k ih =>
    intro p w
    cases p with
    | none =>
      refine ⟨some "", fun out => ?_⟩
      simp [helpUsageOptions, withStdout]
    | some a =>
      cases hitem : w.optionItems.load (some a) with
      | none =>
        refine ⟨none, fun out => ?_⟩
        simp [helpUsageOptions, withStdout, hitem]
      | some item =>
        cases hobj : w.options.load item.object with
        | none =>
          refine ⟨none, fun out => ?_⟩
          simp [helpUsageOptions, withStdout, hitem, hobj]
        | some i =>
          obtain ⟨r, hr⟩ := ih item.next w
          refine ⟨r.map fun t => usageEntry i ++ t, fun out => ?_⟩
          have h1 : (withStdout w out).optionItems.load (some a) = some item := hitem
          have h2 : (withStdout w out).options.load item.object = some i := hobj
          have h3 : (withStdout w (out ++ usageEntry i)).optionItems.load (some a) = some item :=
            hitem
          simp only [helpUsageOptions, h1, h2, Option.some_bind, usagePrint_eq]
          simp only [printf_withStdout, h3, Option.some_bind, hr]
          cases r <;> simp [String.append_assoc]

/-- The block loop over options reads the heap only. -/
theorem helpBlockOptions_stdout (fuel : Nat) :
    ∀ (p : Ptr) (w : World), ∃ r : Option String, ∀ out,
      helpBlockOptions fuel p (withStdout w out) = r.map fun t => withStdout w (out ++ t) := by
  induction fuel with
  | zero =>
    intro p w
    exact ⟨none, fun _ => rfl⟩
  | succ k ih =>
    intro p w
    cases p with
    | none =>
      refine ⟨some "", fun out => ?_⟩
      simp [helpBlockOptions, withStdout]
    | some a =>
      cases hitem : w.optionItems.load (some a) with
      | none =>
        refine ⟨none, fun out => ?_⟩
        simp [helpBlockOptions, withStdout, hitem]
      | some item =>
        cases hobj : w.options.load item.object with
        | none =>
          refine ⟨none, fun out => ?_⟩
          simp [helpBlockOptions, withStdout, hitem, hobj]
        | some i =>
          obtain ⟨r, hr⟩ := ih item.next w
          refine ⟨r.map fun t => optionLine i ++ t, fun out => ?_⟩
          have h1 : (withStdout w out).optionItems.load (some a) = some item := hitem
          have h2 : (withStdout w out).options.load item.object = some i := hobj
          have h3 : (withStdout w (out ++ optionLine i)).optionItems.load (some a) = some item :=
            hitem
          have hline : ("--" ++ i.longOption ++ "=[" ++ easyopts_print_option_type i.type
              ++ "] " ++ i.description ++ "\n") = optionLine i := rfl
          simp only [helpBlockOptions, h1, h2, Option.some_bind, hline]
          simp only [printf_withStdout, h3, Option.some_bind, hr]
          cases r <;> simp [String.append_assoc]

/-- The first section loop reads the heap only. -/
theorem helpUsageSections_stdout (showHidden : Int) (fuel : Nat) :
    ∀ (p : Ptr) (w : World), ∃ r : Option String, ∀ out,
      helpUsageSections showHidden fuel p (withStdout w out) =
        r.map fun t => withStdout w (out ++ t) := by
  induction fuel with
  | zero =>
    intro p w
    exact ⟨none, fun _ => rfl⟩
  | succ k ih =>
    intro p w
    cases p with
    | none =>
      refine ⟨some "", fun out => ?_⟩
      simp [helpUsageSections, withStdout]
    | some a =>
      cases hitem : w.sectionItems.load (some a) with
      | none =>
        refine ⟨none, fun out => ?_⟩
        simp [helpUsageSections, withStdout, hitem]
      | some item =>
        cases hobj : w.sections.load item.object with
        | none =>
          refine ⟨none, fun out => ?_⟩
          simp [helpUsageSections, withStdout, hitem, hobj]
        | some s =>
          obtain ⟨r, hr⟩ := ih item.next w
          have h1 : ∀ out, (withStdout w out).sectionItems.load (some a) = some item :=
            fun _ => hitem
          have h2 : ∀ out, (withStdout w out).sections.load item.object = some s := fun _ => hobj
          have h3 : ∀ out, (withStdout w out).optionItems = w.optionItems := fun _ => rfl
          by_cases hvis : printIt showHidden s.type = true
          · obtain ⟨q, hq⟩ := helpUsageOptions_stdout (w.optionItems.length + 1) s.firstOption w
            refine ⟨q.bind fun t => r.map fun u => t ++ u, fun out => ?_⟩
            simp only [helpUsageSections, h1, h2, h3, Option.some_bind, hvis, if_true, hq]
            cases q with
            | none => rfl
            | some t =>
              simp only [Option.map_some', Option.some_bind, h1, hr]
              cases r <;> simp [String.append_assoc]
          · refine ⟨r, fun out => ?_⟩
            simp [helpUsageSections, h1, h2, hvis, hr]

/-- The second section loop reads the heap only. -/
theorem helpBlockSections_stdout (showHidden : Int) (fuel : Nat) :
    ∀ (p : Ptr) (w : World), ∃ r : Option String, ∀ out,
      helpBlockSections showHidden fuel p (withStdout w out) =
        r.map fun t => withStdout w (out ++ t) := by
  induction fuel with
  | zero =>
    intro p w
    exact ⟨none, fun _ => rfl⟩
  | succ k ih =>
    intro p w
    cases p with
    | none =>
      refine ⟨some "", fun out => ?_⟩
      simp [helpBlockSections, withStdout]
    | some a =>
      cases hitem : w.sectionItems.load (some a) with
      | none =>
        refine ⟨none, fun out => ?_⟩
        simp [helpBlockSections, withStdout, hitem]
      | some item =>
        cases hobj : w.sections.load item.object with
        | none =>
          refine ⟨none, fun out => ?_⟩
          simp [helpBlockSections, withStdout, hitem, hobj]
        | some s =>
          obtain ⟨r, hr⟩ := ih item.next w
          have h1 : ∀ out, (withStdout w out).sectionItems.load (some a) = some item :=
            fun _ => hitem
          have h2 : ∀ out, (withStdout w out).sections.load item.object = some s := fun _ => hobj
          have h3 : ∀ out, (withStdout w out).optionItems = w.optionItems := fun _ => rfl
          by_cases hvis : printIt showHidden s.type = true
          · obtain ⟨q, hq⟩ := helpBlockOptions_stdout (w.optionItems.length + 1) s.firstOption w
            refine ⟨q.bind fun t => r.map fun u =>
              "[" ++ s.name ++ ": " ++ easyopts_print_type s.type ++ "]\n" ++
                (s.description ++ "\n") ++ t ++ "\n" ++ u, fun out => ?_⟩
            simp only [helpBlockSections, h1, h2, Option.some_bind, hvis, if_true,
              printf_withStdout, h3, hq]
            cases q with
            | none => rfl
            | some t =>
              simp only [Option.map_some', Option.some_bind, printf_withStdout, h1, hr]
              cases r <;> simp [String.append_assoc]
          · refine ⟨r, fun out => ?_⟩
            simp [helpBlockSections, h1, h2, hvis, hr]

/-- The help renderer reads the state only: what `_easyopts_help` prints (or whether it
fails) does not depend on what standard output holds, and it returns the state it was
given with that text appended to standard output. -/
theorem help_stdout (showHidden : Int) (w : World) :
    ∃ r : Option String, ∀ out,
      _easyopts_help showHidden (withStdout w out) = r.map fun t => withStdout w (out ++ t) := by
  have h1 : ∀ out, (withStdout w out).s_commandLineOptions = w.s_commandLineOptions :=
    fun _ => rfl
  have h3 : ∀ out, (withStdout w out).sectionItems = w.sectionItems := fun _ => rfl
  cases hargv : w.s_commandLineOptions.argv[0]? with
  | none =>
    refine ⟨none, fun out => ?_⟩
    unfold _easyopts_help
    simp only [printf_withStdout, h1, hargv, Option.none_bind, Option.map_none']
  | some argv0 =>
    obtain ⟨q, hq⟩ := helpUsageSections_stdout showHidden (w.sectionItems.length + 1)
      w.s_commandLineOptions.firstSection w
    obtain ⟨r, hr⟩ := helpBlockSections_stdout showHidden (w.sectionItems.length + 1)
      w.s_commandLineOptions.firstSection w
    refine ⟨q.bind fun t => r.map fun u =>
      w.s_commandLineOptions.description ++ "\n\n" ++ ("Usage: " ++ argv0) ++ t ++ "\n" ++ u,
      fun out => ?_⟩
    unfold _easyopts_help
    simp only [printf_withStdout, h1, hargv, Option.some_bind, h3, hq]
    cases q with
    | none => rfl
    | some t =>
      simp only [Option.map_some', Option.some_bind, printf_withStdout, h3, hr]
      cases r <;> simp [String.append_assoc]

/-- C9.  The help renderer is read-only and deterministic.  For every state, what
`easyopts_help` prints, or that it fails, is fixed by the state and does not depend on what
standard output holds, and the call returns the state it was given with that text appended
to standard output and every other field (argc, argv, description, the list pointers, the
four heap regions, the release log) unchanged; the same holds for `easyopts_help_hidden`.
On a state that holds a registry with NULL-terminated option lists and a non-empty `argv`
both calls do return, and a second call in a row appends the same text once more. -/
theorem help_is_read_only (w : World) :
    (∃ r : Option String, ∀ out, easyopts_help { w with stdout := out } =
      r.map fun t => { w with stdout := out ++ t }) ∧
    (∃ r : Option String, ∀ out, easyopts_help_hidden { w with stdout := out } =
      r.map fun t => { w with stdout := out ++ t }) ∧
    ∀ (L : List SecCell) (argv0 : String), Lays w L → NullTerminated L →
      w.s_commandLineOptions.argv[0]? = some argv0 →
      ∃ t u : String,
        easyopts_help w = some { w with stdout := w.stdout ++ t } ∧
        easyopts_help { w with stdout := w.stdout ++ t } =
          some { w with stdout := w.stdout ++ t ++ t } ∧
        easyopts_help_hidden w = some { w with stdout := w.stdout ++ u } ∧
        easyopts_help_hidden { w with stdout := w.stdout ++ u } =
          some { w with stdout := w.stdout ++ u ++ u } := by
  refine ⟨help_stdout 0 w, help_stdout 1 w, ?_⟩
  intro L argv0 h hn ha
  have h1 := help_eq h 0 (fun s hs _ => hn s hs) ha
  have h2 := help_eq h 1 (fun s hs _ => hn s hs) ha
  have h3 := fun t => help_eq (h.printf t) 0 (fun s hs _ => hn s hs) ha
  have h4 := fun t => help_eq (h.printf t) 1 (fun s hs _ => hn s hs) ha
  exact ⟨_, _, h1, h3 _, h2, h4 _⟩

set_option maxRecDepth 100000 in
/-- C9 at the state of the test program: both calls return, and twice the same text. -/
theorem help_is_read_only_witness :
    ∃ t u : String,
      easyopts_help testArgsStore = some { testArgsStore with stdout := testArgsStore.stdout ++ t } ∧
      easyopts_help { testArgsStore with stdout := testArgsStore.stdout ++ t } =
        some { testArgsStore with stdout := testArgsStore.stdout ++ t ++ t } ∧
      easyopts_help_hidden testArgsStore =
        some { testArgsStore with stdout := testArgsStore.stdout ++ u } ∧
      easyopts_help_hidden { testArgsStore with stdout := testArgsStore.stdout ++ u } =
        some { testArgsStore with stdout := testArgsStore.stdout ++ u ++ u } :=
  (help_is_read_only testArgsStore).2.2 testArgsLayout "testArgs" testArgsStore_lays
    (by decide) (by decide)

/-- C10.  On a state that holds a registry with NULL-terminated option lists, a registry
without sections included, `easyopts_free(NULL)` returns a state (no undefined behaviour,
no endless loop) whose `firstSection` is NULL, and a second `easyopts_free(NULL)` returns
that state unchanged. -/
theorem free_null_is_safe_and_idempotent {w : World} {L : List SecCell} (h : Lays w L)
    (hn : NullTerminated L) :
    ∃ w1, easyopts_free none w = some w1 ∧ w1.s_commandLineOptions.firstSection = none ∧
      easyopts_free none w1 = some w1 :=
  ⟨registryReleased w L, free_eq h hn, rfl, free_of_first_null rfl⟩

set_option maxRecDepth 100000 in
/-- C10 at a state without sections and at the state of the test program. -/
theorem free_null_is_safe_and_idempotent_witness :
    (∃ w1, easyopts_free none emptyWorld = some w1 ∧
      w1.s_commandLineOptions.firstSection = none ∧ easyopts_free none w1 = some w1) ∧
    (∃ w1, easyopts_free none testArgsStore = some w1 ∧
      w1.s_commandLineOptions.firstSection = none ∧ easyopts_free none w1 = some w1) :=
  ⟨free_null_is_safe_and_idempotent (lays_nil rfl rfl : Lays emptyWorld []) (by decide),
    free_null_is_safe_and_idempotent testArgsStore_lays (by decide)⟩


set_option maxRecDepth 100000 in
/-- Default help where the option lists end with NULL.  Without the hidden flag the
section loops show a section exactly when its type
is not `TYPE_HIDDEN`: on a state that holds a registry (the option lists of the sections
that are not hidden NULL-terminated, `argv` non-empty) `easyopts_help` prints the help text
of the sections whose type is not `TYPE_HIDDEN`, in registration order.  A deprecated
section of the registry is among them, and its block starts with the header
`[<name>: Options are deprecated]`.  The labels of public, hidden and deprecated sections
are "Options are public", "Options are hidden" and "Options are deprecated", pairwise
different. -/
theorem default_help_shows_what_is_not_hidden {w : World} {L : List SecCell} (h : Lays w L)
    (hnull : ∀ s ∈ L, s.type ≠ TYPE_HIDDEN → s.tail = none)
    {argv0 : String} (ha : w.s_commandLineOptions.argv[0]? = some argv0) :
    (∀ type : Int, printIt 0 type = true ↔ type ≠ TYPE_HIDDEN) ∧
    easyopts_help w = some (printf (helpText w.s_commandLineOptions.description argv0
      ((registry L).filter fun s => decide (s.type ≠ TYPE_HIDDEN))) w) ∧
    (∀ s ∈ registry L, s.type = TYPE_DEPRECATED →
      s ∈ (registry L).filter (fun s => decide (s.type ≠ TYPE_HIDDEN)) ∧
      sectionBlock s = "[" ++ s.name ++ ": " ++ "Options are deprecated" ++ "]\n" ++
        (s.description ++ "\n") ++ joinText (s.options.map optionLine) ++ "\n") ∧
    easyopts_print_type TYPE_PUBLIC = "Options are public" ∧
    easyopts_print_type TYPE_HIDDEN = "Options are hidden" ∧
    easyopts_print_type TYPE_DEPRECATED = "Options are deprecated" ∧
    easyopts_print_type TYPE_PUBLIC ≠ easyopts_print_type TYPE_HIDDEN ∧
    easyopts_print_type TYPE_PUBLIC ≠ easyopts_print_type TYPE_DEPRECATED ∧
    easyopts_print_type TYPE_HIDDEN ≠ easyopts_print_type TYPE_DEPRECATED := by
  have hvis : ∀ type : Int, printIt 0 type = true ↔ type ≠ TYPE_HIDDEN := by
    intro type
    simp [printIt]
  have h1 := help_eq h 0 (fun s hs hp => hnull s hs ((hvis s.type).mp hp)) ha
  rw [visibleSections_no_flag] at h1
  refine ⟨hvis, h1, ?_, by decide, by decide, by decide, by decide, by decide, by decide⟩
  intro s hs ht
  refine ⟨?_, ?_⟩
  · rw [List.mem_filter]
    refine ⟨hs, ?_⟩
    rw [ht]
    decide
  · simp [sectionBlock, ht, easyopts_print_type]

set_option maxRecDepth 100000 in
/-- The theorem before at the state of the test program, whose section B is deprecated and whose sections
"Common Hidden" and C are hidden. -/
theorem default_help_shows_what_is_not_hidden_witness :
    easyopts_help testArgsStore = some (printf
      (helpText testArgsStore.s_commandLineOptions.description "testArgs"
        ((registry testArgsLayout).filter fun s => decide (s.type ≠ TYPE_HIDDEN)))
      testArgsStore) ∧
    ((registry testArgsLayout).filter fun s => decide (s.type ≠ TYPE_HIDDEN)).map
      (fun s => s.name) = ["Common", "Section A", "Section B", "Section D"] ∧
    ∀ s ∈ registry testArgsLayout, s.type = TYPE_DEPRECATED →
      s ∈ (registry testArgsLayout).filter (fun s => decide (s.type ≠ TYPE_HIDDEN)) ∧
      sectionBlock s = "[" ++ s.name ++ ": " ++ "Options are deprecated" ++ "]\n" ++
        (s.description ++ "\n") ++ joinText (s.options.map optionLine) ++ "\n" :=
  ⟨(default_help_shows_what_is_not_hidden testArgsStore_lays
      (fun s hs _ => (by decide : NullTerminated testArgsLayout) s hs)
      (by decide : testArgsStore.s_commandLineOptions.argv[0]? = some "testArgs")).2.1,
    by decide,
    (default_help_shows_what_is_not_hidden testArgsStore_lays
      (fun s hs _ => (by decide : NullTerminated testArgsLayout) s hs)
      (by decide : testArgsStore.s_commandLineOptions.argv[0]? = some "testArgs")).2.2.1⟩

theorem usageEntry_blind (o : easyopts_option) : usageEntry (blindOption o) = usageEntry o := rfl

theorem optionLine_blind (o : easyopts_option) : optionLine (blindOption o) = optionLine o := rfl

theorem sectionBlock_blind (s : SectionView) : sectionBlock (blindSection s) = sectionBlock s := by
  simp [sectionBlock, blindSection, List.map_map, Function.comp_def, optionLine_blind]

theorem visibleSections_blind (showHidden : Int) (S : List SectionView) :
    visibleSections showHidden (S.map blindSection) =
      (visibleSections showHidden S).map blindSection := by
  simp [visibleSections, List.filter_map, Function.comp_def, blindSection]

/-- The help text reads neither the short forms nor the callbacks of the options. -/
theorem helpText_blind (description argv0 : String) (S : List SectionView) :
    helpText description argv0 (S.map blindSection) = helpText description argv0 S := by
  have ho : ∀ s : SectionView, (blindSection s).options = s.options.map blindOption :=
    fun _ => rfl
  simp [helpText, usageLine, List.map_map, Function.comp_def, sectionBlock_blind, ho,
    usageEntry_blind]

set_option maxRecDepth 100000 in
theorem testArgsRecastStore_lays : Lays testArgsRecastStore testArgsRecastLayout :=
  lays_of_laysB (by decide)

/-- C12.  Two states that hold registries (option lists NULL-terminated) which are equal
except for the `shortOption`, `validate` and `assign` fields of their options, with the
same description and the same non-empty `argv`, get the same text from `easyopts_help`,
and the same text from `easyopts_help_hidden`. -/
theorem help_text_ignores_short_forms_and_callbacks {w w' : World} {L L' : List SecCell}
    (h : Lays w L) (hn : NullTerminated L) (h' : Lays w' L') (hn' : NullTerminated L')
    (hsame : (registry L').map blindSection = (registry L).map blindSection)
    (hdesc : w'.s_commandLineOptions.description = w.s_commandLineOptions.description)
    (hargv : w'.s_commandLineOptions.argv = w.s_commandLineOptions.argv)
    {argv0 : String} (ha : w.s_commandLineOptions.argv[0]? = some argv0) :
    ∃ t u : String,
      easyopts_help w = some (printf t w) ∧ easyopts_help w' = some (printf t w') ∧
      easyopts_help_hidden w = some (printf u w) ∧
      easyopts_help_hidden w' = some (printf u w') := by
  have ha' : w'.s_commandLineOptions.argv[0]? = some argv0 := by
    rw [hargv]
    exact ha
  have key : ∀ showHidden : Int,
      helpText w'.s_commandLineOptions.description argv0
        (visibleSections showHidden (registry L')) =
      helpText w.s_commandLineOptions.description argv0
        (visibleSections showHidden (registry L)) := by
    intro showHidden
    rw [← helpText_blind, ← visibleSections_blind, hsame, visibleSections_blind,
      helpText_blind, hdesc]
  have h1 := help_eq h 0 (fun s hs _ => hn s hs) ha
  have h2 := help_eq h 1 (fun s hs _ => hn s hs) ha
  have h3 := help_eq h' 0 (fun s hs _ => hn' s hs) ha'
  have h4 := help_eq h' 1 (fun s hs _ => hn' s hs) ha'
  rw [key] at h3 h4
  exact ⟨_, _, h1, h3, h2, h4⟩

set_option maxRecDepth 100000 in
set_option maxHeartbeats 4000000 in
/-- C12 at `testArgsShownStore` and the state with every option recast. -/
theorem help_text_ignores_short_forms_and_callbacks_witness :
    ∃ t u : String,
      easyopts_help testArgsShownStore = some (printf t testArgsShownStore) ∧
      easyopts_help testArgsRecastStore = some (printf t testArgsRecastStore) ∧
      easyopts_help_hidden testArgsShownStore = some (printf u testArgsShownStore) ∧
      easyopts_help_hidden testArgsRecastStore = some (printf u testArgsRecastStore) ∧
      testArgsRecastStore.options =
        testArgsShownStore.options.map (Option.map recastOption) ∧
      testArgsRecastStore.options ≠ testArgsShownStore.options ∧
      testArgsRecastStore.optionItems = testArgsShownStore.optionItems ∧
      testArgsRecastStore.sections = testArgsShownStore.sections ∧
      testArgsRecastStore.sectionItems = testArgsShownStore.sectionItems ∧
      testArgsRecastStore.s_commandLineOptions = testArgsShownStore.s_commandLineOptions := by
  obtain ⟨t, u, h1, h2, h3, h4⟩ :=
    help_text_ignores_short_forms_and_callbacks testArgsShownStore_lays (by decide)
      testArgsRecastStore_lays (by decide) (by decide) (by decide) (by decide)
      (by decide : testArgsShownStore.s_commandLineOptions.argv[0]? = some "testArgs")
  exact ⟨t, u, h1, h2, h3, h4, by decide!, by decide!, by decide!, by decide!, by decide!,
    by decide!⟩

/-- C13 as stated fails.  The kinds `easyopts_print_option_type` knows by a label of
their own include ten integer kinds, signed and unsigned at five ranks (char, short, int,
long, long long), not eight at four widths, and with `DATATYPE_INVALID`, float, double and
string they are fourteen, not eleven. -/
theorem integer_kinds_come_at_five_ranks :
    integerKinds.map easyopts_print_option_type =
      ["Signed Char", "Unsigned Char", "Signed Short", "Unsigned Short", "Signed Integer",
       "Unsigned Integer", "Signed Long", "Unsigned Long", "Signed Long Long",
       "Unsigned Long Long"] ∧
    integerKinds.Nodup ∧ (integerKinds.map easyopts_print_option_type).Nodup ∧
    integerKinds.length = 2 * 5 ∧ integerKinds.length ≠ 2 * 4 ∧
    easyopts_print_option_type DATATYPE_INVALID = "Invalid" ∧
    declaredKinds.length = 14 ∧ declaredKinds.length ≠ 2 * 4 + 3 := by
  decide

/-- C13, amended.  The declared value kind of an option ranges over exactly fourteen
kinds, the values 0 to 13 of the enumeration: invalid, signed and unsigned integers at
the five ranks char, short, int, long and long long, float, double and string.  These are
the kinds `easyopts_print_option_type` labels, in this order; every other value gets the
fallback label. -/
theorem declared_kinds_are_fourteen (t : Int) :
    (easyopts_print_option_type t ≠ "Options are Unknown" ↔ t ∈ declaredKinds) ∧
    (t ∈ declaredKinds ↔ 0 ≤ t ∧ t < DATATYPE_LIMIT) ∧
    declaredKinds = DATATYPE_INVALID :: integerKinds ++
      [DATATYPE_FLOAT, DATATYPE_DOUBLE, DATATYPE_STRING] ∧
    declaredKinds.map easyopts_print_option_type =
      ["Invalid", "Signed Char", "Unsigned Char", "Signed Short", "Unsigned Short",
       "Signed Integer", "Unsigned Integer", "Signed Long", "Unsigned Long",
       "Signed Long Long", "Unsigned Long Long", "Float", "Double", "String"] := by
  refine ⟨?_, ?_, by decide, by decide⟩
  · unfold easyopts_print_option_type declaredKinds
    constructor
    · intro h
      by_contra hn
      simp only [List.mem_cons, List.mem_singleton, not_or, List.not_mem_nil, or_false] at hn
      simp [hn] at h
    · intro h
      simp only [List.mem_cons, List.mem_singleton, List.not_mem_nil, or_false] at h
      rcases h with h | h | h | h | h | h | h | h | h | h | h | h | h | h <;> subst h <;> decide
  · unfold declaredKinds
    simp only [List.mem_cons, List.mem_singleton, List.not_mem_nil, or_false]
    constructor
    · intro h
      rcases h with h | h | h | h | h | h | h | h | h | h | h | h | h | h <;> subst h <;> decide
    · intro h
      have h1 := h.1
      have h2 : t < 14 := h.2
      show t = 0 ∨ t = 1 ∨ t = 2 ∨ t = 3 ∨ t = 4 ∨ t = 5 ∨ t = 6 ∨ t = 7 ∨ t = 8 ∨ t = 9 ∨
        t = 10 ∨ t = 11 ∨ t = 12 ∨ t = 13
      omega

/-- The `for` loop of `easyopts_free` releases the strings from index `i` on. -/
theorem freeRemainingArgsLoop_eq (g : easyopts_remainingArgs)
    (hsize : g.remainingArgsSize = g.remainingArgs.length) (k : Nat) :
    ∀ (i fuel : Nat) (w : World), i + k = g.remainingArgs.length → k < fuel →
      freeRemainingArgsLoop g fuel i w =
        some { w with released := w.released ++ (List.range' i k).map Block.argString } := by
  induction k with
  | zero =>
    intro i fuel w hi hf
    obtain ⟨f, rfl⟩ : ∃ f, fuel = f + 1 := ⟨fuel - 1, by omega⟩
    have hnot : ¬ ((i : Int) < g.remainingArgsSize) := by
      rw [hsize]
      omega
    simp [freeRemainingArgsLoop, hnot]
  | succ k ih =>
    intro i fuel w hi hf
    obtain ⟨f, rfl⟩ : ∃ f, fuel = f + 1 := ⟨fuel - 1, by omega⟩
    have hlt : (i : Int) < g.remainingArgsSize := by
      rw [hsize]
      omega
    have hi' : i < g.remainingArgs.length := by omega
    have hget : g.remainingArgs[i]? = some g.remainingArgs[i] := List.getElem?_eq_getElem hi'
    have hrec := ih (i + 1) f { w with released := w.released ++ [Block.argString i] }
      (by omega) (by omega)
    simp only [freeRemainingArgsLoop, hlt, if_true, hget, Option.some_bind, hrec]
    simp [List.range'_succ]

/-- The call `easyopts_free(gra)` on a state that holds a registry whose option lists are
NULL-terminated, `gra` being NULL or holding as many strings as its size says. -/
theorem free_gra_eq {w : World} {L : List SecCell} (h : Lays w L) (hn : NullTerminated L)
    (gra : Option easyopts_remainingArgs)
    (hg : ∀ g, gra = some g → g.remainingArgsSize = g.remainingArgs.length) :
    easyopts_free gra w = some { registryReleased w L with
      released := w.released ++ releaseLog L ++ remainingArgsLog gra } := by
  have hloop := freeProgramOptionsLoop_eq L (w.sectionItems.length + 1) w (h.releasable hn)
    (Nat.lt_succ_of_le h.length_le)
  cases gra with
  | none => simp [easyopts_free, hloop, remainingArgsLog, registryReleased]
  | some g =>
    have hl := freeRemainingArgsLoop_eq g (hg g rfl) g.remainingArgs.length 0
      (g.remainingArgs.length + 1) (registryReleased w L) (by omega) (by omega)
    simp only [easyopts_free, hloop, Option.some_bind, hl, Option.map_some']
    simp [remainingArgsLog, registryReleased, List.range_eq_range']

theorem mem_optionsLog {cs : List OptCell} {x : Block} :
    x ∈ optionsLog cs ↔ ∃ c ∈ cs, x = Block.optionObject c.obj ∨ x = Block.optionListItem c.item := by
  simp [optionsLog, List.mem_flatMap]

theorem optionsLog_nodup {cs : List OptCell} (hi : (cs.map fun c => c.item).Nodup)
    (ho : (cs.map fun c => c.obj).Nodup) : (optionsLog cs).Nodup := by
  induction cs with
  | nil => simp [optionsLog]
  | cons c cs ih =>
    rw [List.map_cons, List.nodup_cons] at hi ho
    have hcons : optionsLog (c :: cs) =
        Block.optionObject c.obj :: Block.optionListItem c.item :: optionsLog cs := by
      simp [optionsLog]
    rw [hcons, List.nodup_cons, List.nodup_cons]
    refine ⟨?_, ?_, ih hi.2 ho.2⟩
    · intro hm
      rcases List.mem_cons.mp hm with hm | hm
      · cases hm
      · obtain ⟨d, hd, hx | hx⟩ := mem_optionsLog.mp hm
        · injection hx with hx
          exact ho.1 (List.mem_map.mpr ⟨d, hd, hx.symm⟩)
        · cases hx
    · intro hm
      obtain ⟨d, hd, hx | hx⟩ := mem_optionsLog.mp hm
      · cases hx
      · injection hx with hx
        exact hi.1 (List.mem_map.mpr ⟨d, hd, hx.symm⟩)

theorem mem_releaseLog {L : List SecCell} {x : Block} :
    x ∈ releaseLog L ↔
      (∃ c ∈ allOpts L, x = Block.optionObject c.obj ∨ x = Block.optionListItem c.item) ∨
      (∃ s ∈ L, x = Block.sectionObject s.obj ∨ x = Block.sectionListItem s.item) := by
  simp only [releaseLog, sectionLog, List.mem_flatMap, List.mem_append, mem_optionsLog,
    List.mem_cons, List.mem_singleton, List.not_mem_nil, or_false, mem_allOpts]
  constructor
  · rintro ⟨s, hs, ⟨c, hc, hx⟩ | hx⟩
    · exact Or.inl ⟨c, ⟨s, hs, hc⟩, hx⟩
    · exact Or.inr ⟨s, hs, hx⟩
  · rintro (⟨c, ⟨s, hs, hc⟩, hx⟩ | ⟨s, hs, hx⟩)
    · exact ⟨s, hs, Or.inl ⟨c, hc, hx⟩⟩
    · exact ⟨s, hs, Or.inr hx⟩

/-- No block occurs twice among the blocks released for a registry. -/
theorem releaseLog_nodup {L : List SecCell} (h1 : (L.map fun s => s.item).Nodup)
    (h2 : (L.map fun s => s.obj).Nodup) (h3 : ((allOpts L).map fun c => c.item).Nodup)
    (h4 : ((allOpts L).map fun c => c.obj).Nodup) : (releaseLog L).Nodup := by
  induction L with
  | nil => simp [releaseLog]
  | cons s L ih =>
    rw [List.map_cons, List.nodup_cons] at h1 h2
    rw [allOpts_cons, List.map_append, List.nodup_append] at h3 h4
    rw [releaseLog_cons, List.nodup_append]
    refine ⟨?_, ih h1.2 h2.2 h3.2.1 h4.2.1, ?_⟩
    · unfold sectionLog
      rw [List.nodup_append]
      refine ⟨optionsLog_nodup h3.1 h4.1, by simp, ?_⟩
      intro x hx hy
      obtain ⟨c, _, hc | hc⟩ := mem_optionsLog.mp hx
      · subst hc
        simp at hy
      · subst hc
        simp at hy
    · intro x hx hy
      unfold sectionLog at hx
      rcases List.mem_append.mp hx with hx | hx
      · obtain ⟨c, hc, hxc⟩ := mem_optionsLog.mp hx
        rcases mem_releaseLog.mp hy with ⟨d, hd, hxd⟩ | ⟨t, _, hxt⟩
        · rcases hxc with rfl | rfl
          · rcases hxd with hxd | hxd
            · injection hxd with hxd
              exact h4.2.2 (List.mem_map.mpr ⟨c, hc, rfl⟩) (List.mem_map.mpr ⟨d, hd, hxd.symm⟩)
            · cases hxd
          · rcases hxd with hxd | hxd
            · cases hxd
            · injection hxd with hxd
              exact h3.2.2 (List.mem_map.mpr ⟨c, hc, rfl⟩) (List.mem_map.mpr ⟨d, hd, hxd.symm⟩)
        · rcases hxc with rfl | rfl <;> rcases hxt with hxt | hxt <;> cases hxt
      · simp only [List.mem_cons, List.mem_singleton, List.not_mem_nil, or_false] at hx
        rcases mem_releaseLog.mp hy with ⟨d, _, hxd⟩ | ⟨t, ht, hxt⟩
        · rcases hx with rfl | rfl <;> rcases hxd with hxd | hxd <;> cases hxd
        · rcases hx with rfl | rfl
          · rcases hxt with hxt | hxt
            · injection hxt with hxt
              exact h2.1 (List.mem_map.mpr ⟨t, ht, hxt.symm⟩)
            · cases hxt
          · rcases hxt with hxt | hxt
            · cases hxt
            · injection hxt with hxt
              exact h1.1 (List.mem_map.mpr ⟨t, ht, hxt.symm⟩)

set_option maxRecDepth 100000 in
/-- C14 as stated fails.  Right after `easyopts_initProgramOptions`, `easyopts_free(NULL)`
releases the three options of section "Common", then that section (object and list item),
and only then the two options of section "Common Hidden" and that section: the sections
are not released after every option, and nothing is released for the store itself, which
is a static variable. -/
theorem free_releases_a_section_before_later_options :
    (easyopts_free none initStore).map (fun w => w.released) =
      some [Block.optionObject 0, Block.optionListItem 0, Block.optionObject 1,
        Block.optionListItem 1, Block.optionObject 2, Block.optionListItem 2,
        Block.sectionObject 0, Block.sectionListItem 0,
        Block.optionObject 3, Block.optionListItem 3, Block.optionObject 4,
        Block.optionListItem 4, Block.sectionObject 1, Block.sectionListItem 1] ∧
    claimedReleaseLog initLayout =
      [Block.optionObject 0, Block.optionListItem 0, Block.optionObject 1,
        Block.optionListItem 1, Block.optionObject 2, Block.optionListItem 2,
        Block.optionObject 3, Block.optionListItem 3, Block.optionObject 4,
        Block.optionListItem 4, Block.sectionObject 0, Block.sectionListItem 0,
        Block.sectionObject 1, Block.sectionListItem 1] ∧
    (easyopts_free none initStore).map (fun w => w.released) ≠
      some (claimedReleaseLog initLayout) := by
  decide

/-- C14, amended.  On a state that holds a registry with NULL-terminated option lists,
`easyopts_free(gra)`, `gra` being NULL or holding as many strings as its size says,
returns and hands to `free`, after what was released before, the blocks `releaseLog L`
and then `remainingArgsLog gra`: section by section in registration order, the options of
the section in registration order (each option object, then its list item), then the
section object and the section list item, before the options of the next section; then,
when `gra` is not NULL, each contained string, the array and the container.  Every
option object, option list item, section object and section list item of the registry is
among these blocks, and no block occurs twice.  The store itself is not released: its
`firstSection` is set to NULL. -/
theorem free_releases_section_by_section {w : World} {L : List SecCell} (h : Lays w L)
    (hn : NullTerminated L) (gra : Option easyopts_remainingArgs)
    (hg : ∀ g, gra = some g → g.remainingArgsSize = g.remainingArgs.length) :
    ∃ w', easyopts_free gra w = some w' ∧
      w'.released = w.released ++ releaseLog L ++ remainingArgsLog gra ∧
      releaseLog L = L.flatMap (fun s =>
        (s.opts.flatMap fun c => [Block.optionObject c.obj, Block.optionListItem c.item]) ++
          [Block.sectionObject s.obj, Block.sectionListItem s.item]) ∧
      (releaseLog L ++ remainingArgsLog gra).Nodup ∧
      (∀ c ∈ allOpts L, Block.optionObject c.obj ∈ releaseLog L ∧
        Block.optionListItem c.item ∈ releaseLog L) ∧
      (∀ s ∈ L, Block.sectionObject s.obj ∈ releaseLog L ∧
        Block.sectionListItem s.item ∈ releaseLog L) ∧
      w'.s_commandLineOptions = { w.s_commandLineOptions with firstSection := none } := by
  refine ⟨_, free_gra_eq h hn gra hg, rfl, rfl, ?_, ?_, ?_, rfl⟩
  · rw [List.nodup_append]
    refine ⟨releaseLog_nodup h.nodupSecItems h.nodupSecObjs h.nodupOptItems h.nodupOptObjs,
      ?_, ?_⟩
    · cases gra with
      | none => simp [remainingArgsLog]
      | some g =>
        simp only [remainingArgsLog]
        rw [List.nodup_append]
        refine ⟨(List.nodup_range _).map (fun a b hab => by injection hab), by simp, ?_⟩
        intro x hx hy
        obtain ⟨i, _, rfl⟩ := List.mem_map.mp hx
        simp at hy
    · intro x hx hy
      cases gra with
      | none => simp [remainingArgsLog] at hy
      | some g =>
        simp only [remainingArgsLog, List.mem_append, List.mem_map, List.mem_cons,
          List.mem_singleton, List.not_mem_nil, or_false] at hy
        rcases mem_releaseLog.mp hx with ⟨c, _, hc | hc⟩ | ⟨s, _, hs | hs⟩ <;> subst x <;>
          rcases hy with ⟨i, _, hi⟩ | hi | hi <;> cases hi
  · intro c hc
    exact ⟨mem_releaseLog.mpr (Or.inl ⟨c, hc, Or.inl rfl⟩),
      mem_releaseLog.mpr (Or.inl ⟨c, hc, Or.inr rfl⟩)⟩
  · intro s hs
    exact ⟨mem_releaseLog.mpr (Or.inr ⟨s, hs, Or.inl rfl⟩),
      mem_releaseLog.mpr (Or.inr ⟨s, hs, Or.inr rfl⟩)⟩

set_option maxRecDepth 100000 in
/-- C14, amended, at the state of the test program with two remaining arguments. -/
theorem free_releases_section_by_section_witness :
    ∃ w', easyopts_free (some ⟨2, ["extra1", "extra2"]⟩) testArgsStore = some w' ∧
      w'.released = testArgsStore.released ++ releaseLog testArgsLayout ++
        remainingArgsLog (some ⟨2, ["extra1", "extra2"]⟩) ∧
      releaseLog testArgsLayout = testArgsLayout.flatMap (fun s =>
        (s.opts.flatMap fun c => [Block.optionObject c.obj, Block.optionListItem c.item]) ++
          [Block.sectionObject s.obj, Block.sectionListItem s.item]) ∧
      (releaseLog testArgsLayout ++ remainingArgsLog (some ⟨2, ["extra1", "extra2"]⟩)).Nodup ∧
      (∀ c ∈ allOpts testArgsLayout, Block.optionObject c.obj ∈ releaseLog testArgsLayout ∧
        Block.optionListItem c.item ∈ releaseLog testArgsLayout) ∧
      (∀ s ∈ testArgsLayout, Block.sectionObject s.obj ∈ releaseLog testArgsLayout ∧
        Block.sectionListItem s.item ∈ releaseLog testArgsLayout) ∧
      w'.s_commandLineOptions =
        { testArgsStore.s_commandLineOptions with firstSection := none } :=
  free_releases_section_by_section testArgsStore_lays (by decide)
    (some ⟨2, ["extra1", "extra2"]⟩) (by
      intro g hg
      cases hg
      rfl)

/-- The list item that `easyopts_addOption` creates keeps in its `next` field what the
allocator left there. -/
theorem addOption_next_is_junk {w : World} {pre post : List SecCell} {s : SecCell}
    (h : Lays w (pre ++ s :: post)) (junk : Nat → Ptr) (val : easyopts_option) :
    ∃ w', easyopts_addOption junk (some s.obj) val.shortOption val.longOption val.type
        val.isRequired val.validate val.assign val.description w = some w' ∧
      w'.optionItems.load (some w.optionItems.length) =
        some { object := some w.options.length, next := junk w.optionItems.length } := by
  obtain ⟨w', hrun, hl, _⟩ := addOption_lays h junk val
  refine ⟨w', hrun, ?_⟩
  have hlinks := hl.optLinks (s.withOption junk w val) (by simp)
  have haddr : optAddrs (s.withOption junk w val).opts =
      optAddrs s.opts ++ [(w.optionItems.length, w.options.length)] := by
    simp [optAddrs, SecCell.withOption, newOptCell]
  rw [haddr] at hlinks
  exact optionLink_eq_some.mp hlinks.last

set_option maxRecDepth 100000 in
/-- C17 (code defect, evaluated at the failing input).  After
`easyopts_initProgramOptions(1, ["prog"], "demo")` on an allocator that left the address
of the first option list item in the block it hands out for the fifth one, the list item
of `help-hidden-json`, the last of its section, has a non-null `next` field:
`easyopts_addOption` never writes it.  The traversal of `easyopts_help_hidden` does not
stop after the two options of "Common Hidden", and the traversal of `easyopts_free` goes
on to a list item that is already released, which is undefined. -/
theorem addOption_leaves_next_unwritten :
    (easyopts_initProgramOptions staleJunk 1 ["prog"] "demo" emptyWorld).bind
      (fun w => w.optionItems.load (some 4)) = some { object := some 4, next := some 0 } ∧
    (easyopts_initProgramOptions staleJunk 1 ["prog"] "demo" emptyWorld).bind
      (fun w => (w.sections.load (some 1)).map fun s => s.lastOption) = some (some 4) ∧
    ((easyopts_initProgramOptions staleJunk 1 ["prog"] "demo" emptyWorld).bind
      easyopts_help_hidden).map (fun w => w.stdout) ≠
        some (helpText "demo" "prog" builtinSections) ∧
    (easyopts_initProgramOptions staleJunk 1 ["prog"] "demo" emptyWorld).bind
      (easyopts_free none) = none := by
  decide

/-- The chains that registration builds.  In every state reached by
`easyopts_initProgramOptions` followed by calls of
`easyopts_addSection` and `easyopts_addOption` on sections that these calls returned,
whatever the allocator left in the blocks: `firstSection` is NULL exactly when
`lastSection` is, the section list runs from `firstSection` along `next` through the
registered sections to NULL and `lastSection` is its last item; in every section
`firstOption` is NULL exactly when `lastOption` is, the option list runs from `firstOption`
along `next` through the registered options of the section and `lastOption` is the last
of these items.  (The `next` field of that last item holds what the allocator left there,
NULL on an allocator that hands out zeroed blocks.) -/
theorem list_ends_are_consistent (junk : Nat → Ptr) (argc : Int) (argv : List String)
    (description : String) (calls : List Call) (w0 : World) (hv : ValidCalls 0 calls) :
    ∃ w L, runProgram junk argc argv description calls w0 = some w ∧
      registry L = registered calls ∧
      (w.s_commandLineOptions.firstSection = none ↔
        w.s_commandLineOptions.lastSection = none) ∧
      Links (sectionLink w.sectionItems) w.s_commandLineOptions.firstSection
        (secAddrs L) none ∧
      w.s_commandLineOptions.lastSection = L.getLast?.map (fun s => s.item) ∧
      (∀ s ∈ L, ∃ so, w.sections.load (some s.obj) = some so ∧
        (so.firstOption = none ↔ so.lastOption = none) ∧
        Links (optionLink w.optionItems) so.firstOption (optAddrs s.opts) s.tail ∧
        so.lastOption = s.opts.getLast?.map (fun c => c.item)) ∧
      ((∀ a, junk a = none) → NullTerminated L) := by
  obtain ⟨w, L, hrun, hl, hreg, _, _, _, _, _, hn⟩ :=
    runProgram_lays junk argc argv description calls w0 hv
  refine ⟨w, L, hrun, hreg, ?_, hl.secLinks, hl.lastSec, ?_, hn⟩
  · rw [hl.lastSec, hl.secLinks.first_sec]
    cases L with
    | nil => simp
    | cons s L => simp [List.getLast?_cons_cons, List.getLast?_eq_getLast]
  · intro s hs
    refine ⟨_, hl.secObj s hs, ?_, hl.optLinks s hs, rfl⟩
    show firstItem s.opts = none ↔ lastItem s.opts = none
    cases hopts : s.opts with
    | nil => simp [firstItem, lastItem]
    | cons c cs => simp [firstItem, lastItem, List.getLast?_eq_getLast]

/-- The theorem before at the registration calls of the test program, on an allocator
that leaves the
address of the first option list item in every block. -/
theorem list_ends_are_consistent_witness :
    ∃ w L, runProgram (fun _ => some 0) 1 ["testArgs"]
        "This is the general description of this test program" testArgsCalls emptyWorld
        = some w ∧
      registry L = registered testArgsCalls ∧
      (w.s_commandLineOptions.firstSection = none ↔
        w.s_commandLineOptions.lastSection = none) ∧
      Links (sectionLink w.sectionItems) w.s_commandLineOptions.firstSection
        (secAddrs L) none ∧
      w.s_commandLineOptions.lastSection = L.getLast?.map (fun s => s.item) ∧
      (∀ s ∈ L, ∃ so, w.sections.load (some s.obj) = some so ∧
        (so.firstOption = none ↔ so.lastOption = none) ∧
        Links (optionLink w.optionItems) so.firstOption (optAddrs s.opts) s.tail ∧
        so.lastOption = s.opts.getLast?.map (fun c => c.item)) ∧
      ((∀ a, (fun _ => some 0 : Nat → Ptr) a = none) → NullTerminated L) :=
  list_ends_are_consistent (fun _ => some 0) 1 ["testArgs"]
    "This is the general description of this test program" testArgsCalls emptyWorld
    (by simp [ValidCalls, testArgsCalls])

theorem Region.load_set_none {α : Type} (m : Region α) (a : Nat) :
    Region.load (m.set a none) (some a) = none := by
  by_cases h : a < m.length <;> simp [Region.load, List.getElem?_set, h]

theorem eraseAll_load_of_mem {α : Type} (as : List Nat) {b : Nat} (hb : b ∈ as) :
    ∀ m : Region α, (eraseAll m as).load (some b) = none := by
  induction as with
  | nil => cases hb
  | cons a as ih =>
    intro m
    rw [eraseAll_cons]
    by_cases hmem : b ∈ as
    · exact ih hmem _
    · rcases List.mem_cons.mp hb with rfl | h
      · rw [eraseAll_load_of_not_mem as hmem, Region.load_set_none]
      · exact absurd h hmem

/-- C19.  On a well-formed state `easyopts_free` returns, and of the store it changes the
field `firstSection` only, which becomes NULL: `lastSection`, `argc`, `argv` and
`description` keep their values.  When the registry held a section, `lastSection` is
left non-null, pointing to a list item that has been released, so the store differs from
one whose two list pointers are NULL, and a later `easyopts_addSection` writes through the
released list item, which is undefined. -/
theorem free_leaves_lastSection_dangling {w : World} {L : List SecCell} (h : Lays w L)
    (hn : NullTerminated L) (gra : Option easyopts_remainingArgs)
    (hg : ∀ g, gra = some g → g.remainingArgsSize = g.remainingArgs.length) :
    ∃ w', easyopts_free gra w = some w' ∧
      w'.s_commandLineOptions = { w.s_commandLineOptions with firstSection := none } ∧
      w'.s_commandLineOptions.firstSection = none ∧
      w'.s_commandLineOptions.lastSection = w.s_commandLineOptions.lastSection ∧
      w'.s_commandLineOptions.argc = w.s_commandLineOptions.argc ∧
      w'.s_commandLineOptions.argv = w.s_commandLineOptions.argv ∧
      w'.s_commandLineOptions.description = w.s_commandLineOptions.description ∧
      (L ≠ [] → ∃ a, w'.s_commandLineOptions.lastSection = some a ∧
        Block.sectionListItem a ∈ w'.released ∧ w'.sectionItems.load (some a) = none ∧
        w'.s_commandLineOptions ≠
          { w.s_commandLineOptions with firstSection := none, lastSection := none } ∧
        ∀ name description type, easyopts_addSection name description type w' = none) := by
  refine ⟨_, free_gra_eq h hn gra hg, rfl, rfl, rfl, rfl, rfl, rfl, ?_⟩
  intro hne
  obtain ⟨s, hlast⟩ : ∃ s, L.getLast? = some s := by
    cases hL : L.getLast? with
    | none => exact absurd (List.getLast?_eq_none_iff.mp hL) hne
    | some s => exact ⟨s, rfl⟩
  have hs : s ∈ L := List.mem_of_getLast?_eq_some hlast
  have hls : w.s_commandLineOptions.lastSection = some s.item := by
    rw [h.lastSec, hlast]
    rfl
  have hgone : (eraseAll w.sectionItems (L.map fun s => s.item)).load (some s.item) = none :=
    eraseAll_load_of_mem _ (List.mem_map.mpr ⟨s, hs, rfl⟩) _
  refine ⟨s.item, hls, ?_, hgone, ?_, ?_⟩
  · show Block.sectionListItem s.item ∈ w.released ++ releaseLog L ++ remainingArgsLog gra
    have hm : Block.sectionListItem s.item ∈ releaseLog L :=
      mem_releaseLog.mpr (Or.inr ⟨s, hs, Or.inr rfl⟩)
    simp [hm]
  · intro heq
    have hnone := congrArg easyopts_programOptions.lastSection heq
    change w.s_commandLineOptions.lastSection = none at hnone
    rw [hls] at hnone
    cases hnone
  · intro name description type
    have hlt : s.item < (eraseAll w.sectionItems (L.map fun s => s.item)).length := by
      rw [eraseAll_length]
      exact h.secItem_lt hs
    have hold := Region.load_append_old (eraseAll w.sectionItems (L.map fun s => s.item))
      (some { object := some (eraseAll w.sections (L.map fun s => s.obj)).length,
              next := none }) hlt
    rw [hgone] at hold
    simp [easyopts_addSection, Region.malloc, registryReleased, hls, hold]

/-- C19 at the state of the test program, as `easyopts_free(NULL)`. -/
theorem free_leaves_lastSection_dangling_witness :
    ∃ w', easyopts_free none testArgsStore = some w' ∧
      w'.s_commandLineOptions =
        { testArgsStore.s_commandLineOptions with firstSection := none } ∧
      w'.s_commandLineOptions.firstSection = none ∧
      w'.s_commandLineOptions.lastSection = testArgsStore.s_commandLineOptions.lastSection ∧
      w'.s_commandLineOptions.argc = testArgsStore.s_commandLineOptions.argc ∧
      w'.s_commandLineOptions.argv = testArgsStore.s_commandLineOptions.argv ∧
      w'.s_commandLineOptions.description =
        testArgsStore.s_commandLineOptions.description ∧
      (testArgsLayout ≠ [] → ∃ a, w'.s_commandLineOptions.lastSection = some a ∧
        Block.sectionListItem a ∈ w'.released ∧ w'.sectionItems.load (some a) = none ∧
        w'.s_commandLineOptions ≠
          { testArgsStore.s_commandLineOptions with
            firstSection := none, lastSection := none } ∧
        ∀ name description type, easyopts_addSection name description type w' = none) :=
  free_leaves_lastSection_dangling testArgsStore_lays (by decide) none
    (fun _ hg => Option.noConfusion hg)

theorem usageEntry_plain_iff (o : easyopts_option) :
    usageEntry o = " --" ++ o.longOption ++ "=X" ↔ o.isRequired = REQUIRED_REQUIRED := by
  constructor
  · intro h
    by_contra hne
    rw [usageEntry, if_neg hne] at h
    have hd := congrArg String.data h
    simp only [String.data_append] at hd
    simp at hd
  · intro h
    rw [usageEntry, if_pos h]

theorem joinText_append (xs ys : List String) :
    joinText (xs ++ ys) = joinText xs ++ joinText ys := by
  induction xs with
  | nil => simp [joinText]
  | cons x xs ih => simp [joinText, ih, String.append_assoc]

theorem appendOption_append (val : easyopts_option) (k : Nat) (B R : List SectionView) :
    appendOption val (B.length + k) (B ++ R) = B ++ appendOption val k R := by
  induction B with
  | nil => simp
  | cons b B ih =>
    have hk : (b :: B).length + k = (B.length + k) + 1 := by simp; omega
    rw [hk]
    simp [appendOption, ih]

/-- Registration calls of a host program leave the sections registered before them as
they are: the handles of the calls are those of the sections they add. -/
theorem registerCalls_append (B : List SectionView) (calls : List Call) :
    ∀ R, registerCalls B.length calls (B ++ R) = B ++ registerCalls 0 calls R := by
  induction calls with
  | nil => intro R; rfl
  | cons c cs ih =>
    intro R
    cases c with
    | addSection name description type =>
      simp only [registerCalls, List.append_assoc]
      exact ih _
    | addOption k val =>
      simp only [registerCalls, appendOption_append, Nat.zero_add]
      exact ih _

/-- The registry of a host program starts with the two built-in sections. -/
theorem registered_eq (calls : List Call) :
    registered calls = builtinSections ++ registerCalls 0 calls [] := by
  have := registerCalls_append builtinSections calls []
  simpa [registered, builtinSections] using this

set_option maxRecDepth 100000 in
/-- The usage line where the option lists end with NULL.  On a state that holds a registry
(the option lists of the sections that are not
hidden NULL-terminated, `argv` non-empty) `easyopts_help` prints the help text, whose usage
line has one entry per option: ` --<long>=X` exactly when the option's `isRequired` is
`REQUIRED_REQUIRED`, and ` [--<long>=X]` for every other value, `REQUIRED_NONE` and
`REQUIRED_INVALID` included.  When the registry starts with the two built-in sections, as
it does after `easyopts_initProgramOptions` and any registration calls, the usage line
holds ` [--version=X] [--help=X] [--help-json=X]` directly after the program name. -/
theorem usage_line_brackets_all_but_required {w : World} {L : List SecCell} (h : Lays w L)
    (hnull : ∀ s ∈ L, s.type ≠ TYPE_HIDDEN → s.tail = none)
    {argv0 : String} (ha : w.s_commandLineOptions.argv[0]? = some argv0)
    {rest : List SectionView} (hinit : registry L = builtinSections ++ rest) :
    easyopts_help w = some (printf (helpText w.s_commandLineOptions.description argv0
      (visibleSections 0 (registry L))) w) ∧
    (∀ S, usageLine argv0 S = "Usage: " ++ argv0 ++
      joinText (S.map fun s => joinText (s.options.map usageEntry)) ++ "\n") ∧
    (∀ o : easyopts_option,
      (usageEntry o = " --" ++ o.longOption ++ "=X" ↔ o.isRequired = REQUIRED_REQUIRED) ∧
      (o.isRequired ≠ REQUIRED_REQUIRED → usageEntry o = " [--" ++ o.longOption ++ "=X]") ∧
      (o.isRequired = REQUIRED_NONE → usageEntry o = " [--" ++ o.longOption ++ "=X]") ∧
      (o.isRequired = REQUIRED_OPTIONAL → usageEntry o = " [--" ++ o.longOption ++ "=X]") ∧
      (o.isRequired = REQUIRED_INVALID → usageEntry o = " [--" ++ o.longOption ++ "=X]")) ∧
    (∀ calls, registered calls = builtinSections ++ registerCalls 0 calls []) ∧
    easyopts_help w = some (printf (w.s_commandLineOptions.description ++ "\n\n" ++
      ("Usage: " ++ argv0 ++ " [--version=X] [--help=X] [--help-json=X]" ++
        joinText ((visibleSections 0 rest).map fun s => joinText (s.options.map usageEntry))
        ++ "\n") ++
      joinText ((visibleSections 0 (registry L)).map sectionBlock)) w) := by
  have hvis : ∀ type : Int, printIt 0 type = true ↔ type ≠ TYPE_HIDDEN := by
    intro type
    simp [printIt]
  have h1 : easyopts_help w = some (printf (helpText w.s_commandLineOptions.description argv0
      (visibleSections 0 (registry L))) w) :=
    help_eq h 0 (fun s hs hp => hnull s hs ((hvis s.type).mp hp)) ha
  have hbr : ∀ o : easyopts_option, o.isRequired ≠ REQUIRED_REQUIRED →
      usageEntry o = " [--" ++ o.longOption ++ "=X]" := by
    intro o hne
    rw [usageEntry, if_neg hne]
  refine ⟨h1, fun _ => rfl, ?_, registered_eq, ?_⟩
  · intro o
    refine ⟨usageEntry_plain_iff o, hbr o, ?_, ?_, ?_⟩
    · intro ho
      exact hbr o (by rw [ho]; decide)
    · intro ho
      exact hbr o (by rw [ho]; decide)
    · intro ho
      exact hbr o (by rw [ho]; decide)
  · rw [h1]
    have hv : visibleSections 0 (builtinSections ++ rest) =
        { name := "Common", description := "Provide Common Arguments for help and versioning",
          type := TYPE_PUBLIC, options := [optVersion, optHelp, optHelpJson] }
          :: visibleSections 0 rest := by
      simp only [visibleSections, List.filter_append]
      rfl
    have hj : ∀ R : String, usageEntry optVersion ++ (usageEntry optHelp ++
        (usageEntry optHelpJson ++ ("" ++ R))) =
          " [--version=X] [--help=X] [--help-json=X]" ++ R := by
      intro R
      simp only [← String.append_assoc]
      congr 1
    congr 2
    simp only [helpText, usageLine]
    rw [hinit, hv]
    simp only [List.map_cons, List.map_nil, joinText, String.append_assoc]
    rw [hj]

set_option maxRecDepth 100000 in
/-- The theorem before at the state of the test program. -/
theorem usage_line_brackets_all_but_required_witness :
    easyopts_help testArgsStore = some (printf
      (testArgsStore.s_commandLineOptions.description ++ "\n\n" ++
        ("Usage: " ++ "testArgs" ++ " [--version=X] [--help=X] [--help-json=X]" ++
          joinText ((visibleSections 0 (registerCalls 0 testArgsCalls [])).map
            fun s => joinText (s.options.map usageEntry)) ++ "\n") ++
        joinText ((visibleSections 0 (registry testArgsLayout)).map sectionBlock))
      testArgsStore) :=
  (usage_line_brackets_all_but_required testArgsStore_lays (by decide)
    (by decide : testArgsStore.s_commandLineOptions.argv[0]? = some "testArgs")
    (by decide : registry testArgsLayout =
      builtinSections ++ registerCalls 0 testArgsCalls [])).2.2.2.2

theorem String.append_left_cancel_text {a b c : String} (h : a ++ b = a ++ c) : b = c := by
  have hd := congrArg String.data h
  simp only [String.data_append] at hd
  exact String.ext (List.append_cancel_left hd)

/-- A help call that returns on a state returns as well, with the same text, after
something was printed. -/
theorem help_after_printf (showHidden : Int) (w : World) (t x : String)
    (h : _easyopts_help showHidden w = some (printf t w)) :
    _easyopts_help showHidden (printf x w) = some (printf t (printf x w)) := by
  obtain ⟨r, hr⟩ := help_stdout showHidden w
  have h0 := hr w.stdout
  have hw : withStdout w w.stdout = w := rfl
  rw [hw, h] at h0
  cases r with
  | none => cases h0
  | some t' =>
    have h1 : (printf t w).stdout = (withStdout w (w.stdout ++ t')).stdout :=
      congrArg World.stdout (Option.some.inj h0)
    have h2 : t = t' := String.append_left_cancel_text h1
    subst h2
    exact hr (w.stdout ++ x)

/-- C21.  For every state, well-formed or not, `easyopts_help_json` and
`easyopts_help_hidden_json` return and return the state they were given: nothing is added
to standard output, and the store, the heap and the release log are unchanged, whatever
the flag passed to `_easyopts_help_json`; so calling them any number of times, in any
order, changes nothing.  In the test program the two banners "JSON HELP" and
"JSON HELP + JSON" are followed directly by the next separator line. -/
theorem json_help_prints_nothing (w : World) :
    easyopts_help_json w = some w ∧ easyopts_help_hidden_json w = some w ∧
    (∀ showHidden : Int, _easyopts_help_json showHidden w = some w) ∧
    (easyopts_help_json w).map (fun w1 => w1.stdout) = some w.stdout ∧
    (easyopts_help_hidden_json w).map (fun w1 => w1.stdout) = some w.stdout ∧
    (easyopts_help_json w).map (fun w1 => w1.s_commandLineOptions)
      = some w.s_commandLineOptions ∧
    (easyopts_help_hidden_json w).map (fun w1 => w1.s_commandLineOptions)
      = some w.s_commandLineOptions ∧
    (easyopts_help_json w).bind easyopts_help_hidden_json = some w ∧
    (easyopts_help_hidden_json w).bind easyopts_help_json = some w ∧
    (∀ t u : String,
      easyopts_help w = some (printf t w) → easyopts_help_hidden w = some (printf u w) →
      testArgsHelpCalls w = some (printf
        ("========================================\n" ++ "HELP\n" ++ t ++
         "========================================\n" ++ "HELP + HIDDEN\n" ++ u ++
         "========================================\n" ++ "JSON HELP\n" ++
         "========================================\n" ++ "JSON HELP + JSON\n" ++
         "========================================\n") w)) := by
  refine ⟨rfl, rfl, fun _ => rfl, rfl, rfl, rfl, rfl, rfl, rfl, ?_⟩
  intro t u ht hu
  have h1 := help_after_printf 0 w t
    ("========================================\n" ++ "HELP\n") ht
  have h2 := help_after_printf 1 w u
    ("========================================\n" ++ "HELP\n" ++ t ++
      "========================================\n" ++ "HELP + HIDDEN\n") hu
  simp only [testArgsHelpCalls, easyopts_help, easyopts_help_hidden, easyopts_help_json,
    easyopts_help_hidden_json, _easyopts_help_json, printf_printf] at h1 h2 ⊢
  simp only [h1, Option.some_bind, printf_printf]
  simp only [String.append_assoc] at h2 ⊢
  simp only [h2, Option.some_bind, Option.map_some', printf_printf, String.append_assoc]

set_option maxRecDepth 100000 in
/-- C21 at the state of the test program: the JSON calls return the state unchanged, and
the output of the four help calls holds nothing between the JSON banners. -/
theorem json_help_prints_nothing_witness :
    easyopts_help_json testArgsStore = some testArgsStore ∧
    easyopts_help_hidden_json testArgsStore = some testArgsStore ∧
    testArgsHelpCalls testArgsStore = some (printf
      ("========================================\n" ++ "HELP\n" ++
        helpText testArgsStore.s_commandLineOptions.description "testArgs"
          (visibleSections 0 (registry testArgsLayout)) ++
       "========================================\n" ++ "HELP + HIDDEN\n" ++
        helpText testArgsStore.s_commandLineOptions.description "testArgs"
          (visibleSections 1 (registry testArgsLayout)) ++
       "========================================\n" ++ "JSON HELP\n" ++
       "========================================\n" ++ "JSON HELP + JSON\n" ++
       "========================================\n") testArgsStore) :=
  ⟨(json_help_prints_nothing testArgsStore).1, (json_help_prints_nothing testArgsStore).2.1,
    (json_help_prints_nothing testArgsStore).2.2.2.2.2.2.2.2.2 _ _
      (help_eq testArgsStore_lays 0 (fun s hs _ => (by decide : NullTerminated testArgsLayout) s hs)
        (by decide : testArgsStore.s_commandLineOptions.argv[0]? = some "testArgs"))
      (help_eq testArgsStore_lays 1 (fun s hs _ => (by decide : NullTerminated testArgsLayout) s hs)
        (by decide : testArgsStore.s_commandLineOptions.argv[0]? = some "testArgs"))⟩

theorem append_cons_left_unique {α : Type} {c : α} :
    ∀ {l1 l2 r1 r2 : List α}, c ∉ l1 → c ∉ l2 → l1 ++ c :: r1 = l2 ++ c :: r2 → l1 = l2 := by
  intro l1
  induction l1 with
  | nil =>
    intro l2 r1 r2 _ h2 h
    cases l2 with
    | nil => rfl
    | cons b l2 =>
      simp only [List.nil_append, List.cons_append, List.cons.injEq] at h
      exact absurd (h.1 ▸ List.mem_cons_self _ _) h2
  | cons a l1 ih =>
    intro l2 r1 r2 h1 h2 h
    cases l2 with
    | nil =>
      simp only [List.nil_append, List.cons_append, List.cons.injEq] at h
      exact absurd (h.1 ▸ List.mem_cons_self _ _) h1
    | cons b l2 =>
      simp only [List.cons_append, List.cons.injEq] at h
      rw [h.1, ih (fun hm => h1 (List.mem_cons_of_mem _ hm))
        (fun hm => h2 (List.mem_cons_of_mem _ hm)) h.2]

/-- The labels of `easyopts_print_option_type` for the declared kinds are pairwise
different. -/
theorem print_option_type_injective :
    ∀ a ∈ declaredKinds, ∀ b ∈ declaredKinds,
      easyopts_print_option_type a = easyopts_print_option_type b → a = b := by
  decide

/-- No label of `easyopts_print_option_type` holds a closing bracket. -/
theorem print_option_type_no_bracket :
    ∀ a ∈ declaredKinds, ']' ∉ (easyopts_print_option_type a).data := by
  decide

theorem print_option_type_unknown (t : Int) (h : t ∉ declaredKinds) :
    easyopts_print_option_type t = "Options are Unknown" := by
  unfold declaredKinds at h
  simp only [List.mem_cons, List.mem_singleton, not_or, List.not_mem_nil, or_false] at h
  simp [easyopts_print_option_type, h]

theorem mem_declaredKinds (t : Int) :
    t ∈ declaredKinds ↔ DATATYPE_INVALID ≤ t ∧ t ≤ DATATYPE_STRING := by
  unfold declaredKinds
  simp only [List.mem_cons, List.mem_singleton, List.not_mem_nil, or_false]
  constructor
  · intro h
    rcases h with h | h | h | h | h | h | h | h | h | h | h | h | h | h <;> subst h <;> decide
  · intro h
    have h1 : 0 ≤ t := h.1
    have h2 : t ≤ 13 := h.2
    show t = 0 ∨ t = 1 ∨ t = 2 ∨ t = 3 ∨ t = 4 ∨ t = 5 ∨ t = 6 ∨ t = 7 ∨ t = 8 ∨ t = 9 ∨
      t = 10 ∨ t = 11 ∨ t = 12 ∨ t = 13
    omega

/-- The line of an option in its section block tells the kind of the option: two options
of the same long-form name with declared kinds and the same line have the same kind. -/
theorem optionLine_tells_kind (o1 o2 : easyopts_option) (h1 : o1.type ∈ declaredKinds)
    (h2 : o2.type ∈ declaredKinds) (hn : o1.longOption = o2.longOption)
    (hl : optionLine o1 = optionLine o2) : o1.type = o2.type := by
  have hd := congrArg String.data hl
  simp only [optionLine, hn, String.data_append, List.append_assoc] at hd
  have hd1 := List.append_cancel_left (List.append_cancel_left (List.append_cancel_left hd))
  simp only [List.cons_append] at hd1
  have hlab := append_cons_left_unique (print_option_type_no_bracket _ h1)
    (print_option_type_no_bracket _ h2) hd1
  exact print_option_type_injective _ h1 _ h2 (String.ext hlab)

/-- C22.  `easyopts_print_option_type` maps the fourteen declared kinds, the values from
`DATATYPE_INVALID` to `DATATYPE_STRING`, to fourteen pairwise different labels, none of
them the fallback text, and maps every value outside that range to "Options are Unknown";
`easyopts_print_type` returns the same text for exactly the values other than
`TYPE_PUBLIC`, `TYPE_HIDDEN` and `TYPE_DEPRECATED`.  The line of an option in its section
block tells its kind: two options of the same long-form name with declared kinds and the
same line have the same kind. -/
theorem option_type_labels_are_pairwise_different :
    declaredKinds.length = 14 ∧
    (declaredKinds.map easyopts_print_option_type).length = 14 ∧
    (declaredKinds.map easyopts_print_option_type).Nodup ∧
    (∀ a ∈ declaredKinds, ∀ b ∈ declaredKinds,
      easyopts_print_option_type a = easyopts_print_option_type b → a = b) ∧
    (∀ t : Int, t ∈ declaredKinds ↔ DATATYPE_INVALID ≤ t ∧ t ≤ DATATYPE_STRING) ∧
    (∀ t : Int, t < DATATYPE_INVALID ∨ DATATYPE_STRING < t →
      easyopts_print_option_type t = "Options are Unknown") ∧
    (∀ t ∈ declaredKinds, easyopts_print_option_type t ≠ "Options are Unknown") ∧
    (∀ t : Int, easyopts_print_type t = "Options are Unknown" ↔
      t ≠ TYPE_PUBLIC ∧ t ≠ TYPE_HIDDEN ∧ t ≠ TYPE_DEPRECATED) ∧
    (∀ o1 o2 : easyopts_option, o1.type ∈ declaredKinds → o2.type ∈ declaredKinds →
      o1.longOption = o2.longOption → optionLine o1 = optionLine o2 → o1.type = o2.type) := by
  refine ⟨by decide, by decide, by decide, print_option_type_injective, mem_declaredKinds,
    ?_, by decide, ?_, optionLine_tells_kind⟩
  · intro t ht
    apply print_option_type_unknown
    rw [mem_declaredKinds]
    have h0 : DATATYPE_INVALID = 0 := rfl
    have h13 : DATATYPE_STRING = 13 := rfl
    rw [h0, h13] at ht ⊢
    omega
  · intro t
    unfold easyopts_print_type
    constructor
    · intro h
      refine ⟨?_, ?_, ?_⟩ <;> intro ht <;> subst ht <;> revert h <;> decide
    · rintro ⟨h1, h2, h3⟩
      simp [h1, h2, h3]

set_option maxRecDepth 100000 in
/-- C22 at values next to the range and at an option of the test program: the values -1
and 14 (`DATATYPE_LIMIT`) get the fallback text, as `TYPE_INVALID` and `TYPE_LIMIT` do from
`easyopts_print_type`, and the line of `iargA2` tells that its kind is signed int. -/
theorem option_type_labels_are_pairwise_different_witness :
    easyopts_print_option_type (-1) = "Options are Unknown" ∧
    easyopts_print_option_type DATATYPE_LIMIT = "Options are Unknown" ∧
    easyopts_print_type TYPE_INVALID = "Options are Unknown" ∧
    easyopts_print_type TYPE_LIMIT = "Options are Unknown" ∧
    optionLine iargA2 = "--iargA2=[Signed Integer] Section A, argument 2 description\n" ∧
    (∀ t ∈ declaredKinds, optionLine { iargA2 with type := t } = optionLine iargA2 →
      t = DATATYPE_SIGNED_INT) :=
  ⟨option_type_labels_are_pairwise_different.2.2.2.2.2.1 (-1) (Or.inl (by decide)),
    option_type_labels_are_pairwise_different.2.2.2.2.2.1 DATATYPE_LIMIT (Or.inr (by decide)),
    (option_type_labels_are_pairwise_different.2.2.2.2.2.2.2.1 TYPE_INVALID).mpr (by decide),
    (option_type_labels_are_pairwise_different.2.2.2.2.2.2.2.1 TYPE_LIMIT).mpr (by decide),
    by decide,
    fun t ht hl => option_type_labels_are_pairwise_different.2.2.2.2.2.2.2.2
      { iargA2 with type := t } iargA2 ht (by decide) rfl hl⟩

set_option maxRecDepth 100000 in
/-- C2 (code defect, evaluated at the failing input).  After
`easyopts_initProgramOptions(1, ["prog"], "demo")` on an allocator that left, in the `next`
field of the list item of `help-json` (the code never writes that field), the address of
the block handed out next, `easyopts_help` returns and prints `help-hidden` and
`help-hidden-json`, the options of the hidden section, in the usage line and in the block
of section "Common": its text is not the text of the store without its hidden section. -/
theorem help_prints_options_of_a_hidden_section :
    ((easyopts_initProgramOptions forwardJunk 1 ["prog"] "demo" emptyWorld).bind
        easyopts_help).map (fun w => w.stdout) =
      some (helpText "demo" "prog" [commonThenHidden]) ∧
    usageLine "prog" [commonThenHidden] =
      "Usage: prog [--version=X] [--help=X] [--help-json=X] [--help-hidden=X] [--help-hidden-json=X]\n" ∧
    (registered []).filter (fun s => decide (s.type ≠ TYPE_HIDDEN)) =
      [{ name := "Common", description := "Provide Common Arguments for help and versioning",
         type := TYPE_PUBLIC, options := [optVersion, optHelp, optHelpJson] }] ∧
    usageLine "prog" ((registered []).filter fun s => decide (s.type ≠ TYPE_HIDDEN)) =
      "Usage: prog [--version=X] [--help=X] [--help-json=X]\n" ∧
    helpText "demo" "prog" [commonThenHidden] ≠
      helpText "demo" "prog" ((registered []).filter fun s => decide (s.type ≠ TYPE_HIDDEN)) := by
  decide

set_option maxRecDepth 100000 in
/-- C7 (code defect, evaluated at the failing input).  After
`easyopts_initProgramOptions(1, ["prog"], "demo")` on an allocator that left, in the `next`
field of the list item of `help-json` (the code never writes that field), the address of
the block handed out next, `easyopts_help_hidden` prints five option lines in the block of
section "Common", which has three options: the lines of `help-hidden` and
`help-hidden-json` appear there and once more in the block of "Common Hidden". -/
theorem help_hidden_block_lists_foreign_options :
    ((easyopts_initProgramOptions forwardJunk 1 ["prog"] "demo" emptyWorld).bind
        easyopts_help_hidden).map (fun w => w.stdout) =
      some ("demo\n\n" ++
        "Usage: prog [--version=X] [--help=X] [--help-json=X] [--help-hidden=X] [--help-hidden-json=X] [--help-hidden=X] [--help-hidden-json=X]\n" ++
        "[Common: Options are public]\n" ++
        "Provide Common Arguments for help and versioning\n" ++
        "--version=[String] Print the library's version information\n" ++
        "--help=[String] Print program usage and exit.\n" ++
        "--help-json=[String] Print program usage in Json format and exit.\n" ++
        "--help-hidden=[String] Print program usage (including hidden options) and exit.\n" ++
        "--help-hidden-json=[String] Print program usage in Json format (including hidden options) and exit.\n" ++
        "\n" ++
        "[Common Hidden: Options are hidden]\n" ++
        "Provide Common Arguments for help and versioning (Hidden)\n" ++
        "--help-hidden=[String] Print program usage (including hidden options) and exit.\n" ++
        "--help-hidden-json=[String] Print program usage in Json format (including hidden options) and exit.\n" ++
        "\n") ∧
    (registered []).map (fun s => (s.name, s.options.map fun o => o.longOption)) =
      [("Common", ["version", "help", "help-json"]),
       ("Common Hidden", ["help-hidden", "help-hidden-json"])] ∧
    ((easyopts_initProgramOptions forwardJunk 1 ["prog"] "demo" emptyWorld).bind
        easyopts_help_hidden).map (fun w => w.stdout) ≠
      some (helpText "demo" "prog" (registered [])) := by
  decide

set_option maxRecDepth 100000 in
/-- C18 (code defect, evaluated at the failing input).  After
`easyopts_initProgramOptions(1, ["prog"], "demo")` on an allocator that left the address
of the first option list item in the block it hands out for the fifth one, section
"Common Hidden" has `firstOption` at item 3 and `lastOption` at item 4, and the `next`
field of item 4, which `easyopts_addOption` never writes, holds item 0: the list that
starts at `firstOption` runs on through the items 0, 1 and 2, and its final node is
item 2, not `lastOption`. -/
theorem lastOption_is_not_the_final_node :
    (easyopts_initProgramOptions staleJunk 1 ["prog"] "demo" emptyWorld).bind
      (fun w => (w.sections.load (some 1)).map fun s =>
        (s.name, s.firstOption, s.lastOption)) = some ("Common Hidden", some 3, some 4) ∧
    (easyopts_initProgramOptions staleJunk 1 ["prog"] "demo" emptyWorld).bind
      (fun w => (w.optionItems.load (some 4)).map fun item => item.next) = some (some 0) ∧
    (easyopts_initProgramOptions staleJunk 1 ["prog"] "demo" emptyWorld).bind
      (fun w => chainFrom w.optionItems (w.optionItems.length + 1) (some 3)) =
        some [3, 4, 0, 1, 2] ∧
    ([3, 4, 0, 1, 2] : List Nat).getLast? = some 2 ∧
    (easyopts_initProgramOptions zeroJunk 1 ["prog"] "demo" emptyWorld).bind
      (fun w => chainFrom w.optionItems (w.optionItems.length + 1) (some 3)) =
        some [3, 4] := by
  decide

/-- The usage loop over a chain of option list items, whatever follows the chain: it
prints the entries of the chain in chain order and goes on at the `next` field of the last
item. -/
theorem helpUsageOptions_segment (cs : List OptCell) :
    ∀ (k : Nat) (p t : Ptr) (w : World),
      Links (optionLink w.optionItems) p (optAddrs cs) t →
      (∀ c ∈ cs, w.options.load (some c.obj) = some c.val) →
      helpUsageOptions (k + cs.length) p w =
        helpUsageOptions k t (printf (joinText (cs.map fun c => usageEntry c.val)) w) := by
  induction cs with
  | nil =>
    intro k p t w hl _
    have hp : p = t := hl
    subst hp
    simp [joinText, printf_empty]
  | cons c cs ih =>
    intro k p t w hl hv
    obtain ⟨hp, nx, hc, hrest⟩ := hl
    subst hp
    have hload : w.optionItems.load (some c.item) =
        some { object := some c.obj, next := nx } := optionLink_eq_some.mp hc
    have hobj := hv c (List.mem_cons_self _ _)
    have hload' : ∀ t, (printf t w).optionItems.load (some c.item) =
        some { object := some c.obj, next := nx } := fun _ => hload
    have hrec := ih k nx t (printf (usageEntry c.val) w) hrest
      (fun d hd => hv d (List.mem_cons_of_mem _ hd))
    have hlen : k + (c :: cs).length = (k + cs.length) + 1 := by simp; omega
    rw [hlen]
    simp [helpUsageOptions, hload, hobj, usagePrint_eq, hload', hrec, printf_printf, joinText]

theorem withStdout_self (w : World) : withStdout w w.stdout = w := rfl

/-- What the usage loop over options returns is the state it was given, with text
appended to standard output. -/
theorem helpUsageOptions_grows {fuel : Nat} {p : Ptr} {w w' : World}
    (h : helpUsageOptions fuel p w = some w') : ∃ t, w' = printf t w := by
  obtain ⟨r, hr⟩ := helpUsageOptions_stdout fuel p w
  have h0 := hr w.stdout
  rw [withStdout_self, h] at h0
  cases r with
  | none => cases h0
  | some t => exact ⟨t, Option.some.inj h0⟩

theorem helpUsageSections_grows {showHidden : Int} {fuel : Nat} {p : Ptr} {w w' : World}
    (h : helpUsageSections showHidden fuel p w = some w') : ∃ t, w' = printf t w := by
  obtain ⟨r, hr⟩ := helpUsageSections_stdout showHidden fuel p w
  have h0 := hr w.stdout
  rw [withStdout_self, h] at h0
  cases r with
  | none => cases h0
  | some t => exact ⟨t, Option.some.inj h0⟩

theorem helpBlockSections_grows {showHidden : Int} {fuel : Nat} {p : Ptr} {w w' : World}
    (h : helpBlockSections showHidden fuel p w = some w') : ∃ t, w' = printf t w := by
  obtain ⟨r, hr⟩ := helpBlockSections_stdout showHidden fuel p w
  have h0 := hr w.stdout
  rw [withStdout_self, h] at h0
  cases r with
  | none => cases h0
  | some t => exact ⟨t, Option.some.inj h0⟩

/-- On a state that holds a registry whose first section is shown, whatever follows the
option chains: a help call that returns has printed the description, an empty line,
`Usage: <argv[0]>` and directly after it the usage entries of the options of the first
section, in registration order. -/
theorem help_starts_with_first_section {w : World} {s : SecCell} {L : List SecCell}
    (h : Lays w (s :: L)) (showHidden : Int) (hshow : printIt showHidden s.type = true)
    {argv0 : String} (ha : w.s_commandLineOptions.argv[0]? = some argv0) {w' : World}
    (hret : _easyopts_help showHidden w = some w') :
    ∃ more, w' = printf (w.s_commandLineOptions.description ++ "\n\n" ++
      ("Usage: " ++ argv0 ++ joinText (s.opts.map fun c => usageEntry c.val)) ++ more) w := by
  have hs : s ∈ s :: L := List.mem_cons_self _ _
  obtain ⟨hfirst, nx, hitem, _⟩ := h.secLinks
  have hitem' : w.sectionItems.load (some s.item) =
      some { object := some s.obj, next := nx } := sectionLink_eq_some.mp hitem
  have hobj := h.secObj s hs
  have hlen := h.opts_length_le hs
  obtain ⟨k, hk⟩ : ∃ k, w.optionItems.length + 1 = k + s.opts.length :=
    ⟨w.optionItems.length + 1 - s.opts.length, by omega⟩
  have hseg := fun t => helpUsageOptions_segment s.opts k (firstItem s.opts) s.tail
    (printf t w) (h.optLinks s hs) (fun c hc => h.optObj c (mem_allOpts.mpr ⟨s, hs, hc⟩))
  unfold _easyopts_help at hret
  simp only [printf_printf] at hret
  have ha' : ∀ t, (printf t w).s_commandLineOptions.argv[0]? = some argv0 := fun _ => ha
  have hf' : ∀ t, (printf t w).s_commandLineOptions.firstSection = some s.item :=
    fun _ => hfirst
  have hi' : ∀ t, (printf t w).sectionItems.load (some s.item) =
      some { object := some s.obj, next := nx } := fun _ => hitem'
  have ho' : ∀ t, (printf t w).sections.load (some s.obj) = some
      { name := s.name, description := s.description, type := s.type,
        firstOption := firstItem s.opts, lastOption := lastItem s.opts } := fun _ => hobj
  have hl' : ∀ t, (printf t w).optionItems.length = w.optionItems.length := fun _ => rfl
  have hsl' : ∀ t, (printf t w).sectionItems.length = w.sectionItems.length := fun _ => rfl
  simp only [ha', Option.some_bind, hf', hfirst, hsl'] at hret
  obtain ⟨w3, h3, h4⟩ := Option.bind_eq_some.mp hret
  simp only [helpUsageSections, hi', ho', Option.some_bind, hshow, if_true, hl', hk, hseg,
    printf_printf] at h3
  obtain ⟨wa, ha1, ha2⟩ := Option.bind_eq_some.mp h3
  obtain ⟨t1, rfl⟩ := helpUsageOptions_grows ha1
  simp only [printf_printf, hi', Option.some_bind] at ha2
  obtain ⟨t2, rfl⟩ := helpUsageSections_grows ha2
  simp only [printf_printf] at h4
  obtain ⟨t3, rfl⟩ := helpBlockSections_grows h4
  refine ⟨t1 ++ t2 ++ "\n" ++ t3, ?_⟩
  simp only [printf_printf, String.append_assoc]

/-- One turn of the usage loop: the entry of the option is printed without brackets when
its `isRequired` is `REQUIRED_REQUIRED` and in brackets otherwise, and the loop goes on at
the `next` field. -/
theorem helpUsageOptions_step {v : World} {a : Nat} {item : easyopts_options_list}
    {o : easyopts_option} (fuel : Nat) (hitem : v.optionItems.load (some a) = some item)
    (hobj : v.options.load item.object = some o) :
    helpUsageOptions (fuel + 1) (some a) v =
      helpUsageOptions fuel item.next
        (printf (if o.isRequired = REQUIRED_REQUIRED then " --" ++ o.longOption ++ "=X"
          else " [--" ++ o.longOption ++ "=X]") v) := by
  have hitem' : ∀ t, (printf t v).optionItems.load (some a) = some item := fun _ => hitem
  by_cases hr : o.isRequired = REQUIRED_REQUIRED <;>
    simp [helpUsageOptions, hitem, hobj, hr, hitem']

/-- C20.  In the usage loop an option is printed as ` --<long>=X` exactly when its
`isRequired` is `REQUIRED_REQUIRED`, and as ` [--<long>=X]` for every other value,
`REQUIRED_NONE` and `REQUIRED_INVALID` included.  For every store built by
`easyopts_initProgramOptions` and registration calls, whatever the allocator left in the
blocks: every call of `easyopts_help` that returns has printed the description, an empty
line and `Usage: <argv[0]> [--version=X] [--help=X] [--help-json=X]`, then the rest of the
text; and the call does return when the allocator hands out zeroed blocks. -/
theorem usage_line_starts_with_builtin_switches (junk : Nat → Ptr) (argc : Int)
    (argv0 : String) (args : List String) (description : String) (calls : List Call)
    (w0 : World) (hv : ValidCalls 0 calls) :
    (∀ (v : World) (a : Nat) (item : easyopts_options_list) (o : easyopts_option)
        (fuel : Nat),
      v.optionItems.load (some a) = some item → v.options.load item.object = some o →
      helpUsageOptions (fuel + 1) (some a) v = helpUsageOptions fuel item.next (printf
        (if o.isRequired = REQUIRED_REQUIRED then " --" ++ o.longOption ++ "=X"
          else " [--" ++ o.longOption ++ "=X]") v)) ∧
    (∀ o : easyopts_option,
      (o.isRequired = REQUIRED_NONE ∨ o.isRequired = REQUIRED_INVALID ∨
          o.isRequired = REQUIRED_OPTIONAL →
        (if o.isRequired = REQUIRED_REQUIRED then " --" ++ o.longOption ++ "=X"
          else " [--" ++ o.longOption ++ "=X]") = " [--" ++ o.longOption ++ "=X]") ∧
      " [--" ++ o.longOption ++ "=X]" ≠ " --" ++ o.longOption ++ "=X") ∧
    ∃ w, runProgram junk argc (argv0 :: args) description calls w0 = some w ∧
      (∀ w', easyopts_help w = some w' → ∃ more, w' = printf (description ++ "\n\n" ++
        ("Usage: " ++ argv0 ++ " [--version=X] [--help=X] [--help-json=X]") ++ more) w) ∧
      ((∀ a, junk a = none) → ∃ w', easyopts_help w = some w') := by
  refine ⟨fun v a item o fuel hitem hobj => helpUsageOptions_step fuel hitem hobj, ?_, ?_⟩
  · intro o
    refine ⟨?_, ?_⟩
    · intro ho
      have hne : o.isRequired ≠ REQUIRED_REQUIRED := by
        rcases ho with ho | ho | ho <;> rw [ho] <;> decide
      rw [if_neg hne]
    · intro heq
      have hd := congrArg String.data heq
      simp at hd
  · obtain ⟨w, L, hrun, hl, hreg, _, hargv, hdesc, _, _, hn⟩ :=
      runProgram_lays junk argc (argv0 :: args) description calls w0 hv
    have ha : w.s_commandLineOptions.argv[0]? = some argv0 := by
      rw [hargv]
      simp
    rw [registered_eq] at hreg
    cases L with
    | nil => simp [registry, builtinSections] at hreg
    | cons s L =>
      have hview : s.view = SectionView.mk "Common"
          "Provide Common Arguments for help and versioning" TYPE_PUBLIC
          [optVersion, optHelp, optHelpJson] := by
        have := congrArg List.head? hreg
        simpa [registry, builtinSections] using this
      have htype : s.type = TYPE_PUBLIC := congrArg SectionView.type hview
      have hopts : s.opts.map (fun c => c.val) = [optVersion, optHelp, optHelpJson] :=
        congrArg SectionView.options hview
      have hshow : printIt 0 s.type = true := by
        rw [htype]
        decide
      have hentries : joinText (s.opts.map fun c => usageEntry c.val) =
          " [--version=X] [--help=X] [--help-json=X]" := by
        have : (s.opts.map fun c => usageEntry c.val) =
            (s.opts.map fun c => c.val).map usageEntry := by
          rw [List.map_map]
          rfl
        rw [this, hopts]
        decide
      refine ⟨w, hrun, ?_, ?_⟩
      · intro w' hret
        obtain ⟨more, hmore⟩ := help_starts_with_first_section hl 0 hshow ha hret
        rw [hentries, hdesc] at hmore
        exact ⟨more, hmore⟩
      · intro hj
        exact ⟨_, help_eq hl 0 (fun s hs _ => hn hj s hs) ha⟩

set_option maxRecDepth 100000 in
/-- C20 at the registration calls of the test program, run as `testArgs extra1` on an
allocator that left, in the block of the third option list item, the address of the
fourth: `easyopts_help` returns, and its text starts as stated. -/
theorem usage_line_starts_with_builtin_switches_witness :
    ∃ w, runProgram forwardJunk 2 ["testArgs", "extra1"]
        "This is the general description of this test program" testArgsCalls emptyWorld
        = some w ∧
      (∃ w', easyopts_help w = some w') ∧
      (∀ w', easyopts_help w = some w' → ∃ more, w' = printf
        ("This is the general description of this test program" ++ "\n\n" ++
          ("Usage: " ++ "testArgs" ++ " [--version=X] [--help=X] [--help-json=X]") ++ more)
        w) := by
  obtain ⟨w, hrun, hpre, _⟩ := (usage_line_starts_with_builtin_switches forwardJunk 2
    "testArgs" ["extra1"] "This is the general description of this test program"
    testArgsCalls emptyWorld (by simp [ValidCalls, testArgsCalls])).2.2
  refine ⟨w, hrun, ?_, hpre⟩
  have hw : runProgram forwardJunk 2 ["testArgs", "extra1"]
      "This is the general description of this test program" testArgsCalls emptyWorld
      = some w := hrun
  have hsome : ((runProgram forwardJunk 2 ["testArgs", "extra1"]
      "This is the general description of this test program" testArgsCalls emptyWorld).bind
      easyopts_help).isSome = true := by decide
  rw [hw] at hsome
  exact Option.isSome_iff_exists.mp hsome

theorem blindOption_blindOption (o : easyopts_option) :
    blindOption (blindOption o) = blindOption o := rfl

theorem forget_forget (w : World) : forget (forget w) = forget w := by
  show ({ w with
    s_commandLineOptions :=
      { w.s_commandLineOptions with
        argc := 0, argv := (w.s_commandLineOptions.argv.take 1).take 1 },
    options := (w.options.map (Option.map blindOption)).map (Option.map blindOption) } : World)
      = forget w
  have h1 : (w.s_commandLineOptions.argv.take 1).take 1 = w.s_commandLineOptions.argv.take 1 := by
    simp [List.take_take]
  have h2 : (w.options.map (Option.map blindOption)).map (Option.map blindOption) =
      w.options.map (Option.map blindOption) := by
    rw [List.map_map]
    apply List.map_congr_left
    intro x _
    cases x <;> rfl
  rw [h1, h2]
  rfl

end Easyopts
